import Mathlib

/-!
Verification of rtabmap `Features2d.cpp` and `Link.h`: keypoint budget enforcement,
depth filtering, region of interest, keypoint generation, backend configuration and
link validity.

A shallow embedding of `limitKeypoints`, `filterKeypointsByDepth`, `computeRoi`,
`Feature2D::generateKeypoints`, the `parseParameters` methods of the backends, the
detection steps of the backends with two engines (`corelib/src/Features2d.cpp`) and
the class `Link` (`corelib/include/rtabmap/core/Link.h`), together with the properties
their specification states about them.

Modelling conventions.

* `float` is `F32`: a finite value (a rational; every finite float is one),
  the two infinities and NaN. Comparisons, `fabs` and the finiteness test follow
  IEEE 754: every ordered comparison with NaN is false. The sum, difference and
  product of finite values, the conversion of an `int` and a decimal literal are
  rounded to the nearest binary32 value, ties to the even significand, and overflow
  to an infinity (`F32.round`); the sign of a zero is not represented. The conversion
  of a `float` to `int` truncates toward zero and has no result where C++ leaves it
  undefined (NaN, an infinity, a value outside the range of `int`).
* `std::vector<T>` is `List T`; `v[i]` is `v.getD i default`, `v[i] = x` is
  `v.set i x`; container sizes are `Nat` and are assumed to fit in an `int`
  (`cv::Mat::rows` is an `int`), so `(int)keypoints.size()` is the size itself.
* `cv::Mat` is its column count, its element type tag and the bytes of its rows, a
  row holding `cols * elemSize` bytes; the storage is continuous, so that row `i`
  starts `i * cols * elemSize` bytes after row 0. `memcpy(dst.ptr<float>(k),
  src.ptr<float>(i), n)` copies `n` bytes from the address of row `i` of `src` to
  the address of row `k` of `dst`, whatever the element type of the two matrices.
* `std::multimap<float,int>` is the red-black tree of the GNU C++ library: `insert`
  goes down from the root, to the left where the new key is less than the key of the
  node and to the right otherwise, and rebalances the tree; the iteration order is the
  in-order sequence of the entries. Where no key is NaN this places the new entry
  after the entries whose key is not greater (the upper bound of its key).
* `UASSERT` is a fatal assertion: a violated assertion ends the call without a result
  (`none`). `UERROR` logs and returns; the other logging calls are left out.
* An object is the record of its data members, a method takes the object and returns
  it updated; a pointer to an engine is an `Option`, `none` for the null pointer.
-/

set_option maxRecDepth 100000

namespace rtabmap

/-- A `float`: NaN, minus infinity, a finite value, or plus infinity. -/
inductive F32 where
  | nan : F32
  | ninf : F32
  | fin (q : ℚ) : F32
  | pinf : F32
deriving DecidableEq

namespace F32

/-- The float comparison `a < b`; false as soon as one side is NaN. -/
def lt : F32 → F32 → Bool
  | nan, _ => false
  | _, nan => false
  | ninf, ninf => false
  | ninf, _ => true
  | fin _, ninf => false
  | fin a, fin b => decide (a < b)
  | fin _, pinf => true
  | pinf, _ => false

/-- The float comparison `a <= b`; false as soon as one side is NaN. -/
def le : F32 → F32 → Bool
  | nan, _ => false
  | _, nan => false
  | ninf, _ => true
  | fin _, ninf => false
  | fin a, fin b => decide (a ≤ b)
  | fin _, pinf => true
  | pinf, pinf => true
  | pinf, _ => false

/-- The float comparison `a > b`. -/
def gt (a b : F32) : Bool := lt b a

/-- The float comparison `a >= b`. -/
def ge (a b : F32) : Bool := le b a

/-- The C library `fabs`. -/
def fabs : F32 → F32
  | nan => nan
  | ninf => pinf
  | fin q => fin |q|
  | pinf => pinf

/-- The literal `0.0f`. -/
def zero : F32 := fin 0

end F32

/-- Modelled from the spec: `uIsFinite` of `rtabmap/utilite/UMath.h`, which is
not among the sources; the depth filter keeps a keypoint only if its depth is
"finite", that is neither NaN nor an infinity. -/
def uIsFinite : F32 → Bool
  | F32.fin _ => true
  | _ => false

/-- The type `cv::Point2f`. -/
structure Point2f where
  x : F32
  y : F32
deriving DecidableEq

/-- The type `cv::KeyPoint`. -/
structure KeyPoint where
  pt : Point2f
  size : F32
  angle : F32
  response : F32
  octave : Int
  class_id : Int
deriving DecidableEq

/-- The default constructor `cv::KeyPoint()`. -/
instance : Inhabited KeyPoint :=
  ⟨⟨⟨F32.zero, F32.zero⟩, F32.zero, F32.fin (-1), F32.zero, 0, -1⟩⟩

/-- The type `pcl::PointXYZ`. -/
structure PointXYZ where
  x : F32
  y : F32
  z : F32
deriving DecidableEq

/-- One byte of storage, as a number from 0 to 255. -/
abbrev Byte := Nat

/-- The bytes of one row of a `cv::Mat`. -/
abbrev Row := List Byte

/-- The type `cv::Mat` (two-dimensional): `rows` is the number of stored rows. -/
structure Mat where
  cols : Nat
  type : Int
  rowData : List Row
deriving DecidableEq

namespace Mat

/-- The field `rows`. -/
def rows (m : Mat) : Nat := m.rowData.length

/-- The default constructor `cv::Mat()`: no rows, no columns. -/
def nil : Mat := ⟨0, 0, []⟩

/-- The OpenCV macro `CV_ELEM_SIZE(type)`, the number of bytes of one element: the type
tag is `depth + 8 * (channels - 1)`, the depths 0 and 1 are 8-bit, 2 and 3 are 16-bit,
4 and 5 (`CV_32S`, `CV_32F`) are 32-bit, 6 (`CV_64F`) and 7 are 64-bit. -/
def elemSizeOf (type : Int) : Nat :=
  (match (type % 8).toNat with
    | 0 => 1
    | 1 => 1
    | 2 => 2
    | 3 => 2
    | 4 => 4
    | 5 => 4
    | _ => 8) * (type / 8 + 1).toNat

/-- The method `elemSize()`. -/
def elemSize (m : Mat) : Nat := elemSizeOf m.type

/-- The number of bytes from one row to the next (`step`) of a continuous matrix. -/
def step (m : Mat) : Nat := m.cols * m.elemSize

/-- The constructor `cv::Mat(rows, cols, type)`; the contents are not
initialised by OpenCV, here every byte is zero. -/
def create (rows cols : Nat) (type : Int) : Mat :=
  ⟨cols, type, List.replicate rows (List.replicate (cols * elemSizeOf type) 0)⟩

/-- The method `empty()`: no element is stored. -/
def empty (m : Mat) : Bool := m.rows == 0 || m.cols == 0

/-- The bytes of the row `ptr<float>(i)` points to. -/
def row (m : Mat) (i : Nat) : Row := m.rowData.getD i []

/-- The bytes of the storage, in address order. -/
def storage (m : Mat) : List Byte := m.rowData.flatten

end Mat

/-- The list of `f i a` for the elements `a` of a list, `i` being the position of `a`
counted from `start`. -/
def mapIdxFrom {α β : Type} (f : Nat → α → β) : Nat → List α → List β
  | _, [] => []
  | start, a :: rest => f start a :: mapIdxFrom f (start + 1) rest

/-- The constant `sizeof(float)`. -/
def sizeofFloat : Nat := 4

/-- The call `memcpy(dst.ptr<float>(k), src.ptr<float>(i), n)`. The two pointers are
the addresses of row `k` of `dst` and of row `i` of `src` (the type `float` only types
the pointers), and byte `c` of row `r` lies `r * step + c` bytes after the start of the
storage. Each byte of `dst` within `n` bytes of the start of row `k` receives the byte
of `src` at the same distance from the start of row `i`. A copy that crosses the end of
a storage is undefined in C++: here the bytes written past the end of `dst` are left
out and the bytes read past the end of `src` are zero. -/
def memcpy (dst : Mat) (k : Nat) (src : Mat) (i : Nat) (n : Nat) : Mat :=
  { dst with
    rowData :=
      mapIdxFrom (fun r row =>
        mapIdxFrom (fun c b =>
          if k * dst.step ≤ r * dst.step + c ∧ r * dst.step + c < k * dst.step + n then
            src.storage.getD (i * src.step + (r * dst.step + c - k * dst.step)) 0
          else b) 0 row) 0 dst.rowData }

/-- The signature of `util3d::getDepth(depth, x, y, cx, cy, fx, fy, smoothing)`,
which is not among the sources and is taken as a parameter. -/
abbrev GetDepth := Mat → F32 → F32 → F32 → F32 → F32 → F32 → Bool → PointXYZ

/-- The method `std::vector::resize(n)`. -/
def resize {α : Type} [Inhabited α] (v : List α) (n : Nat) : List α :=
  v.take n ++ List.replicate (n - v.length) default

/-- The test of line 72 on keypoint `kp`: its depth is finite and below `maxDepth`. -/
def depthOk (getDepth : GetDepth) (depth : Mat) (fx fy cx cy maxDepth : F32)
    (kp : KeyPoint) : Bool :=
  let pt := getDepth depth kp.pt.x kp.pt.y cx cy fx fy true
  uIsFinite pt.z && F32.lt pt.z maxDepth

/-- The state of the first loop of `filterKeypointsByDepth`. -/
structure DepthLoopState where
  output : List KeyPoint
  indexes : List Int
  oi : Nat

/-- One iteration (index `i`) of the loop of lines 69-77. -/
def depthLoopStep (getDepth : GetDepth) (keypoints : List KeyPoint) (depth : Mat)
    (fx fy cx cy maxDepth : F32) (s : DepthLoopState) (i : Nat) : DepthLoopState :=
  if depthOk getDepth depth fx fy cx cy maxDepth (keypoints.getD i default) then
    { output := s.output.set s.oi (keypoints.getD i default),
      indexes := s.indexes.set i 1,
      oi := s.oi + 1 }
  else s

/-- The loop of lines 69-77, `i` running over `0 .. keypoints.size()-1`. -/
def depthLoop (getDepth : GetDepth) (keypoints : List KeyPoint) (depth : Mat)
    (fx fy cx cy maxDepth : F32) : DepthLoopState :=
  (List.range keypoints.length).foldl
    (depthLoopStep getDepth keypoints depth fx fy cx cy maxDepth)
    { output := List.replicate keypoints.length default,
      indexes := List.replicate keypoints.length 0,
      oi := 0 }

/-- One iteration (index `i`) of the loop of lines 91-97. -/
def copyRowsStep (descriptors : Mat) (indexes : List Int) (s : Mat × Nat) (i : Nat) :
    Mat × Nat :=
  if indexes.getD i 0 == 1 then
    (memcpy s.1 s.2 descriptors i (descriptors.cols * sizeofFloat), s.2 + 1)
  else s

/-- The loop of lines 91-97, `i` running over `0 .. indexes.size()-1`. -/
def copyRows (descriptors : Mat) (indexes : List Int) (newDescriptors : Mat) : Mat × Nat :=
  (List.range indexes.length).foldl (copyRowsStep descriptors indexes) (newDescriptors, 0)

/-- The function `filterKeypointsByDepth` (lines 54-102); the two references
`keypoints` and `descriptors` are returned as a pair. -/
def filterKeypointsByDepth (getDepth : GetDepth) (keypoints : List KeyPoint)
    (descriptors : Mat) (depth : Mat) (fx fy cx cy maxDepth : F32) : List KeyPoint × Mat :=
  if !depth.empty && F32.gt fx F32.zero && F32.gt fy F32.zero && F32.gt maxDepth F32.zero
      && (descriptors.empty || descriptors.rows == keypoints.length) then
    let s := depthLoop getDepth keypoints depth fx fy cx cy maxDepth
    let output := resize s.output s.oi
    let keypoints := output
    if !descriptors.empty && keypoints.length != descriptors.rows then
      if keypoints.length == 0 then
        (keypoints, Mat.nil)
      else
        let newDescriptors := Mat.create keypoints.length descriptors.cols descriptors.type
        (keypoints, (copyRows descriptors s.indexes newDescriptors).1)
    else
      (keypoints, descriptors)
  else
    (keypoints, descriptors)

/-- The colour of a node of the red-black tree of a `std::multimap`. -/
inductive Color where
  | red : Color
  | black : Color
deriving DecidableEq

/-- The red-black tree in which a `std::multimap<float,int>` keeps its entries. -/
inductive RbTree where
  | leaf : RbTree
  | node (color : Color) (left : RbTree) (entry : F32 × Nat) (right : RbTree) : RbTree

/-- One step of the way from a node up to the root: the node is the left (`isLeft`) or
the right child of a parent of colour `color` and entry `entry`, whose other child is
`sibling`. -/
structure Step where
  isLeft : Bool
  color : Color
  entry : F32 × Nat
  sibling : RbTree

namespace RbTree

/-- The entries in iteration order (from `begin()` to `end()`). -/
def inorder : RbTree → List (F32 × Nat)
  | leaf => []
  | node _ l e r => l.inorder ++ e :: r.inorder

/-- The node is red (a null pointer is not). -/
def isRed : RbTree → Bool
  | node Color.red _ _ _ => true
  | _ => false

/-- The node with its colour set to `c`. -/
def paint (c : Color) : RbTree → RbTree
  | leaf => leaf
  | node _ l e r => node c l e r

end RbTree

/-- The parent of the step, of colour `c`, with `x` as the child the step comes from. -/
def Step.attach (s : Step) (c : Color) (x : RbTree) : RbTree :=
  if s.isLeft then RbTree.node c x s.entry s.sibling
  else RbTree.node c s.sibling s.entry x

/-- The tree around the subtree `x`, `path` being the way from `x` up to the root. -/
def plug (x : RbTree) : List Step → RbTree
  | [] => x
  | s :: path => plug (s.attach s.color x) path

/-- The descent of `_M_get_insert_equal_pos` for the key `k`: from a node the search
goes left if `k < key(node)` and right otherwise, down to a null pointer; the result is
the way from that place up to the root. -/
def descend (k : F32) : RbTree → List Step → List Step
  | RbTree.leaf, path => path
  | RbTree.node c l e r, path =>
    if F32.lt k e.1 then descend k l (⟨true, c, e, r⟩ :: path)
    else descend k r (⟨false, c, e, l⟩ :: path)

/-- The rotations that end the loop of `_Rb_tree_insert_and_rebalance` when the
uncle of the red node `x` is black: `p` is the step from `x` to its red parent and `g`
the step from the parent to the grandparent. A node on the inner side of its parent is
first rotated above the parent; then the grandparent, made red, is rotated below the
node that is now its child, made black. The result takes the place of the grandparent
(`x` is a node, never a null pointer). -/
def rotate (x : RbTree) (p g : Step) : RbTree :=
  match x with
  | RbTree.leaf => g.attach g.color (p.attach p.color x)
  | RbTree.node _ xl xe xr =>
    match g.isLeft, p.isLeft with
    | true, true =>
      RbTree.node Color.black x p.entry (RbTree.node Color.red p.sibling g.entry g.sibling)
    | true, false =>
      RbTree.node Color.black (RbTree.node Color.red p.sibling p.entry xl) xe
        (RbTree.node Color.red xr g.entry g.sibling)
    | false, false =>
      RbTree.node Color.black (RbTree.node Color.red g.sibling g.entry p.sibling) p.entry x
    | false, true =>
      RbTree.node Color.black (RbTree.node Color.red g.sibling g.entry xl) xe
        (RbTree.node Color.red xr p.entry p.sibling)

/-- The loop of `_Rb_tree_insert_and_rebalance` for the red node `x` at the end of
`path`: while the parent of `x` is red, a red uncle makes the parent and the uncle
black and the grandparent red, and the loop goes on from the grandparent; a black
uncle ends the loop with rotations. The root is black, so a red parent has a parent. -/
def rebalance (x : RbTree) : List Step → RbTree
  | [] => x
  | [p] => plug x [p]
  | p :: g :: rest =>
    if p.color = Color.black then plug x (p :: g :: rest)
    else if g.sibling.isRed then
      rebalance
        (if g.isLeft then
          RbTree.node Color.red (p.attach Color.black x) g.entry (g.sibling.paint Color.black)
         else
          RbTree.node Color.red (g.sibling.paint Color.black) g.entry (p.attach Color.black x))
        rest
    else plug (rotate x p g) rest

/-- The method `std::multimap<float,int>::insert`: the new entry becomes a red node at
the place the descent ends, the tree is rebalanced and the root made black. -/
def RbTree.insert (t : RbTree) (e : F32 × Nat) : RbTree :=
  (rebalance (RbTree.node Color.red RbTree.leaf e RbTree.leaf)
    (descend e.1 t [])).paint Color.black

/-- The entries that come before the subtree at the end of `path` in iteration
order. -/
def entriesBefore : List Step → List (F32 × Nat)
  | [] => []
  | s :: path =>
    entriesBefore path ++ (if s.isLeft then [] else s.sibling.inorder ++ [s.entry])

/-- The entries that come after the subtree at the end of `path` in iteration
order. -/
def entriesAfter : List Step → List (F32 × Nat)
  | [] => []
  | s :: path =>
    (if s.isLeft then s.entry :: s.sibling.inorder else []) ++ entriesAfter path

/-- The entries in iteration order with a new one placed before the first entry
with a greater key (the upper bound of its key). -/
def upperBoundInsert : List (F32 × Nat) → F32 × Nat → List (F32 × Nat)
  | [], e => [e]
  | x :: xs, e => if F32.lt e.1 x.1 then e :: x :: xs else x :: upperBoundInsert xs e

/-- The loop of lines 121-125: the entries of `hessianMap` after all insertions, in
iteration order. -/
def buildHessianMap (keypoints : List KeyPoint) : List (F32 × Nat) :=
  ((List.range keypoints.length).foldl
    (fun m i => m.insert (F32.fabs (keypoints.getD i default).response, i))
    RbTree.leaf).inorder

/-- The loop of lines 136-143, from counter `k` with `iter` the entries the
reverse iterator has not visited yet. -/
def limitLoop (keypoints : List KeyPoint) (descriptors : Mat) :
    Nat → List (F32 × Nat) → List KeyPoint → Mat → List KeyPoint × Mat
  | _, [], kptsTmp, descriptorsTmp => (kptsTmp, descriptorsTmp)
  | k, e :: iter, kptsTmp, descriptorsTmp =>
    if k < kptsTmp.length then
      limitLoop keypoints descriptors (k + 1) iter
        (kptsTmp.set k (keypoints.getD e.2 default))
        (if descriptors.rows != 0 then
          memcpy descriptorsTmp k descriptors e.2 (descriptors.cols * sizeofFloat)
         else descriptorsTmp)
    else (kptsTmp, descriptorsTmp)

/-- Modelled from the spec: the macro `UASSERT` of `rtabmap/utilite/ULogger.h`, which
is not among the sources; a violated assertion is fatal, the call produces no result. -/
def UASSERT (condition : Bool) : Option Unit :=
  if condition then some () else none

/-- The function `limitKeypoints` (lines 110-152); `none` is the fatal
assertion of line 112, otherwise the two references are returned as a pair. -/
def limitKeypoints (keypoints : List KeyPoint) (descriptors : Mat) (maxKeypoints : Int) :
    Option (List KeyPoint × Mat) :=
  (UASSERT (keypoints.length == descriptors.rows || descriptors.rows == 0)).bind fun _ =>
  if decide (maxKeypoints > 0) && decide ((keypoints.length : Int) > maxKeypoints) then
    let hessianMap := buildHessianMap keypoints
    let kptsTmp : List KeyPoint := List.replicate maxKeypoints.toNat default
    let descriptorsTmp :=
      if descriptors.rows != 0 then
        Mat.create maxKeypoints.toNat descriptors.cols descriptors.type
      else Mat.nil
    let r := limitLoop keypoints descriptors 0 hessianMap.reverse kptsTmp descriptorsTmp
    some (r.1, if descriptors.rows != 0 then r.2 else descriptors)
  else some (keypoints, descriptors)

/-! ## Float arithmetic

A finite binary32 value is a multiple `k * 2^-149` of the smallest subnormal whose
multiplier `k` has at most 24 significant bits and is below `2^277`. Rounding works on
the multiplier: a rational `n / d` of such units is rounded to a natural number with 24
significant bits (`roundScaled`), to nearest and ties to even. -/

namespace F32

/-- The quotient `n / d` rounded to the nearest natural number, a tie to the even
one. -/
def rne (n d : Nat) : Nat :=
  if 2 * (n % d) < d then n / d
  else if d < 2 * (n % d) then n / d + 1
  else if (n / d) % 2 = 0 then n / d
  else n / d + 1

/-- Halving `n` down to 1, at most `fuel` times: the number of halvings. -/
def log2Aux : Nat → Nat → Nat
  | 0, _ => 0
  | fuel + 1, n => if 2 ≤ n then log2Aux fuel (n / 2) + 1 else 0

/-- The position of the leading bit of `n`: the integer part of its binary logarithm
(0 for `n = 0`). -/
def log2 (n : Nat) : Nat := log2Aux n n

/-- The quotient `n / d` rounded to 24 significant bits: with `e` the position of
the leading bit of its integer part, it is rounded to a multiple of `2^(e - 23)`
(to an integer below `2^24`). -/
def roundScaled (n d : Nat) : Nat :=
  rne n (d * 2 ^ (log2 (n / d) - 23)) * 2 ^ (log2 (n / d) - 23)

/-- The binary32 value nearest to the rational `q`, ties to even: `q` is rounded in
units of `2^-149`, and a result of `2^128` or more is an infinity. -/
def round (q : ℚ) : F32 :=
  if 2 ^ 128 * 2 ^ 149 ≤ roundScaled (q.num.natAbs * 2 ^ 149) q.den then
    (if q.num < 0 then ninf else pinf)
  else
    fin (mkRat
      (if q.num < 0 then -(roundScaled (q.num.natAbs * 2 ^ 149) q.den : Int)
       else (roundScaled (q.num.natAbs * 2 ^ 149) q.den : Int))
      (2 ^ 149))

/-- The value is one of the binary32 format: rounding leaves it as it is. -/
def isBinary32 : F32 → Bool
  | fin q => round q == fin q
  | _ => true

/-- A decimal literal with suffix `f`, such as `0.1f`: the binary32 value nearest to
the decimal. -/
def literal (q : ℚ) : F32 := round q

/-- The conversion of an `int` to `float`. -/
def ofInt (n : Int) : F32 := round (n : ℚ)

/-- The integer part of a finite value (truncation toward zero); 0 for the others. -/
def trunc : F32 → Int
  | fin q => Int.tdiv q.num q.den
  | _ => 0

/-- The conversion of a `float` to `int`: truncation toward zero. C++ leaves the
conversion undefined when the truncated value is not a value of `int`, and for a NaN
or an infinity: these have no result. -/
def toInt : F32 → Option Int
  | fin q =>
    if -2147483648 ≤ Int.tdiv q.num q.den ∧ Int.tdiv q.num q.den ≤ 2147483647 then
      some (Int.tdiv q.num q.den)
    else none
  | _ => none

/-- The float addition `a + b`. -/
def add : F32 → F32 → F32
  | nan, _ => nan
  | _, nan => nan
  | pinf, ninf => nan
  | ninf, pinf => nan
  | pinf, _ => pinf
  | _, pinf => pinf
  | ninf, _ => ninf
  | _, ninf => ninf
  | fin a, fin b => round (mkRat (a.num * b.den + b.num * a.den) (a.den * b.den))

/-- The float subtraction `a - b`. -/
def sub : F32 → F32 → F32
  | nan, _ => nan
  | _, nan => nan
  | pinf, pinf => nan
  | ninf, ninf => nan
  | pinf, _ => pinf
  | _, ninf => pinf
  | ninf, _ => ninf
  | _, pinf => ninf
  | fin a, fin b => round (mkRat (a.num * b.den - b.num * a.den) (a.den * b.den))

/-- The sign of a finite value times an infinity of sign `s` (`true` for plus). -/
def mulInf (a : ℚ) (s : Bool) : F32 :=
  if a = 0 then nan else if decide (0 < a) = s then pinf else ninf

/-- The float multiplication `a * b`. -/
def mul : F32 → F32 → F32
  | nan, _ => nan
  | _, nan => nan
  | pinf, pinf => pinf
  | pinf, ninf => ninf
  | ninf, pinf => ninf
  | ninf, ninf => pinf
  | pinf, fin b => mulInf b true
  | ninf, fin b => mulInf b false
  | fin a, pinf => mulInf a true
  | fin a, ninf => mulInf a false
  | fin a, fin b => round (mkRat (a.num * b.num) (a.den * b.den))

end F32

/-- The rational `q` is a finite binary32 value: a multiple of `2^-149` whose
multiplier has at most 24 significant bits and is below `2^128 * 2^149`. -/
def F32.Rep (q : ℚ) : Prop :=
  ∃ m i : Nat, m < 2 ^ 24 ∧ m * 2 ^ i < 2 ^ 128 * 2 ^ 149 ∧ |q| * 2 ^ 149 = ((m * 2 ^ i : Nat) : ℚ)

/-- The type `cv::Rect`. -/
structure Rect where
  x : Int
  y : Int
  width : Int
  height : Int
deriving DecidableEq

/-- Modelled from the spec: the macro `UERROR` of `rtabmap/utilite/ULogger.h`, which is
not among the sources; the error is logged and the operation goes on (only an
assertion is fatal). -/
def UERROR : Option Unit := some ()

/-- The function `computeRoi` (lines 154-198); `none` is a call in which a conversion
of a `float` to `int` is undefined. An `int` operand of a float operation is converted
to `float` first, and the result assigned to an `int` member is converted back. The
`UDEBUG` calls only write to the log and are left out. -/
def computeRoi (image : Mat) (roiRatios : List F32) : Option Rect :=
  if !image.empty && roiRatios.length == 4 then
    let width : F32 := F32.ofInt image.cols
    let height : F32 := F32.ofInt image.rows
    (F32.toInt width).bind fun w0 =>
    (F32.toInt height).bind fun h0 =>
    let roi : Rect := ⟨0, 0, w0, h0⟩
    (if F32.gt (roiRatios.getD 0 F32.zero) (F32.ofInt 0) &&
        F32.lt (roiRatios.getD 0 F32.zero)
          (F32.sub (F32.ofInt 1) (roiRatios.getD 1 F32.zero)) then
      (F32.toInt (F32.mul width (roiRatios.getD 0 F32.zero))).map fun x =>
        { roi with x := x }
    else some roi).bind fun roi =>
    (F32.toInt (F32.sub width (F32.ofInt roi.x))).bind fun w =>
    let roi : Rect := { roi with width := w }
    (if F32.gt (roiRatios.getD 1 F32.zero) (F32.ofInt 0) &&
        F32.lt (roiRatios.getD 1 F32.zero)
          (F32.sub (F32.ofInt 1) (roiRatios.getD 0 F32.zero)) then
      (F32.toInt (F32.sub (F32.ofInt roi.width)
        (F32.mul width (roiRatios.getD 1 F32.zero)))).map fun w =>
        { roi with width := w }
    else some roi).bind fun roi =>
    (if F32.gt (roiRatios.getD 2 F32.zero) (F32.ofInt 0) &&
        F32.lt (roiRatios.getD 2 F32.zero)
          (F32.sub (F32.ofInt 1) (roiRatios.getD 3 F32.zero)) then
      (F32.toInt (F32.mul height (roiRatios.getD 2 F32.zero))).map fun y =>
        { roi with y := y }
    else some roi).bind fun roi =>
    (F32.toInt (F32.sub height (F32.ofInt roi.y))).bind fun h =>
    let roi : Rect := { roi with height := h }
    (if F32.gt (roiRatios.getD 3 F32.zero) (F32.ofInt 0) &&
        F32.lt (roiRatios.getD 3 F32.zero)
          (F32.sub (F32.ofInt 1) (roiRatios.getD 2 F32.zero)) then
      (F32.toInt (F32.sub (F32.ofInt roi.height)
        (F32.mul height (roiRatios.getD 3 F32.zero)))).map fun h =>
        { roi with height := h }
    else some roi).bind fun roi =>
    some roi
  else
    UERROR.bind fun _ => some ⟨0, 0, 0, 0⟩

namespace Mat

/-- The method `channels()`: OpenCV stores the channel count in the type tag,
`type = depth + 8 * (channels - 1)`. -/
def channels (m : Mat) : Int := m.type / 8 + 1

end Mat

/-- The OpenCV constant `CV_8U` (8-bit unsigned, and as a type tag one channel). -/
def CV_8U : Int := 0

/-- The overload `limitKeypoints(keypoints, maxKeypoints)` (lines 104-108), which calls
`limitKeypoints` with an empty `cv::Mat` for the descriptors. -/
def limitKeypointsOnly (keypoints : List KeyPoint) (maxKeypoints : Int) :
    Option (List KeyPoint) :=
  (limitKeypoints keypoints Mat.nil maxKeypoints).map Prod.fst

/-- The pure virtual method `Feature2D::generateKeypointsImpl(image, roi)`: the detection
step of the active backend. `none` stands for a call that does not return (a fatal
assertion or an exception raised by the backend). -/
abbrev GenerateKeypointsImpl := Mat → Rect → Option (List KeyPoint)

/-- The method `Feature2D::generateKeypoints` (lines 203-238), the backend's detection
step being the parameter `generateKeypointsImpl`; `none` is a call that does not return.
The `ULOGGER_DEBUG` calls only write to the log and are left out. -/
def generateKeypoints (generateKeypointsImpl : GenerateKeypointsImpl) (image : Mat)
    (maxKeypoints : Int) (roi : Rect) : Option (List KeyPoint) :=
  if !image.empty && image.channels == 1 && image.type == CV_8U then
    (generateKeypointsImpl image
      (if roi.width != 0 && roi.height != 0 then roi
       else ⟨0, 0, image.cols, image.rows⟩)).bind fun keypoints =>
    (limitKeypointsOnly keypoints maxKeypoints).bind fun keypoints =>
    if roi.x != 0 || roi.y != 0 then
      some (keypoints.map fun kp =>
        { kp with pt := ⟨F32.add kp.pt.x (F32.ofInt roi.x),
                         F32.add kp.pt.y (F32.ofInt roi.y)⟩ })
    else
      some keypoints
  else if image.empty then
    UERROR.bind fun _ => some []
  else
    UERROR.bind fun _ => some []

/-! ## Backends and their configuration -/

/-- A `double`: the same model as `float` (a finite rational, an infinity or NaN). -/
abbrev F64 := F32

/-- Modelled from the spec: the type `ParametersMap` of `rtabmap/core/Parameters.h`,
which is not among the sources: a named mapping of parameter keys to values, here the
list of its entries with the values in their textual form; the lookup of a key
takes its first entry. -/
abbrev ParametersMap := List (String × String)

/-- Modelled from the spec: the parameter registry, class `Parameters` of
`rtabmap/core/Parameters.h`, which is not among the sources. It supplies the conversion
of a mapped value to each tunable type, the key `k<Name>()` of each tunable (a stable
string identifier) and its compiled-in default `default<Name>()`. -/
structure Parameters where
  toBool : String → Bool
  toInt : String → Int
  toFloat : String → F32
  toDouble : String → F64
  kSURFExtended : String
  kSURFHessianThreshold : String
  kSURFOctaveLayers : String
  kSURFOctaves : String
  kSURFUpright : String
  kSURFGpuKeypointsRatio : String
  kSURFGpuVersion : String
  kSIFTContrastThreshold : String
  kSIFTEdgeThreshold : String
  kSIFTNFeatures : String
  kSIFTNOctaveLayers : String
  kSIFTSigma : String
  kORBNFeatures : String
  kORBScaleFactor : String
  kORBNLevels : String
  kORBEdgeThreshold : String
  kORBFirstLevel : String
  kORBWTA_K : String
  kORBScoreType : String
  kORBPatchSize : String
  kORBGpu : String
  kFASTThreshold : String
  kFASTNonmaxSuppression : String
  kFASTGpu : String
  kFASTGpuKeypointsRatio : String
  kBRIEFBytes : String
  kFREAKOrientationNormalized : String
  kFREAKScaleNormalized : String
  kFREAKPatternScale : String
  kFREAKNOctaves : String
  defaultSURFExtended : Bool
  defaultSURFHessianThreshold : F64
  defaultSURFOctaveLayers : Int
  defaultSURFOctaves : Int
  defaultSURFUpright : Bool
  defaultSURFGpuKeypointsRatio : F32
  defaultSURFGpuVersion : Bool
  defaultSIFTContrastThreshold : F64
  defaultSIFTEdgeThreshold : F64
  defaultSIFTNFeatures : Int
  defaultSIFTNOctaveLayers : Int
  defaultSIFTSigma : F64
  defaultORBNFeatures : Int
  defaultORBScaleFactor : F32
  defaultORBNLevels : Int
  defaultORBEdgeThreshold : Int
  defaultORBFirstLevel : Int
  defaultORBWTA_K : Int
  defaultORBScoreType : Int
  defaultORBPatchSize : Int
  defaultORBGpu : Bool
  defaultFASTThreshold : Int
  defaultFASTNonmaxSuppression : Bool
  defaultFASTGpu : Bool
  defaultFASTGpuKeypointsRatio : F64
  defaultBRIEFBytes : Int
  defaultFREAKOrientationNormalized : Bool
  defaultFREAKScaleNormalized : Bool
  defaultFREAKPatternScale : F32
  defaultFREAKNOctaves : Int

/-- Modelled from the spec: the typed lookup `Parameters::parse(map, key, variable)`,
which is not among the sources: it overwrites the variable with the mapped value
(converted by `conv`) if `key` is present in `map`, and leaves it as it is otherwise.
The argument `value` is what the variable holds before the call, the result what it
holds after. -/
def Parameters.parse {α : Type} (conv : String → α) (parameters : ParametersMap)
    (key : String) (value : α) : α :=
  match parameters.lookup key with
  | some mapped => conv mapped
  | none => value

/-- The engine `cv::SURF`, as the arguments of its constructor. -/
structure CvSURF where
  hessianThreshold : F64
  nOctaves : Int
  nOctaveLayers : Int
  extended : Bool
  upright : Bool
deriving DecidableEq

/-- The engine `cv::gpu::SURF_GPU`, as the arguments of its constructor. -/
structure CvSURF_GPU where
  hessianThreshold : F64
  nOctaves : Int
  nOctaveLayers : Int
  extended : Bool
  keypointsRatio : F32
  upright : Bool
deriving DecidableEq

/-- The engine `cv::SIFT`, as the arguments of its constructor. -/
structure CvSIFT where
  nfeatures : Int
  nOctaveLayers : Int
  contrastThreshold : F64
  edgeThreshold : F64
  sigma : F64
deriving DecidableEq

/-- The engine `cv::ORB`, as the arguments of its constructor. -/
structure CvORB where
  nFeatures : Int
  scaleFactor : F32
  nLevels : Int
  edgeThreshold : Int
  firstLevel : Int
  WTA_K : Int
  scoreType : Int
  patchSize : Int
deriving DecidableEq

/-- The engine `cv::gpu::ORB_GPU`, as the arguments of its constructor and of the
`setFastParams` call that follows it. -/
structure CvORB_GPU where
  nFeatures : Int
  scaleFactor : F32
  nLevels : Int
  edgeThreshold : Int
  firstLevel : Int
  WTA_K : Int
  scoreType : Int
  patchSize : Int
  fastThreshold : Int
  nonmaxSuppresion : Bool
deriving DecidableEq

/-- The engine `cv::FastFeatureDetector`, as the arguments of its constructor. -/
structure CvFastFeatureDetector where
  threshold : Int
  nonmaxSuppression : Bool
deriving DecidableEq

/-- The engine `cv::gpu::FAST_GPU`, as the arguments of its constructor. -/
structure CvFAST_GPU where
  threshold : Int
  nonmaxSuppression : Bool
  keypointsRatio : F64
deriving DecidableEq

/-- The engine `cv::BriefDescriptorExtractor`, as the argument of its constructor. -/
structure CvBriefDescriptorExtractor where
  bytes : Int
deriving DecidableEq

/-- The engine `cv::FREAK`, as the arguments of its constructor. -/
structure CvFREAK where
  orientationNormalized : Bool
  scaleNormalized : Bool
  patternScale : F32
  nOctaves : Int
deriving DecidableEq

/-- The data members of class `SURF`; an engine pointer is `none` when it is null. -/
structure SURF where
  hessianThreshold_ : F64
  nOctaves_ : Int
  nOctaveLayers_ : Int
  extended_ : Bool
  upright_ : Bool
  gpuKeypointsRatio_ : F32
  gpuVersion_ : Bool
  _surf : Option CvSURF
  _gpuSurf : Option CvSURF_GPU
deriving DecidableEq

/-- The method `SURF::parseParameters` (lines 274-308); `cudaEnabledDeviceCount` is
what `cv::gpu::getCudaEnabledDeviceCount()` returns during the call. -/
def SURF.parseParameters (P : Parameters) (cudaEnabledDeviceCount : Int) (self : SURF)
    (parameters : ParametersMap) : SURF :=
  let self := { self with
    extended_ := Parameters.parse P.toBool parameters P.kSURFExtended self.extended_ }
  let self := { self with
    hessianThreshold_ :=
      Parameters.parse P.toDouble parameters P.kSURFHessianThreshold self.hessianThreshold_ }
  let self := { self with
    nOctaveLayers_ :=
      Parameters.parse P.toInt parameters P.kSURFOctaveLayers self.nOctaveLayers_ }
  let self := { self with
    nOctaves_ := Parameters.parse P.toInt parameters P.kSURFOctaves self.nOctaves_ }
  let self := { self with
    upright_ := Parameters.parse P.toBool parameters P.kSURFUpright self.upright_ }
  let self := { self with
    gpuKeypointsRatio_ :=
      Parameters.parse P.toFloat parameters P.kSURFGpuKeypointsRatio self.gpuKeypointsRatio_ }
  let self := { self with
    gpuVersion_ := Parameters.parse P.toBool parameters P.kSURFGpuVersion self.gpuVersion_ }
  let self := { self with _gpuSurf := none }
  let self := { self with _surf := none }
  if self.gpuVersion_ && cudaEnabledDeviceCount != 0 then
    { self with _gpuSurf := some ⟨self.hessianThreshold_, self.nOctaves_,
        self.nOctaveLayers_, self.extended_, self.gpuKeypointsRatio_, self.upright_⟩ }
  else
    { self with _surf := some ⟨self.hessianThreshold_, self.nOctaves_,
        self.nOctaveLayers_, self.extended_, self.upright_⟩ }

/-- The member initialisers of the constructor `SURF::SURF` (lines 248-260): every
tunable at its compiled-in default, every engine pointer null. -/
def SURF.initial (P : Parameters) : SURF :=
  { hessianThreshold_ := P.defaultSURFHessianThreshold,
    nOctaves_ := P.defaultSURFOctaves,
    nOctaveLayers_ := P.defaultSURFOctaveLayers,
    extended_ := P.defaultSURFExtended,
    upright_ := P.defaultSURFUpright,
    gpuKeypointsRatio_ := P.defaultSURFGpuKeypointsRatio,
    gpuVersion_ := P.defaultSURFGpuVersion,
    _surf := none,
    _gpuSurf := none }

/-- The constructor `SURF::SURF` (lines 248-260): the member initialisers, then
`parseParameters`. -/
def SURF.constructor (P : Parameters) (cudaEnabledDeviceCount : Int)
    (parameters : ParametersMap) : SURF :=
  SURF.parseParameters P cudaEnabledDeviceCount (SURF.initial P) parameters

/-- The data members of class `SIFT`. -/
structure SIFT where
  nfeatures_ : Int
  nOctaveLayers_ : Int
  contrastThreshold_ : F64
  edgeThreshold_ : F64
  sigma_ : F64
  _sift : Option CvSIFT
deriving DecidableEq

/-- The method `SIFT::parseParameters` (lines 378-393). -/
def SIFT.parseParameters (P : Parameters) (self : SIFT) (parameters : ParametersMap) :
    SIFT :=
  let self := { self with
    contrastThreshold_ :=
      Parameters.parse P.toDouble parameters P.kSIFTContrastThreshold self.contrastThreshold_ }
  let self := { self with
    edgeThreshold_ :=
      Parameters.parse P.toDouble parameters P.kSIFTEdgeThreshold self.edgeThreshold_ }
  let self := { self with
    nfeatures_ := Parameters.parse P.toInt parameters P.kSIFTNFeatures self.nfeatures_ }
  let self := { self with
    nOctaveLayers_ :=
      Parameters.parse P.toInt parameters P.kSIFTNOctaveLayers self.nOctaveLayers_ }
  let self := { self with
    sigma_ := Parameters.parse P.toDouble parameters P.kSIFTSigma self.sigma_ }
  let self := { self with _sift := none }
  { self with _sift := some ⟨self.nfeatures_, self.nOctaveLayers_,
      self.contrastThreshold_, self.edgeThreshold_, self.sigma_⟩ }

/-- The member initialisers of the constructor `SIFT::SIFT` (lines 359-368): every
tunable at its compiled-in default, every engine pointer null. -/
def SIFT.initial (P : Parameters) : SIFT :=
  { nfeatures_ := P.defaultSIFTNFeatures,
    nOctaveLayers_ := P.defaultSIFTNOctaveLayers,
    contrastThreshold_ := P.defaultSIFTContrastThreshold,
    edgeThreshold_ := P.defaultSIFTEdgeThreshold,
    sigma_ := P.defaultSIFTSigma,
    _sift := none }

/-- The constructor `SIFT::SIFT` (lines 359-368): the member initialisers, then
`parseParameters`. -/
def SIFT.constructor (P : Parameters) (parameters : ParametersMap) : SIFT :=
  SIFT.parseParameters P (SIFT.initial P) parameters

/-- The data members of class `ORB`. -/
structure ORB where
  nFeatures_ : Int
  scaleFactor_ : F32
  nLevels_ : Int
  edgeThreshold_ : Int
  firstLevel_ : Int
  WTA_K_ : Int
  scoreType_ : Int
  patchSize_ : Int
  gpu_ : Bool
  fastThreshold_ : Int
  nonmaxSuppresion_ : Bool
  _orb : Option CvORB
  _gpuOrb : Option CvORB_GPU
deriving DecidableEq

/-- The method `ORB::parseParameters` (lines 445-484). -/
def ORB.parseParameters (P : Parameters) (cudaEnabledDeviceCount : Int) (self : ORB)
    (parameters : ParametersMap) : ORB :=
  let self := { self with
    nFeatures_ := Parameters.parse P.toInt parameters P.kORBNFeatures self.nFeatures_ }
  let self := { self with
    scaleFactor_ :=
      Parameters.parse P.toFloat parameters P.kORBScaleFactor self.scaleFactor_ }
  let self := { self with
    nLevels_ := Parameters.parse P.toInt parameters P.kORBNLevels self.nLevels_ }
  let self := { self with
    edgeThreshold_ :=
      Parameters.parse P.toInt parameters P.kORBEdgeThreshold self.edgeThreshold_ }
  let self := { self with
    firstLevel_ := Parameters.parse P.toInt parameters P.kORBFirstLevel self.firstLevel_ }
  let self := { self with
    WTA_K_ := Parameters.parse P.toInt parameters P.kORBWTA_K self.WTA_K_ }
  let self := { self with
    scoreType_ := Parameters.parse P.toInt parameters P.kORBScoreType self.scoreType_ }
  let self := { self with
    patchSize_ := Parameters.parse P.toInt parameters P.kORBPatchSize self.patchSize_ }
  let self := { self with gpu_ := Parameters.parse P.toBool parameters P.kORBGpu self.gpu_ }
  let self := { self with
    fastThreshold_ :=
      Parameters.parse P.toInt parameters P.kFASTThreshold self.fastThreshold_ }
  let self := { self with
    nonmaxSuppresion_ :=
      Parameters.parse P.toBool parameters P.kFASTNonmaxSuppression self.nonmaxSuppresion_ }
  let self := { self with _gpuOrb := none }
  let self := { self with _orb := none }
  if self.gpu_ && cudaEnabledDeviceCount != 0 then
    { self with _gpuOrb := some ⟨self.nFeatures_, self.scaleFactor_, self.nLevels_,
        self.edgeThreshold_, self.firstLevel_, self.WTA_K_, self.scoreType_,
        self.patchSize_, self.fastThreshold_, self.nonmaxSuppresion_⟩ }
  else
    { self with _orb := some ⟨self.nFeatures_, self.scaleFactor_, self.nLevels_,
        self.edgeThreshold_, self.firstLevel_, self.WTA_K_, self.scoreType_,
        self.patchSize_⟩ }

/-- The member initialisers of the constructor `ORB::ORB` (lines 415-431): every
tunable at its compiled-in default, every engine pointer null. -/
def ORB.initial (P : Parameters) : ORB :=
  { nFeatures_ := P.defaultORBNFeatures,
    scaleFactor_ := P.defaultORBScaleFactor,
    nLevels_ := P.defaultORBNLevels,
    edgeThreshold_ := P.defaultORBEdgeThreshold,
    firstLevel_ := P.defaultORBFirstLevel,
    WTA_K_ := P.defaultORBWTA_K,
    scoreType_ := P.defaultORBScoreType,
    patchSize_ := P.defaultORBPatchSize,
    gpu_ := P.defaultORBGpu,
    fastThreshold_ := P.defaultFASTThreshold,
    nonmaxSuppresion_ := P.defaultFASTNonmaxSuppression,
    _orb := none,
    _gpuOrb := none }

/-- The constructor `ORB::ORB` (lines 415-431): the member initialisers, then
`parseParameters`. -/
def ORB.constructor (P : Parameters) (cudaEnabledDeviceCount : Int)
    (parameters : ParametersMap) : ORB :=
  ORB.parseParameters P cudaEnabledDeviceCount (ORB.initial P) parameters

/-- The data members of class `FAST`. -/
structure FAST where
  threshold_ : Int
  nonmaxSuppression_ : Bool
  gpu_ : Bool
  gpuKeypointsRatio_ : F64
  _fast : Option CvFastFeatureDetector
  _gpuFast : Option CvFAST_GPU
deriving DecidableEq

/-- The method `FAST::parseParameters` (lines 563-593). -/
def FAST.parseParameters (P : Parameters) (cudaEnabledDeviceCount : Int) (self : FAST)
    (parameters : ParametersMap) : FAST :=
  let self := { self with
    threshold_ := Parameters.parse P.toInt parameters P.kFASTThreshold self.threshold_ }
  let self := { self with
    nonmaxSuppression_ :=
      Parameters.parse P.toBool parameters P.kFASTNonmaxSuppression self.nonmaxSuppression_ }
  let self := { self with gpu_ := Parameters.parse P.toBool parameters P.kFASTGpu self.gpu_ }
  let self := { self with
    gpuKeypointsRatio_ :=
      Parameters.parse P.toDouble parameters P.kFASTGpuKeypointsRatio self.gpuKeypointsRatio_ }
  let self := { self with _gpuFast := none }
  let self := { self with _fast := none }
  if self.gpu_ && cudaEnabledDeviceCount != 0 then
    { self with
      _gpuFast := some ⟨self.threshold_, self.nonmaxSuppression_, self.gpuKeypointsRatio_⟩ }
  else
    { self with _fast := some ⟨self.threshold_, self.nonmaxSuppression_⟩ }

/-- The member initialisers of the constructor `FAST::FAST` (lines 540-549): every
tunable at its compiled-in default, every engine pointer null. -/
def FAST.initial (P : Parameters) : FAST :=
  { threshold_ := P.defaultFASTThreshold,
    nonmaxSuppression_ := P.defaultFASTNonmaxSuppression,
    gpu_ := P.defaultFASTGpu,
    gpuKeypointsRatio_ := P.defaultFASTGpuKeypointsRatio,
    _fast := none,
    _gpuFast := none }

/-- The constructor `FAST::FAST` (lines 540-549): the member initialisers, then
`parseParameters`. -/
def FAST.constructor (P : Parameters) (cudaEnabledDeviceCount : Int)
    (parameters : ParametersMap) : FAST :=
  FAST.parseParameters P cudaEnabledDeviceCount (FAST.initial P) parameters

/-- The data members of class `FAST_BRIEF`, which derives from `FAST`. -/
structure FAST_BRIEF extends FAST where
  bytes_ : Int
  _brief : Option CvBriefDescriptorExtractor
deriving DecidableEq

/-- The method `FAST_BRIEF::parseParameters` (lines 631-642). -/
def FAST_BRIEF.parseParameters (P : Parameters) (cudaEnabledDeviceCount : Int)
    (self : FAST_BRIEF) (parameters : ParametersMap) : FAST_BRIEF :=
  let self := { self with
    toFAST := FAST.parseParameters P cudaEnabledDeviceCount self.toFAST parameters }
  let self := { self with
    bytes_ := Parameters.parse P.toInt parameters P.kBRIEFBytes self.bytes_ }
  let self := { self with _brief := none }
  { self with _brief := some ⟨self.bytes_⟩ }

/-- The constructor `FAST_BRIEF::FAST_BRIEF` (lines 615-621): the base constructor
`FAST(parameters)`, the member initialisers, then `parseParameters`. -/
def FAST_BRIEF.constructor (P : Parameters) (cudaEnabledDeviceCount : Int)
    (parameters : ParametersMap) : FAST_BRIEF :=
  FAST_BRIEF.parseParameters P cudaEnabledDeviceCount
    { toFAST := FAST.constructor P cudaEnabledDeviceCount parameters,
      bytes_ := P.defaultBRIEFBytes,
      _brief := none }
    parameters

/-- The data members of class `FAST_FREAK`, which derives from `FAST`. -/
structure FAST_FREAK extends FAST where
  orientationNormalized_ : Bool
  scaleNormalized_ : Bool
  patternScale_ : F32
  nOctaves_ : Int
  _freak : Option CvFREAK
deriving DecidableEq

/-- The method `FAST_FREAK::parseParameters` (lines 674-690). -/
def FAST_FREAK.parseParameters (P : Parameters) (cudaEnabledDeviceCount : Int)
    (self : FAST_FREAK) (parameters : ParametersMap) : FAST_FREAK :=
  let self := { self with
    toFAST := FAST.parseParameters P cudaEnabledDeviceCount self.toFAST parameters }
  let self := { self with
    orientationNormalized_ :=
      Parameters.parse P.toBool parameters P.kFREAKOrientationNormalized
        self.orientationNormalized_ }
  let self := { self with
    scaleNormalized_ :=
      Parameters.parse P.toBool parameters P.kFREAKScaleNormalized self.scaleNormalized_ }
  let self := { self with
    patternScale_ :=
      Parameters.parse P.toFloat parameters P.kFREAKPatternScale self.patternScale_ }
  let self := { self with
    nOctaves_ := Parameters.parse P.toInt parameters P.kFREAKNOctaves self.nOctaves_ }
  let self := { self with _freak := none }
  { self with _freak := some ⟨self.orientationNormalized_, self.scaleNormalized_,
      self.patternScale_, self.nOctaves_⟩ }

/-- The constructor `FAST_FREAK::FAST_FREAK` (lines 655-664). -/
def FAST_FREAK.constructor (P : Parameters) (cudaEnabledDeviceCount : Int)
    (parameters : ParametersMap) : FAST_FREAK :=
  FAST_FREAK.parseParameters P cudaEnabledDeviceCount
    { toFAST := FAST.constructor P cudaEnabledDeviceCount parameters,
      orientationNormalized_ := P.defaultFREAKOrientationNormalized,
      scaleNormalized_ := P.defaultFREAKScaleNormalized,
      patternScale_ := P.defaultFREAKPatternScale,
      nOctaves_ := P.defaultFREAKNOctaves,
      _freak := none }
    parameters

/-! ## The rectangle the specification describes -/

/-- Following the specification: the origin along one axis of an image of `size`
pixels. The exclusion ratio `near` of the left (top) side is applied only if it is
strictly positive and strictly less than one minus the ratio `far` of the opposite
side; it then shifts the origin to the float product `size * near`, truncated. -/
def specOrigin (size : Int) (near far : F32) : Int :=
  if F32.lt (F32.ofInt 0) near && F32.lt near (F32.sub (F32.ofInt 1) far) then
    F32.trunc (F32.mul (F32.ofInt size) near)
  else 0

/-- Following the specification: the extent along one axis. It is measured from the
origin, `size - origin`, and the ratio `far` of the right (bottom) side, applied under
the same guard, shrinks it by the float product `size * far`, the float difference
being truncated. -/
def specExtent (size : Int) (near far : F32) : Int :=
  if F32.lt (F32.ofInt 0) far && F32.lt far (F32.sub (F32.ofInt 1) near) then
    F32.trunc (F32.sub (F32.ofInt (size - specOrigin size near far))
      (F32.mul (F32.ofInt size) far))
  else size - specOrigin size near far

/-- Following the specification: the region of interest of a `W x H` image for the
ratios `left`, `right`, `top`, `bottom`. -/
def specRoi (W H : Nat) (left right top bottom : F32) : Rect :=
  ⟨specOrigin W left right, specOrigin H top bottom,
   specExtent W left right, specExtent H top bottom⟩

/-! ## What a configuration pass does to the tunables -/

/-- The effect of the typed lookup on one tunable: if `key` is present in the mapping
the tunable holds the mapped value (converted by `conv`) after the call, and if `key` is
absent it holds what it held before the call. -/
def Reparsed {α : Type} (conv : String → α) (parameters : ParametersMap) (key : String)
    (before after : α) : Prop :=
  (∀ mapped, parameters.lookup key = some mapped → after = conv mapped) ∧
  (parameters.lookup key = none → after = before)

/-- Every tunable of a `SURF` object is `Reparsed` between the objects
`before` and `after`. -/
def SURF.Reconfigured (P : Parameters) (parameters : ParametersMap) (before after : SURF) :
    Prop :=
  Reparsed P.toBool parameters P.kSURFExtended
    before.extended_ after.extended_ ∧
  Reparsed P.toDouble parameters P.kSURFHessianThreshold
    before.hessianThreshold_ after.hessianThreshold_ ∧
  Reparsed P.toInt parameters P.kSURFOctaveLayers
    before.nOctaveLayers_ after.nOctaveLayers_ ∧
  Reparsed P.toInt parameters P.kSURFOctaves
    before.nOctaves_ after.nOctaves_ ∧
  Reparsed P.toBool parameters P.kSURFUpright
    before.upright_ after.upright_ ∧
  Reparsed P.toFloat parameters P.kSURFGpuKeypointsRatio
    before.gpuKeypointsRatio_ after.gpuKeypointsRatio_ ∧
  Reparsed P.toBool parameters P.kSURFGpuVersion
    before.gpuVersion_ after.gpuVersion_

/-- Every tunable of a `SIFT` object is `Reparsed` between the objects
`before` and `after`. -/
def SIFT.Reconfigured (P : Parameters) (parameters : ParametersMap) (before after : SIFT) :
    Prop :=
  Reparsed P.toDouble parameters P.kSIFTContrastThreshold
    before.contrastThreshold_ after.contrastThreshold_ ∧
  Reparsed P.toDouble parameters P.kSIFTEdgeThreshold
    before.edgeThreshold_ after.edgeThreshold_ ∧
  Reparsed P.toInt parameters P.kSIFTNFeatures
    before.nfeatures_ after.nfeatures_ ∧
  Reparsed P.toInt parameters P.kSIFTNOctaveLayers
    before.nOctaveLayers_ after.nOctaveLayers_ ∧
  Reparsed P.toDouble parameters P.kSIFTSigma
    before.sigma_ after.sigma_

/-- Every tunable of an `ORB` object is `Reparsed` between the objects
`before` and `after`. -/
def ORB.Reconfigured (P : Parameters) (parameters : ParametersMap) (before after : ORB) :
    Prop :=
  Reparsed P.toInt parameters P.kORBNFeatures
    before.nFeatures_ after.nFeatures_ ∧
  Reparsed P.toFloat parameters P.kORBScaleFactor
    before.scaleFactor_ after.scaleFactor_ ∧
  Reparsed P.toInt parameters P.kORBNLevels
    before.nLevels_ after.nLevels_ ∧
  Reparsed P.toInt parameters P.kORBEdgeThreshold
    before.edgeThreshold_ after.edgeThreshold_ ∧
  Reparsed P.toInt parameters P.kORBFirstLevel
    before.firstLevel_ after.firstLevel_ ∧
  Reparsed P.toInt parameters P.kORBWTA_K
    before.WTA_K_ after.WTA_K_ ∧
  Reparsed P.toInt parameters P.kORBScoreType
    before.scoreType_ after.scoreType_ ∧
  Reparsed P.toInt parameters P.kORBPatchSize
    before.patchSize_ after.patchSize_ ∧
  Reparsed P.toBool parameters P.kORBGpu
    before.gpu_ after.gpu_ ∧
  Reparsed P.toInt parameters P.kFASTThreshold
    before.fastThreshold_ after.fastThreshold_ ∧
  Reparsed P.toBool parameters P.kFASTNonmaxSuppression
    before.nonmaxSuppresion_ after.nonmaxSuppresion_

/-- Every tunable of a `FAST` object is `Reparsed` between the objects
`before` and `after`. -/
def FAST.Reconfigured (P : Parameters) (parameters : ParametersMap) (before after : FAST) :
    Prop :=
  Reparsed P.toInt parameters P.kFASTThreshold
    before.threshold_ after.threshold_ ∧
  Reparsed P.toBool parameters P.kFASTNonmaxSuppression
    before.nonmaxSuppression_ after.nonmaxSuppression_ ∧
  Reparsed P.toBool parameters P.kFASTGpu
    before.gpu_ after.gpu_ ∧
  Reparsed P.toDouble parameters P.kFASTGpuKeypointsRatio
    before.gpuKeypointsRatio_ after.gpuKeypointsRatio_

/-- Every tunable of a `FAST_BRIEF` object, the inherited ones included, is `Reparsed`
between the objects `before` and `after`. -/
def FAST_BRIEF.Reconfigured (P : Parameters) (parameters : ParametersMap)
    (before after : FAST_BRIEF) : Prop :=
  FAST.Reconfigured P parameters before.toFAST after.toFAST ∧
  Reparsed P.toInt parameters P.kBRIEFBytes
    before.bytes_ after.bytes_

/-- Every tunable of a `FAST_FREAK` object, the inherited ones included, is `Reparsed`
between the objects `before` and `after`. -/
def FAST_FREAK.Reconfigured (P : Parameters) (parameters : ParametersMap)
    (before after : FAST_FREAK) : Prop :=
  FAST.Reconfigured P parameters before.toFAST after.toFAST ∧
  Reparsed P.toBool parameters P.kFREAKOrientationNormalized
    before.orientationNormalized_ after.orientationNormalized_ ∧
  Reparsed P.toBool parameters P.kFREAKScaleNormalized
    before.scaleNormalized_ after.scaleNormalized_ ∧
  Reparsed P.toFloat parameters P.kFREAKPatternScale
    before.patternScale_ after.patternScale_ ∧
  Reparsed P.toInt parameters P.kFREAKNOctaves
    before.nOctaves_ after.nOctaves_

/-- The `FAST_BRIEF` object with every tunable, the inherited ones included, at its
compiled-in default and every engine pointer null. -/
def FAST_BRIEF.initial (P : Parameters) : FAST_BRIEF :=
  { toFAST := FAST.initial P,
    bytes_ := P.defaultBRIEFBytes,
    _brief := none }

/-- The `FAST_FREAK` object with every tunable, the inherited ones included, at its
compiled-in default and every engine pointer null. -/
def FAST_FREAK.initial (P : Parameters) : FAST_FREAK :=
  { toFAST := FAST.initial P,
    orientationNormalized_ := P.defaultFREAKOrientationNormalized,
    scaleNormalized_ := P.defaultFREAKScaleNormalized,
    patternScale_ := P.defaultFREAKPatternScale,
    nOctaves_ := P.defaultFREAKNOctaves,
    _freak := none }

/-! ## Detection steps of the backends with two engines -/

namespace Mat

/-- The method `depth()`: OpenCV stores the element depth in the low bits of the type
tag, `type = depth + 8 * (channels - 1)`. -/
def depth (m : Mat) : Int := m.type % 8

end Mat

/-- The OpenCV operations the detection steps call, which are not among the sources:
`roi image rect` is the constructor `cv::Mat(image, rect)` of the sub-image and the
others are the detection of each engine on a sub-image. `none` is a call that does
not return (an exception raised by OpenCV). -/
structure OpenCV where
  roi : Mat → Rect → Option Mat
  detectSURF : CvSURF → Mat → Option (List KeyPoint)
  detectSURF_GPU : CvSURF_GPU → Mat → Option (List KeyPoint)
  detectORB : CvORB → Mat → Option (List KeyPoint)
  detectORB_GPU : CvORB_GPU → Mat → Option (List KeyPoint)
  detectFast : CvFastFeatureDetector → Mat → Option (List KeyPoint)
  detectFAST_GPU : CvFAST_GPU → Mat → Option (List KeyPoint)

/-- The method `SURF::generateKeypointsImpl` (lines 310-326). The last `none` is the
call `_surf->detect` through a null pointer. -/
def SURF.generateKeypointsImpl (cv : OpenCV) (self : SURF) (image : Mat) (roi : Rect) :
    Option (List KeyPoint) :=
  (UASSERT (!image.empty && image.channels == 1 && image.depth == CV_8U)).bind fun _ =>
  (cv.roi image roi).bind fun imgRoi =>
  match self._gpuSurf with
  | some gpuSurf => cv.detectSURF_GPU gpuSurf imgRoi
  | none =>
    match self._surf with
    | some surf => cv.detectSURF surf imgRoi
    | none => none

/-- The method `ORB::generateKeypointsImpl` (lines 486-502). The last `none` is the
call `_orb->detect` through a null pointer. -/
def ORB.generateKeypointsImpl (cv : OpenCV) (self : ORB) (image : Mat) (roi : Rect) :
    Option (List KeyPoint) :=
  (UASSERT (!image.empty && image.channels == 1 && image.depth == CV_8U)).bind fun _ =>
  (cv.roi image roi).bind fun imgRoi =>
  match self._gpuOrb with
  | some gpuOrb => cv.detectORB_GPU gpuOrb imgRoi
  | none =>
    match self._orb with
    | some orb => cv.detectORB orb imgRoi
    | none => none

/-- The method `FAST::generateKeypointsImpl` (lines 595-610). The last `none` is the
call `_fast->detect` through a null pointer. -/
def FAST.generateKeypointsImpl (cv : OpenCV) (self : FAST) (image : Mat) (roi : Rect) :
    Option (List KeyPoint) :=
  (UASSERT (!image.empty && image.channels == 1 && image.depth == CV_8U)).bind fun _ =>
  (cv.roi image roi).bind fun imgRoi =>
  match self._gpuFast with
  | some gpuFast => cv.detectFAST_GPU gpuFast imgRoi
  | none =>
    match self._fast with
    | some fast => cv.detectFast fast imgRoi
    | none => none

/-! ## The class `Link` -/

/-- The enumeration `Link::Type`. -/
inductive LinkType where
  | kNeighbor : LinkType
  | kGlobalClosure : LinkType
  | kLocalSpaceClosure : LinkType
  | kLocalTimeClosure : LinkType
  | kUserClosure : LinkType
  | kUndef : LinkType
deriving DecidableEq

/-- The data members of class `Link` (`Link.h`). The class `Transform` is not among the
sources and is a parameter. -/
structure Link (Transform : Type) where
  from_ : Int
  to_ : Int
  transform_ : Transform
  type_ : LinkType

/-- The constructor `Link()` (lines 19-24); `transform` is the default-constructed
`Transform` the member `transform_` is initialised with. -/
def Link.defaultConstructor {Transform : Type} (transform : Transform) : Link Transform :=
  { from_ := 0, to_ := 0, transform_ := transform, type_ := LinkType.kUndef }

/-- The constructor `Link(from, to, transform, type)` (lines 25-31). -/
def Link.constructor {Transform : Type} (from_ to_ : Int) (transform : Transform)
    (type : LinkType) : Link Transform :=
  { from_ := from_, to_ := to_, transform_ := transform, type_ := type }

/-- The method `Link::isValid` (line 33); `isNull` is the method `Transform::isNull`. -/
def Link.isValid {Transform : Type} (isNull : Transform → Bool) (self : Link Transform) :
    Bool :=
  decide (self.from_ > 0) && decide (self.to_ > 0) && !isNull self.transform_ &&
    self.type_ != LinkType.kUndef

/-! ## The engines a configuration pass leaves -/

/-- Exactly one engine of a `SURF` object exists: the accelerated one if and only if the
GPU flag is set and the device count `cudaEnabledDeviceCount` is not zero, the standard
one otherwise, and one of the two pointers is null while the other is not. -/
def SURF.OneEngine (cudaEnabledDeviceCount : Int) (self : SURF) : Prop :=
  (self._gpuSurf.isSome = true ↔
    (self.gpuVersion_ = true ∧ cudaEnabledDeviceCount ≠ 0)) ∧
  (self._surf.isSome = true ↔
    ¬ (self.gpuVersion_ = true ∧ cudaEnabledDeviceCount ≠ 0)) ∧
  self._gpuSurf.isSome ≠ self._surf.isSome

/-- Exactly one engine of an `ORB` object exists: the accelerated one if and only if the
GPU flag is set and the device count `cudaEnabledDeviceCount` is not zero, the standard
one otherwise, and one of the two pointers is null while the other is not. -/
def ORB.OneEngine (cudaEnabledDeviceCount : Int) (self : ORB) : Prop :=
  (self._gpuOrb.isSome = true ↔ (self.gpu_ = true ∧ cudaEnabledDeviceCount ≠ 0)) ∧
  (self._orb.isSome = true ↔ ¬ (self.gpu_ = true ∧ cudaEnabledDeviceCount ≠ 0)) ∧
  self._gpuOrb.isSome ≠ self._orb.isSome

/-- Exactly one engine of a `FAST` object exists: the accelerated one if and only if the
GPU flag is set and the device count `cudaEnabledDeviceCount` is not zero, the standard
one otherwise, and one of the two pointers is null while the other is not. -/
def FAST.OneEngine (cudaEnabledDeviceCount : Int) (self : FAST) : Prop :=
  (self._gpuFast.isSome = true ↔ (self.gpu_ = true ∧ cudaEnabledDeviceCount ≠ 0)) ∧
  (self._fast.isSome = true ↔ ¬ (self.gpu_ = true ∧ cudaEnabledDeviceCount ≠ 0)) ∧
  self._gpuFast.isSome ≠ self._fast.isSome

/-! ## Sample data for the examples -/

/-- A keypoint at the origin, all fields as `cv::KeyPoint()` sets them but the response. -/
def keypointWithResponse (r : F32) : KeyPoint :=
  ⟨⟨F32.zero, F32.zero⟩, F32.zero, F32.fin (-1), r, 0, -1⟩

/-- The scenario of the specification: the float responses 0.1, 0.9, 0.5, 0.3, 0.7. -/
def scenarioKeypoints : List KeyPoint :=
  [keypointWithResponse (F32.literal (mkRat 1 10)),
   keypointWithResponse (F32.literal (mkRat 9 10)),
   keypointWithResponse (F32.literal (mkRat 5 10)),
   keypointWithResponse (F32.literal (mkRat 3 10)),
   keypointWithResponse (F32.literal (mkRat 7 10))]

/-- Three keypoints with responses 1, -3 and 2. -/
def signedKeypoints : List KeyPoint :=
  [keypointWithResponse (F32.fin 1), keypointWithResponse (F32.fin (-3)),
   keypointWithResponse (F32.fin 2)]

/-- One-column `CV_32F` descriptors for the scenario: the four bytes of row `i`
are `i, 0, 0, 0`. -/
def scenarioDescriptors : Mat :=
  ⟨1, 5, [[0, 0, 0, 0], [1, 0, 0, 0], [2, 0, 0, 0], [3, 0, 0, 0], [4, 0, 0, 0]]⟩

/-- A keypoint at pixel `(x, y)`, the other fields as `cv::KeyPoint()` sets them. -/
def keypointAt (x y : F32) : KeyPoint :=
  ⟨⟨x, y⟩, F32.zero, F32.fin (-1), F32.zero, 0, -1⟩

/-- A stand-in for the depth lookup, used in the examples only, on a depth image of
one byte per pixel: the depth at a pixel with finite coordinates is the byte stored
at that row and column, a byte 0 (no measurement) and a pixel outside the image giving
NaN; the depth is NaN for non-finite coordinates. -/
def sampleGetDepth : GetDepth := fun depth x y _ _ _ _ _ =>
  match x, y with
  | F32.fin u, F32.fin v =>
    ⟨x, y,
      match (depth.row (Rat.floor v).toNat).getD (Rat.floor u).toNat 0 with
      | 0 => F32.nan
      | d + 1 => F32.fin ((d + 1 : Nat) : ℚ)⟩
  | _, _ => ⟨F32.nan, F32.nan, F32.nan⟩

/-- A depth image of one row and one byte per pixel: depths 1, none (NaN), 7, 3. -/
def sampleDepth : Mat := ⟨4, 0, [[1, 0, 7, 3]]⟩

/-- Four keypoints, one on each pixel of `sampleDepth`. -/
def sampleKeypoints : List KeyPoint :=
  [keypointAt (F32.fin 0) (F32.fin 0), keypointAt (F32.fin 1) (F32.fin 0),
   keypointAt (F32.fin 2) (F32.fin 0), keypointAt (F32.fin 3) (F32.fin 0)]

/-- One-column `CV_32F` descriptors for `sampleKeypoints`: the four bytes of row `i`
are `10 + i, 0, 0, 0`. -/
def sampleDescriptors : Mat :=
  ⟨1, 5, [[10, 0, 0, 0], [11, 0, 0, 0], [12, 0, 0, 0], [13, 0, 0, 0]]⟩

/-- A one-channel 8-bit image of `w` columns and `h` rows, all pixels zero. -/
def blankImage (w h : Nat) : Mat :=
  ⟨w, CV_8U, List.replicate h (List.replicate w 0)⟩

/-- The ratios of the scenario of the specification, as the floats the function
receives: `0.1f`, `0.1f`, 0, 0. -/
def scenarioRatios : List F32 :=
  [F32.literal (mkRat 1 10), F32.literal (mkRat 1 10), F32.zero, F32.zero]

/-- A backend whose detection step finds one keypoint, at pixel (1, 1) of the rectangle
it is given, when that rectangle is the whole image, and does not return otherwise. -/
def wholeImageBackend : GenerateKeypointsImpl := fun image roi =>
  if roi = ⟨0, 0, image.cols, image.rows⟩ then some [keypointAt (F32.fin 1) (F32.fin 1)]
  else none

/-- A backend whose detection step finds, in any rectangle, the keypoints of
`scenarioKeypoints` moved to the pixels (1, 1), (2, 1), (3, 1), (4, 1), (5, 1). -/
def scenarioBackend : GenerateKeypointsImpl := fun _ _ =>
  some [{ keypointWithResponse (F32.literal (mkRat 1 10)) with pt := ⟨F32.fin 1, F32.fin 1⟩ },
    { keypointWithResponse (F32.literal (mkRat 9 10)) with pt := ⟨F32.fin 2, F32.fin 1⟩ },
    { keypointWithResponse (F32.literal (mkRat 5 10)) with pt := ⟨F32.fin 3, F32.fin 1⟩ },
    { keypointWithResponse (F32.literal (mkRat 3 10)) with pt := ⟨F32.fin 4, F32.fin 1⟩ },
    { keypointWithResponse (F32.literal (mkRat 7 10)) with pt := ⟨F32.fin 5, F32.fin 1⟩ }]

/-- A backend whose detection step never returns. -/
def failingBackend : GenerateKeypointsImpl := fun _ _ => none

/-- Two descriptor rows, fewer than the four keypoints of `sampleKeypoints`. -/
def mismatchedDescriptors : Mat := ⟨1, 5, [[10, 0, 0, 0], [11, 0, 0, 0]]⟩

/-- A conversion of a decimal text to an integer, for the examples. -/
def sampleToInt (text : String) : Int :=
  text.data.foldl (fun n c => 10 * n + ((c.toNat : Int) - 48)) 0

/-- A parameter registry for the examples: the keys are the identifiers `Family/Name`
of the specification, the defaults are sample values, and the conversions read
`true` as a boolean and decimal digits as a number. -/
def sampleParameters : Parameters :=
  { toBool := fun text => text == "true",
    toInt := sampleToInt,
    toFloat := fun text => F32.fin (sampleToInt text),
    toDouble := fun text => F32.fin (sampleToInt text),
    kSURFExtended := "SURF/Extended",
    kSURFHessianThreshold := "SURF/HessianThreshold",
    kSURFOctaveLayers := "SURF/OctaveLayers",
    kSURFOctaves := "SURF/Octaves",
    kSURFUpright := "SURF/Upright",
    kSURFGpuKeypointsRatio := "SURF/GpuKeypointsRatio",
    kSURFGpuVersion := "SURF/GpuVersion",
    kSIFTContrastThreshold := "SIFT/ContrastThreshold",
    kSIFTEdgeThreshold := "SIFT/EdgeThreshold",
    kSIFTNFeatures := "SIFT/NFeatures",
    kSIFTNOctaveLayers := "SIFT/NOctaveLayers",
    kSIFTSigma := "SIFT/Sigma",
    kORBNFeatures := "ORB/NFeatures",
    kORBScaleFactor := "ORB/ScaleFactor",
    kORBNLevels := "ORB/NLevels",
    kORBEdgeThreshold := "ORB/EdgeThreshold",
    kORBFirstLevel := "ORB/FirstLevel",
    kORBWTA_K := "ORB/WTA_K",
    kORBScoreType := "ORB/ScoreType",
    kORBPatchSize := "ORB/PatchSize",
    kORBGpu := "ORB/Gpu",
    kFASTThreshold := "FAST/Threshold",
    kFASTNonmaxSuppression := "FAST/NonmaxSuppression",
    kFASTGpu := "FAST/Gpu",
    kFASTGpuKeypointsRatio := "FAST/GpuKeypointsRatio",
    kBRIEFBytes := "BRIEF/Bytes",
    kFREAKOrientationNormalized := "FREAK/OrientationNormalized",
    kFREAKScaleNormalized := "FREAK/ScaleNormalized",
    kFREAKPatternScale := "FREAK/PatternScale",
    kFREAKNOctaves := "FREAK/NOctaves",
    defaultSURFExtended := false,
    defaultSURFHessianThreshold := F32.fin 150,
    defaultSURFOctaveLayers := 2,
    defaultSURFOctaves := 4,
    defaultSURFUpright := false,
    defaultSURFGpuKeypointsRatio := F32.fin (mkRat 1 100),
    defaultSURFGpuVersion := false,
    defaultSIFTContrastThreshold := F32.fin (mkRat 4 100),
    defaultSIFTEdgeThreshold := F32.fin 10,
    defaultSIFTNFeatures := 0,
    defaultSIFTNOctaveLayers := 3,
    defaultSIFTSigma := F32.fin (mkRat 16 10),
    defaultORBNFeatures := 500,
    defaultORBScaleFactor := F32.fin (mkRat 12 10),
    defaultORBNLevels := 8,
    defaultORBEdgeThreshold := 31,
    defaultORBFirstLevel := 0,
    defaultORBWTA_K := 2,
    defaultORBScoreType := 0,
    defaultORBPatchSize := 31,
    defaultORBGpu := false,
    defaultFASTThreshold := 30,
    defaultFASTNonmaxSuppression := true,
    defaultFASTGpu := false,
    defaultFASTGpuKeypointsRatio := F32.fin (mkRat 5 100),
    defaultBRIEFBytes := 32,
    defaultFREAKOrientationNormalized := true,
    defaultFREAKScaleNormalized := true,
    defaultFREAKPatternScale := F32.fin 22,
    defaultFREAKNOctaves := 4 }

/-- Ratios whose opposite sides sum to at least one: 0.5, 0.5 (exactly one) and
0.75, 0.5. -/
def excessiveRatios : List F32 :=
  [F32.fin (mkRat 1 2), F32.fin (mkRat 1 2), F32.fin (mkRat 3 4), F32.fin (mkRat 1 2)]

/-- The ratios 0.5, 0.5, 0, 0. -/
def halfRatios : List F32 :=
  [F32.fin (mkRat 1 2), F32.fin (mkRat 1 2), F32.zero, F32.zero]

/-- The ratios 2.75, -3, 0, 0, which are not in `[0, 1)`. -/
def wildRatios : List F32 :=
  [F32.fin (mkRat 11 4), F32.fin (-3), F32.zero, F32.zero]

/-- A keypoint at pixel `(x, 0)` with response `r`. -/
def keypointAtWithResponse (x : Int) (r : F32) : KeyPoint :=
  { keypointWithResponse r with pt := ⟨F32.ofInt x, F32.zero⟩ }

/-- Three keypoints, at `x = 0, 1, 2`, with the float responses 0.5, 0.5, 0.1: the
first two are tied. -/
def tiedKeypoints : List KeyPoint :=
  [keypointAtWithResponse 0 (F32.fin (mkRat 1 2)),
   keypointAtWithResponse 1 (F32.fin (mkRat 1 2)),
   keypointAtWithResponse 2 (F32.literal (mkRat 1 10))]

/-- OpenCV operations for the examples: the sub-image is the image itself and every
engine detects one keypoint, at pixel (1, 1). -/
def sampleOpenCV : OpenCV :=
  { roi := fun image _ => some image,
    detectSURF := fun _ _ => some [keypointAt (F32.fin 1) (F32.fin 1)],
    detectSURF_GPU := fun _ _ => some [keypointAt (F32.fin 1) (F32.fin 1)],
    detectORB := fun _ _ => some [keypointAt (F32.fin 1) (F32.fin 1)],
    detectORB_GPU := fun _ _ => some [keypointAt (F32.fin 1) (F32.fin 1)],
    detectFast := fun _ _ => some [keypointAt (F32.fin 1) (F32.fin 1)],
    detectFAST_GPU := fun _ _ => some [keypointAt (F32.fin 1) (F32.fin 1)] }

/-- Two keypoints, of responses 1 and NaN. -/
def nanKeypoints : List KeyPoint :=
  [keypointWithResponse (F32.fin 1), keypointWithResponse F32.nan]

/-- Four keypoints, of responses 1, NaN, 3 and 0.5. -/
def nanAmongKeypoints : List KeyPoint :=
  [keypointWithResponse (F32.fin 1), keypointWithResponse F32.nan,
    keypointWithResponse (F32.fin 3), keypointWithResponse (F32.fin (mkRat 1 2))]

/-- Two keypoints, of responses 0.5 and 0.75. -/
def pairKeypoints : List KeyPoint :=
  [keypointWithResponse (F32.fin (mkRat 1 2)), keypointWithResponse (F32.fin (mkRat 3 4))]

/-- One-column `CV_64F` descriptors (type tag 6, eight bytes per row) for
`pairKeypoints`: the bytes 1 to 8 and 11 to 18. -/
def doubleDescriptors : Mat :=
  ⟨1, 6, [[1, 2, 3, 4, 5, 6, 7, 8], [11, 12, 13, 14, 15, 16, 17, 18]]⟩

/-- One-column `CV_64F` descriptors (type tag 6, eight bytes per row) for
`sampleKeypoints`: the bytes of row `i` are `10 * (i + 1) + 1` to `10 * (i + 1) + 8`. -/
def doubleSampleDescriptors : Mat :=
  ⟨1, 6, [[11, 12, 13, 14, 15, 16, 17, 18], [21, 22, 23, 24, 25, 26, 27, 28],
    [31, 32, 33, 34, 35, 36, 37, 38], [41, 42, 43, 44, 45, 46, 47, 48]]⟩

/-- A backend whose detection step finds, in any rectangle, one keypoint at the
sub-pixel position `(1.3f, 2.7f)`. -/
def subPixelBackend : GenerateKeypointsImpl := fun _ _ =>
  some [keypointAt (F32.literal (mkRat 13 10)) (F32.literal (mkRat 27 10))]
/-! ## Float comparisons -/

theorem F32.lt_imp_le {a b : F32} (h : F32.lt a b = true) : F32.le a b = true := by
  cases a <;> cases b <;> simp_all [F32.lt, F32.le]
  exact le_of_lt h

theorem F32.le_of_not_lt {a b : F32} (ha : a ≠ F32.nan) (hb : b ≠ F32.nan)
    (h : F32.lt a b = false) : F32.le b a = true := by
  cases a <;> cases b <;> simp_all [F32.lt, F32.le]

theorem F32.le_chain {a b c : F32} (hab : F32.le a b = true) (hbc : F32.le b c = true) :
    F32.le a c = true := by
  cases a <;> cases b <;> cases c <;> simp_all [F32.lt, F32.le]
  exact hab.trans hbc

theorem F32.not_lt_of_le {a b : F32} (h : F32.le a b = true) : F32.lt b a = false := by
  cases a <;> cases b <;> simp_all [F32.lt, F32.le]

theorem F32.fabs_ne_nan {a : F32} (h : a ≠ F32.nan) : F32.fabs a ≠ F32.nan := by
  cases a <;> simp_all [F32.fabs]

/-! ## The red-black tree of the multimap -/

theorem RbTree.inorder_paint (c : Color) (t : RbTree) : (t.paint c).inorder = t.inorder := by
  cases t <;> rfl

theorem Step.inorder_attach (s : Step) (c : Color) (x : RbTree) :
    (s.attach c x).inorder
      = (if s.isLeft then [] else s.sibling.inorder ++ [s.entry]) ++ x.inorder
        ++ (if s.isLeft then s.entry :: s.sibling.inorder else []) := by
  unfold Step.attach
  cases s.isLeft <;> simp [RbTree.inorder]

theorem inorder_plug (path : List Step) (x : RbTree) :
    (plug x path).inorder = entriesBefore path ++ x.inorder ++ entriesAfter path := by
  induction path generalizing x with
  | nil => simp [plug, entriesBefore, entriesAfter]
  | cons s path ih =>
    rw [plug, ih, Step.inorder_attach, entriesBefore, entriesAfter]
    simp only [List.append_assoc]

theorem inorder_rotate (x : RbTree) (p g : Step) :
    (rotate x p g).inorder = (g.attach g.color (p.attach p.color x)).inorder := by
  cases x with
  | leaf => rfl
  | node c xl xe xr =>
    rw [Step.inorder_attach, Step.inorder_attach]
    unfold rotate
    cases g.isLeft <;> cases p.isLeft <;> simp [RbTree.inorder]

theorem inorder_rebalance (x : RbTree) (path : List Step) :
    (rebalance x path).inorder = entriesBefore path ++ x.inorder ++ entriesAfter path := by
  induction x, path using rebalance.induct with
  | case1 x => simp [rebalance, entriesBefore, entriesAfter]
  | case2 x p => rw [rebalance, inorder_plug]
  | case3 x p g rest hp =>
    rw [rebalance, if_pos hp, inorder_plug]
  | case4 x p g rest hp hu ih =>
    rw [rebalance, if_neg hp, if_pos hu, ih]
    simp only [entriesBefore, entriesAfter]
    cases g.isLeft <;>
      simp [RbTree.inorder, RbTree.inorder_paint, Step.inorder_attach]
  | case5 x p g rest hp hu =>
    rw [rebalance, if_neg hp, if_neg hu, inorder_plug, inorder_rotate,
      Step.inorder_attach, Step.inorder_attach]
    simp only [entriesBefore, entriesAfter, List.append_assoc]

theorem descend_entries (k : F32) (t : RbTree) (path : List Step) :
    entriesBefore (descend k t path) ++ entriesAfter (descend k t path)
      = entriesBefore path ++ t.inorder ++ entriesAfter path := by
  induction t generalizing path with
  | leaf => simp [descend, RbTree.inorder]
  | node c l e r ihl ihr =>
    unfold descend
    split
    · rw [ihl]
      simp [entriesBefore, entriesAfter, RbTree.inorder]
    · rw [ihr]
      simp [entriesBefore, entriesAfter, RbTree.inorder]

theorem RbTree.inorder_insert (t : RbTree) (e : F32 × Nat) :
    (t.insert e).inorder
      = entriesBefore (descend e.1 t []) ++ e :: entriesAfter (descend e.1 t []) := by
  rw [RbTree.insert, RbTree.inorder_paint, inorder_rebalance]
  simp [RbTree.inorder]

theorem RbTree.insert_perm (t : RbTree) (e : F32 × Nat) :
    (t.insert e).inorder.Perm (e :: t.inorder) := by
  have h := descend_entries e.1 t []
  simp only [entriesBefore, entriesAfter, List.nil_append, List.append_nil] at h
  rw [RbTree.inorder_insert, ← h]
  exact List.perm_middle

theorem upperBoundInsert_split (e : F32 × Nat) (b a : List (F32 × Nat))
    (hb : ∀ x ∈ b, F32.lt e.1 x.1 = false) (ha : ∀ x ∈ a.head?, F32.lt e.1 x.1 = true) :
    upperBoundInsert (b ++ a) e = b ++ e :: a := by
  induction b with
  | nil =>
    cases a with
    | nil => rfl
    | cons x xs =>
      have hx : F32.lt e.1 x.1 = true := ha x (by simp)
      simp [upperBoundInsert, hx]
  | cons y ys ih =>
    have hy : F32.lt e.1 y.1 = false := hb y (List.mem_cons_self _ _)
    rw [List.cons_append, upperBoundInsert, if_neg (by simp [hy]),
      ih (fun x hx => hb x (List.mem_cons_of_mem _ hx)), List.cons_append]

/-- Where the keys are ordered, the descent ends behind the entries whose key is not
greater than `k` and in front of an entry with a greater key. -/
theorem descend_bounds (k : F32) (hk : k ≠ F32.nan) (t : RbTree) (path : List Step)
    (hs : t.inorder.Pairwise (fun x y => F32.le x.1 y.1 = true))
    (hn : ∀ x ∈ t.inorder, x.1 ≠ F32.nan)
    (hb : ∀ x ∈ entriesBefore path, F32.lt k x.1 = false)
    (ha : ∀ x ∈ (entriesAfter path).head?, F32.lt k x.1 = true) :
    (∀ x ∈ entriesBefore (descend k t path), F32.lt k x.1 = false) ∧
    (∀ x ∈ (entriesAfter (descend k t path)).head?, F32.lt k x.1 = true) := by
  induction t generalizing path with
  | leaf => exact ⟨hb, ha⟩
  | node c l e r ihl ihr =>
    simp only [RbTree.inorder, List.pairwise_append, List.pairwise_cons] at hs
    obtain ⟨hsl, ⟨her, hsr⟩, hle⟩ := hs
    have hnl : ∀ x ∈ l.inorder, x.1 ≠ F32.nan := fun x hx =>
      hn x (by simp [RbTree.inorder, hx])
    have hnr : ∀ x ∈ r.inorder, x.1 ≠ F32.nan := fun x hx =>
      hn x (by simp [RbTree.inorder, hx])
    have hne : e.1 ≠ F32.nan := hn e (by simp [RbTree.inorder])
    unfold descend
    split
    · rename_i hlt
      refine ihl _ hsl hnl ?_ ?_
      · simpa [entriesBefore] using hb
      · intro x hx
        simp only [entriesAfter, if_true, List.cons_append, List.head?_cons,
          Option.mem_def, Option.some.injEq] at hx
        rw [← hx]
        exact hlt
    · rename_i hlt
      have hek : F32.le e.1 k = true := F32.le_of_not_lt hk hne (by simpa using hlt)
      refine ihr _ hsr hnr ?_ ?_
      · intro x hx
        simp only [entriesBefore, Bool.false_eq_true, if_false, List.mem_append,
          List.mem_singleton] at hx
        rcases hx with hx | hx | hx
        · exact hb x hx
        · exact F32.not_lt_of_le (F32.le_chain (hle x hx e (List.mem_cons_self _ _)) hek)
        · rw [hx]
          exact F32.not_lt_of_le hek
      · simpa [entriesAfter] using ha

/-- Where no key is NaN and the entries are in the order of their keys, `insert`
places the new entry at the upper bound of its key. -/
theorem RbTree.insert_eq_upperBound (t : RbTree) (e : F32 × Nat)
    (hs : t.inorder.Pairwise (fun x y => F32.le x.1 y.1 = true))
    (hn : ∀ x ∈ t.inorder, x.1 ≠ F32.nan) (he : e.1 ≠ F32.nan) :
    (t.insert e).inorder = upperBoundInsert t.inorder e := by
  have h := descend_entries e.1 t []
  simp only [entriesBefore, entriesAfter, List.nil_append, List.append_nil] at h
  have hb := descend_bounds e.1 he t [] hs hn (by simp [entriesBefore])
    (by simp [entriesAfter])
  rw [RbTree.inorder_insert, ← h, upperBoundInsert_split e _ _ hb.1 hb.2]

/-! ## The multimap of line 120 -/

theorem upperBoundInsert_perm (m : List (F32 × Nat)) (e : F32 × Nat) :
    (upperBoundInsert m e).Perm (e :: m) := by
  induction m with
  | nil => simp [upperBoundInsert]
  | cons x xs ih =>
    unfold upperBoundInsert
    split
    · exact List.Perm.refl _
    · exact (List.Perm.cons x ih).trans (List.Perm.swap e x xs)

theorem upperBoundInsert_sorted (m : List (F32 × Nat)) (e : F32 × Nat)
    (hm : ∀ x ∈ m, x.1 ≠ F32.nan) (he : e.1 ≠ F32.nan)
    (hs : m.Pairwise (fun x y => F32.le x.1 y.1 = true)) :
    (upperBoundInsert m e).Pairwise (fun x y => F32.le x.1 y.1 = true) := by
  induction m with
  | nil => simp [upperBoundInsert]
  | cons x xs ih =>
    rw [List.pairwise_cons] at hs
    unfold upperBoundInsert
    split
    · rename_i hlt
      have hex := F32.lt_imp_le hlt
      refine List.Pairwise.cons ?_ (List.Pairwise.cons hs.1 hs.2)
      intro y hy
      rcases List.mem_cons.1 hy with rfl | hy
      · exact hex
      · exact F32.le_chain hex (hs.1 y hy)
    · rename_i hlt
      have hxe : F32.le x.1 e.1 = true :=
        F32.le_of_not_lt he (hm x (List.mem_cons_self _ _)) (by simpa using hlt)
      refine List.Pairwise.cons ?_ (ih (fun y hy => hm y (List.mem_cons_of_mem _ hy)) hs.2)
      intro y hy
      rcases List.mem_cons.1 ((upperBoundInsert_perm xs e).mem_iff.1 hy) with rfl | hy
      · exact hxe
      · exact hs.1 y hy

theorem getD_response_ne_nan (keypoints : List KeyPoint)
    (h : ∀ kp ∈ keypoints, kp.response ≠ F32.nan) (i : Nat) :
    (keypoints.getD i default).response ≠ F32.nan := by
  by_cases hi : i < keypoints.length
  · rw [List.getD_eq_getElem _ _ hi]
    exact h _ (List.getElem_mem _)
  · rw [List.getD_eq_default _ _ (Nat.le_of_not_lt hi)]
    decide

theorem hessianFold_perm (keypoints : List KeyPoint) (k : Nat) :
    (((List.range k).foldl
      (fun m i => upperBoundInsert m (F32.fabs (keypoints.getD i default).response, i)) []).map
        Prod.snd).Perm (List.range k) := by
  induction k with
  | zero => simp
  | succ k ih =>
    rw [List.range_succ, List.foldl_append]
    simp only [List.foldl_cons, List.foldl_nil]
    refine ((upperBoundInsert_perm _ _).map Prod.snd).trans ?_
    simp only [List.map_cons]
    exact (List.Perm.cons k ih).trans (List.perm_append_singleton k (List.range k)).symm

theorem hessianFold_key (keypoints : List KeyPoint) (k : Nat) :
    ∀ e ∈ (List.range k).foldl
      (fun m i => upperBoundInsert m (F32.fabs (keypoints.getD i default).response, i)) [],
      e.1 = F32.fabs (keypoints.getD e.2 default).response := by
  induction k with
  | zero => simp
  | succ k ih =>
    rw [List.range_succ, List.foldl_append]
    simp only [List.foldl_cons, List.foldl_nil]
    intro e he
    rcases List.mem_cons.1 ((upperBoundInsert_perm _ _).mem_iff.1 he) with rfl | he
    · rfl
    · exact ih e he

theorem hessianFold_sorted (keypoints : List KeyPoint)
    (h : ∀ kp ∈ keypoints, kp.response ≠ F32.nan) (k : Nat) :
    ((List.range k).foldl
      (fun m i => upperBoundInsert m (F32.fabs (keypoints.getD i default).response, i)) []).Pairwise
        (fun x y => F32.le x.1 y.1 = true) := by
  induction k with
  | zero => simp
  | succ k ih =>
    rw [List.range_succ, List.foldl_append]
    simp only [List.foldl_cons, List.foldl_nil]
    refine upperBoundInsert_sorted _ _ ?_ ?_ ih
    · intro x hx
      rw [hessianFold_key keypoints k x hx]
      exact F32.fabs_ne_nan (getD_response_ne_nan keypoints h _)
    · exact F32.fabs_ne_nan (getD_response_ne_nan keypoints h _)

theorem hessianTree_perm (keypoints : List KeyPoint) (k : Nat) :
    (((List.range k).foldl
      (fun m i => m.insert (F32.fabs (keypoints.getD i default).response, i))
      RbTree.leaf).inorder.map Prod.snd).Perm (List.range k) := by
  induction k with
  | zero => simp [RbTree.inorder]
  | succ k ih =>
    rw [List.range_succ, List.foldl_append]
    simp only [List.foldl_cons, List.foldl_nil]
    refine ((RbTree.insert_perm _ _).map Prod.snd).trans ?_
    simp only [List.map_cons]
    exact (List.Perm.cons k ih).trans (List.perm_append_singleton k (List.range k)).symm

/-- Without a NaN response the tree holds the entries in the order the insertions at
the upper bound give. -/
theorem hessianTree_inorder (keypoints : List KeyPoint)
    (h : ∀ kp ∈ keypoints, kp.response ≠ F32.nan) (k : Nat) :
    ((List.range k).foldl
      (fun m i => m.insert (F32.fabs (keypoints.getD i default).response, i))
      RbTree.leaf).inorder
      = (List.range k).foldl
        (fun m i => upperBoundInsert m (F32.fabs (keypoints.getD i default).response, i)) [] := by
  induction k with
  | zero => simp [RbTree.inorder]
  | succ k ih =>
    rw [List.range_succ, List.foldl_append, List.foldl_append]
    simp only [List.foldl_cons, List.foldl_nil]
    rw [RbTree.insert_eq_upperBound, ih]
    · rw [ih]
      exact hessianFold_sorted keypoints h k
    · intro x hx
      rw [ih] at hx
      rw [hessianFold_key keypoints k x hx]
      exact F32.fabs_ne_nan (getD_response_ne_nan keypoints h _)
    · exact F32.fabs_ne_nan (getD_response_ne_nan keypoints h _)

theorem buildHessianMap_eq (keypoints : List KeyPoint)
    (h : ∀ kp ∈ keypoints, kp.response ≠ F32.nan) :
    buildHessianMap keypoints
      = (List.range keypoints.length).foldl
        (fun m i => upperBoundInsert m (F32.fabs (keypoints.getD i default).response, i)) [] :=
  hessianTree_inorder keypoints h keypoints.length

/-! ## The selection loop of lines 136-143 -/

theorem take_succ_set {α : Type} (buf : List α) (k : Nat) (x : α) (hk : k < buf.length) :
    (buf.set k x).take (k + 1) = buf.take k ++ [x] := by
  rw [List.set_eq_take_append_cons_drop, if_pos hk, List.take_append_eq_append_take]
  simp [List.length_take, Nat.min_eq_left (Nat.le_of_lt hk)]

theorem fill_step {α : Type} (buf : List α) (k m : Nat) (x : α) (mid : List α)
    (hk : k < buf.length) :
    (buf.set k x).take (k + 1) ++ mid ++ (buf.set k x).drop (k + 1 + m)
      = buf.take k ++ x :: mid ++ buf.drop (k + (m + 1)) := by
  rw [take_succ_set buf k x hk, List.drop_set_of_lt x buf (by omega : k < k + 1 + m)]
  simp [Nat.add_assoc, Nat.add_comm 1 m]

theorem limitLoop_fst (keypoints : List KeyPoint) (descriptors : Mat)
    (iter : List (F32 × Nat)) :
    ∀ (k : Nat) (kptsTmp : List KeyPoint) (descriptorsTmp : Mat), k ≤ kptsTmp.length →
      (limitLoop keypoints descriptors k iter kptsTmp descriptorsTmp).1
        = kptsTmp.take k
          ++ (iter.take (kptsTmp.length - k)).map (fun e => keypoints.getD e.2 default)
          ++ kptsTmp.drop (k + min iter.length (kptsTmp.length - k)) := by
  induction iter with
  | nil => intro k kptsTmp _ _; simp [limitLoop]
  | cons e iter ih =>
    intro k kptsTmp descriptorsTmp hk
    unfold limitLoop
    split
    · rename_i hlt
      rw [ih (k + 1) _ _ (by simpa using hlt)]
      simp only [List.length_set]
      obtain ⟨d, hd⟩ : ∃ d, kptsTmp.length - k = d + 1 := ⟨kptsTmp.length - k - 1, by omega⟩
      have hd' : kptsTmp.length - (k + 1) = d := by omega
      rw [hd, hd', List.take_succ_cons, List.map_cons, List.length_cons,
        Nat.succ_min_succ]
      exact fill_step kptsTmp k _ _ _ hlt
    · rename_i hlt
      have : kptsTmp.length - k = 0 := by omega
      simp [this]

theorem mapIdxFrom_length {α β : Type} (f : Nat → α → β) (l : List α) :
    ∀ start, (mapIdxFrom f start l).length = l.length := by
  induction l with
  | nil => intro _; rfl
  | cons a rest ih => intro start; simp [mapIdxFrom, ih]

/-- A `memcpy` into a matrix changes bytes only: the rows, the columns and the type
of the matrix stay. -/
theorem memcpy_shape (dst : Mat) (k : Nat) (src : Mat) (i n : Nat) :
    (memcpy dst k src i n).rows = dst.rows ∧ (memcpy dst k src i n).cols = dst.cols ∧
    (memcpy dst k src i n).type = dst.type := by
  simp [memcpy, Mat.rows, mapIdxFrom_length]

theorem limitLoop_snd (keypoints : List KeyPoint) (descriptors : Mat)
    (iter : List (F32 × Nat)) :
    ∀ (k : Nat) (kptsTmp : List KeyPoint) (descriptorsTmp : Mat),
      (limitLoop keypoints descriptors k iter kptsTmp descriptorsTmp).2.rows
        = descriptorsTmp.rows ∧
      (limitLoop keypoints descriptors k iter kptsTmp descriptorsTmp).2.cols
        = descriptorsTmp.cols ∧
      (limitLoop keypoints descriptors k iter kptsTmp descriptorsTmp).2.type
        = descriptorsTmp.type := by
  induction iter with
  | nil => intro k kptsTmp _; simp [limitLoop]
  | cons e iter ih =>
    intro k kptsTmp descriptorsTmp
    unfold limitLoop
    split
    · obtain ⟨h1, h2, h3⟩ := ih (k + 1) (kptsTmp.set k (keypoints.getD e.2 default))
        (if descriptors.rows != 0 then
          memcpy descriptorsTmp k descriptors e.2 (descriptors.cols * sizeofFloat)
         else descriptorsTmp)
      rw [h1, h2, h3]
      split
      · exact memcpy_shape _ _ _ _ _
      · exact ⟨rfl, rfl, rfl⟩
    · exact ⟨rfl, rfl, rfl⟩

theorem buildHessianMap_length (keypoints : List KeyPoint) :
    (buildHessianMap keypoints).length = keypoints.length := by
  have h := (hessianTree_perm keypoints keypoints.length).length_eq
  simpa [buildHessianMap] using h

/-- In the pruning branch the keypoints are read off the `maxKeypoints` last entries
of the multimap, taken backwards; descriptors without rows are returned as they are,
the others become a matrix of `maxKeypoints` rows of the same width and type. -/
theorem limitKeypoints_prune (keypoints : List KeyPoint) (descriptors : Mat)
    (maxKeypoints : Int) (hmax : 0 < maxKeypoints)
    (hlt : maxKeypoints < (keypoints.length : Int))
    (hrows : descriptors.rows = 0 ∨ descriptors.rows = keypoints.length) :
    ∃ descriptors' : Mat,
      limitKeypoints keypoints descriptors maxKeypoints
        = some
          ((((buildHessianMap keypoints).reverse.take maxKeypoints.toNat).map Prod.snd).map
              (fun i => keypoints.getD i default), descriptors') ∧
      (descriptors.rows = 0 → descriptors' = descriptors) ∧
      (descriptors.rows ≠ 0 → descriptors'.rows = maxKeypoints.toNat ∧
        descriptors'.cols = descriptors.cols ∧ descriptors'.type = descriptors.type) := by
  have hM : maxKeypoints.toNat < keypoints.length := by omega
  have hassert : (keypoints.length == descriptors.rows || descriptors.rows == 0) = true := by
    rcases hrows with h | h <;> simp [h]
  have hcond : (decide (maxKeypoints > 0) && decide ((keypoints.length : Int) > maxKeypoints))
      = true := by simp [hmax, hlt]
  have hlen : (buildHessianMap keypoints).reverse.length = keypoints.length := by
    rw [List.length_reverse, buildHessianMap_length]
  have hfst : (limitLoop keypoints descriptors 0 (buildHessianMap keypoints).reverse
      (List.replicate maxKeypoints.toNat default)
      (if descriptors.rows != 0 then
        Mat.create maxKeypoints.toNat descriptors.cols descriptors.type
       else Mat.nil)).1
      = (((buildHessianMap keypoints).reverse.take maxKeypoints.toNat).map Prod.snd).map
          (fun i => keypoints.getD i default) := by
    rw [limitLoop_fst _ _ _ 0 _ _ (Nat.zero_le _)]
    simp [hlen, Nat.min_eq_right (Nat.le_of_lt hM), Function.comp_def]
  refine ⟨if descriptors.rows != 0 then
      (limitLoop keypoints descriptors 0 (buildHessianMap keypoints).reverse
        (List.replicate maxKeypoints.toNat default)
        (if descriptors.rows != 0 then
          Mat.create maxKeypoints.toNat descriptors.cols descriptors.type
         else Mat.nil)).2
    else descriptors, ?_, ?_, ?_⟩
  · unfold limitKeypoints UASSERT
    rw [hassert]
    simp only [if_true, Option.some_bind, hcond]
    rw [hfst]
  · intro h0
    simp [h0]
  · intro h0
    have hne : (descriptors.rows != 0) = true := by simpa using h0
    obtain ⟨h1, h2, h3⟩ := limitLoop_snd keypoints descriptors
      (buildHessianMap keypoints).reverse 0 (List.replicate maxKeypoints.toNat default)
      (Mat.create maxKeypoints.toNat descriptors.cols descriptors.type)
    simp only [hne, if_true]
    rw [h1, h2, h3]
    simp [Mat.create, Mat.rows]

/-- Outside the pruning branch the call returns its arguments. -/
theorem limitKeypoints_keep (keypoints : List KeyPoint) (descriptors : Mat)
    (maxKeypoints : Int) (h : maxKeypoints ≤ 0 ∨ (keypoints.length : Int) ≤ maxKeypoints)
    (hrows : descriptors.rows = 0 ∨ descriptors.rows = keypoints.length) :
    limitKeypoints keypoints descriptors maxKeypoints = some (keypoints, descriptors) := by
  have hassert : (keypoints.length == descriptors.rows || descriptors.rows == 0) = true := by
    rcases hrows with h | h <;> simp [h]
  have hcond : (decide (maxKeypoints > 0) && decide ((keypoints.length : Int) > maxKeypoints))
      = false := by
    rcases h with h | h
    · simp [Int.not_lt.2 h]
    · simp [Int.not_lt.2 h]
  unfold limitKeypoints UASSERT
  rw [hassert]
  simp [hcond]

/-! ## The ranking used by `limitKeypoints` -/

theorem map_getD_range {α : Type} (l : List α) (d : α) :
    (List.range l.length).map (fun i => l.getD i d) = l := by
  apply List.ext_getElem
  · simp
  · intro i h1 h2
    rw [List.getElem_map, List.getElem_range]
    exact List.getD_eq_getElem l d h2

theorem ranking_perm (keypoints : List KeyPoint) :
    ((buildHessianMap keypoints).reverse.map Prod.snd).Perm (List.range keypoints.length) := by
  rw [List.map_reverse]
  exact (List.reverse_perm _).trans (hessianTree_perm keypoints keypoints.length)

theorem ranking_sorted (keypoints : List KeyPoint)
    (hnan : ∀ kp ∈ keypoints, kp.response ≠ F32.nan) :
    ((buildHessianMap keypoints).reverse.map Prod.snd).Pairwise
      (fun i j => F32.ge (F32.fabs (keypoints.getD i default).response)
        (F32.fabs (keypoints.getD j default).response) = true) := by
  rw [buildHessianMap_eq keypoints hnan, List.pairwise_map, List.pairwise_reverse]
  have hs := hessianFold_sorted keypoints hnan keypoints.length
  have hk := hessianFold_key keypoints keypoints.length
  refine List.Pairwise.imp_of_mem ?_ hs
  intro a b ha hb hab
  rw [F32.ge, ← hk a ha, ← hk b hb]
  exact hab

/-- The indices selected in the pruning branch: pairwise distinct, in range,
ranked by non-increasing absolute response, and each at least as strong as
every index left out. -/
theorem ranking_take (keypoints : List KeyPoint)
    (hnan : ∀ kp ∈ keypoints, kp.response ≠ F32.nan) (m : Nat) (hm : m ≤ keypoints.length) :
    (((buildHessianMap keypoints).reverse.take m).map Prod.snd).length = m ∧
    (((buildHessianMap keypoints).reverse.take m).map Prod.snd).Nodup ∧
    (∀ i ∈ ((buildHessianMap keypoints).reverse.take m).map Prod.snd, i < keypoints.length) ∧
    (((buildHessianMap keypoints).reverse.take m).map Prod.snd).Pairwise
      (fun i j => F32.ge (F32.fabs (keypoints.getD i default).response)
        (F32.fabs (keypoints.getD j default).response) = true) ∧
    ∀ i ∈ ((buildHessianMap keypoints).reverse.take m).map Prod.snd,
      ∀ j, j < keypoints.length →
        j ∉ ((buildHessianMap keypoints).reverse.take m).map Prod.snd →
        F32.ge (F32.fabs (keypoints.getD i default).response)
          (F32.fabs (keypoints.getD j default).response) = true := by
  have hperm := ranking_perm keypoints
  have hsorted := ranking_sorted keypoints hnan
  have hnodup : ((buildHessianMap keypoints).reverse.map Prod.snd).Nodup :=
    hperm.nodup_iff.2 (List.nodup_range _)
  rw [List.map_take]
  rw [← List.take_append_drop m ((buildHessianMap keypoints).reverse.map Prod.snd)] at hsorted
  rw [List.pairwise_append] at hsorted
  have hsub : (((buildHessianMap keypoints).reverse.map Prod.snd).take m).Sublist
      ((buildHessianMap keypoints).reverse.map Prod.snd) := List.take_sublist _ _
  refine ⟨?_, hnodup.sublist hsub, ?_, hsorted.1, ?_⟩
  · rw [List.length_take, List.length_map, List.length_reverse, buildHessianMap_length]
    exact Nat.min_eq_left hm
  · intro i hi
    exact List.mem_range.1 (hperm.mem_iff.1 (hsub.subset hi))
  · intro i hi j hj hjn
    have hjall : j ∈ (buildHessianMap keypoints).reverse.map Prod.snd :=
      hperm.mem_iff.2 (List.mem_range.2 hj)
    rw [← List.take_append_drop m ((buildHessianMap keypoints).reverse.map Prod.snd),
      List.mem_append] at hjall
    rcases hjall with h | h
    · exact absurd h hjn
    · exact hsorted.2.2 i hi j h

theorem selected_in_range (keypoints : List KeyPoint) (m : Nat) :
    ∀ j ∈ ((buildHessianMap keypoints).reverse.take m).map Prod.snd,
      j < keypoints.length := by
  intro j hj
  rw [List.map_take] at hj
  exact List.mem_range.1 ((ranking_perm keypoints).mem_iff.1 (List.mem_of_mem_take hj))

/-! ## The loops of `filterKeypointsByDepth` -/

theorem filter_range_succ (p : Nat → Bool) (k : Nat) :
    (List.range (k + 1)).filter p
      = (List.range k).filter p ++ (if p k = true then [k] else []) := by
  rw [List.range_succ, List.filter_append]
  by_cases h : p k = true <;> simp [h]

theorem length_filter_range_le (p : Nat → Bool) (k : Nat) :
    ((List.range k).filter p).length ≤ k := by
  have h := List.length_filter_le p (List.range k)
  simpa using h

theorem length_filter_range_mono (p : Nat → Bool) {k n : Nat} (h : k ≤ n) :
    ((List.range k).filter p).length ≤ ((List.range n).filter p).length := by
  induction n with
  | zero =>
    have : k = 0 := by omega
    subst this
    exact Nat.le_refl _
  | succ n ih =>
    by_cases hk : k = n + 1
    · subst hk
      exact Nat.le_refl _
    · have := ih (by omega)
      rw [filter_range_succ, List.length_append]
      omega

/-- A loop that, for `i = 0 .. k-1`, appends `src i` to the buffer and marks
index `i` whenever `p i` holds: its state after `k` iterations. -/
theorem compactFold_inv (p : Nat → Bool) (src : Nat → KeyPoint) (n k : Nat) (hk : k ≤ n) :
    ∃ s : DepthLoopState,
      (List.range k).foldl
        (fun (s : DepthLoopState) i =>
          if p i = true then
            { output := s.output.set s.oi (src i), indexes := s.indexes.set i 1,
              oi := s.oi + 1 }
          else s)
        { output := List.replicate n default, indexes := List.replicate n 0, oi := 0 } = s ∧
      s.output.length = n ∧
      s.indexes.length = n ∧
      s.oi = ((List.range k).filter p).length ∧
      s.output.take s.oi = ((List.range k).filter p).map src ∧
      ∀ i, (s.indexes.getD i 0 == 1) = (decide (i < k) && p i) := by
  induction k with
  | zero =>
    refine ⟨_, rfl, by simp, by simp, by simp, by simp, ?_⟩
    intro i
    by_cases hi : i < n <;> simp [hi, List.getElem?_replicate]
  | succ k ih =>
    obtain ⟨s, hs, hout, hidx, hoi, htake, hget⟩ := ih (by omega)
    rw [List.range_succ, List.foldl_append, hs]
    simp only [List.foldl_cons, List.foldl_nil]
    rw [← List.range_succ, filter_range_succ]
    have hcap : s.oi < s.output.length := by
      have := length_filter_range_le p k
      omega
    have hdec : ∀ i, i ≠ k → (decide (i < k + 1)) = decide (i < k) := by
      intro i hik
      apply decide_eq_decide.2
      omega
    by_cases hp : p k = true
    · simp only [hp, if_true]
      refine ⟨_, rfl, ?_, ?_, ?_, ?_, ?_⟩
      · simp [hout]
      · simp [hidx]
      · simp [hoi]
      · rw [take_succ_set _ _ _ hcap, htake]
        simp
      · intro i
        by_cases hik : i = k
        · subst hik
          have : i < s.indexes.length := by omega
          simp [hp, this]
        · have h1 := hget i
          simp only [List.getD_eq_getElem?_getD] at h1 ⊢
          rw [List.getElem?_set_ne (Ne.symm hik), h1, hdec i hik]
    · have hp' : p k = false := by simpa using hp
      simp only [hp', Bool.false_eq_true, if_false, List.append_nil]
      refine ⟨_, rfl, hout, hidx, hoi, htake, ?_⟩
      intro i
      rw [hget i]
      by_cases hik : i = k
      · subst hik
        simp [hp']
      · rw [hdec i hik]

/-- The state of the first loop of `filterKeypointsByDepth` when it ends. -/
theorem depthLoop_inv (getDepth : GetDepth) (keypoints : List KeyPoint) (depth : Mat)
    (fx fy cx cy maxDepth : F32) :
    (depthLoop getDepth keypoints depth fx fy cx cy maxDepth).output.length
      = keypoints.length ∧
    (depthLoop getDepth keypoints depth fx fy cx cy maxDepth).indexes.length
      = keypoints.length ∧
    (depthLoop getDepth keypoints depth fx fy cx cy maxDepth).oi
      = ((List.range keypoints.length).filter (fun i =>
          depthOk getDepth depth fx fy cx cy maxDepth (keypoints.getD i default))).length ∧
    (depthLoop getDepth keypoints depth fx fy cx cy maxDepth).output.take
        (depthLoop getDepth keypoints depth fx fy cx cy maxDepth).oi
      = ((List.range keypoints.length).filter (fun i =>
          depthOk getDepth depth fx fy cx cy maxDepth (keypoints.getD i default))).map
            (fun i => keypoints.getD i default) ∧
    ∀ i, ((depthLoop getDepth keypoints depth fx fy cx cy maxDepth).indexes.getD i 0 == 1)
      = (decide (i < keypoints.length) &&
          depthOk getDepth depth fx fy cx cy maxDepth (keypoints.getD i default)) := by
  obtain ⟨s, hs, h⟩ := compactFold_inv
    (fun i => depthOk getDepth depth fx fy cx cy maxDepth (keypoints.getD i default))
    (fun i => keypoints.getD i default) keypoints.length keypoints.length (Nat.le_refl _)
  have hloop : depthLoop getDepth keypoints depth fx fy cx cy maxDepth = s := hs
  rw [hloop]
  exact h

/-- The second loop of `filterKeypointsByDepth` changes bytes only: the matrix it
fills keeps its rows, its columns and its type. -/
theorem copyFold_inv (descriptors : Mat) (indexes : List Int) (newDescriptors : Mat)
    (k : Nat) :
    ((List.range k).foldl (copyRowsStep descriptors indexes) (newDescriptors, 0)).1.rows
      = newDescriptors.rows ∧
    ((List.range k).foldl (copyRowsStep descriptors indexes) (newDescriptors, 0)).1.cols
      = newDescriptors.cols ∧
    ((List.range k).foldl (copyRowsStep descriptors indexes) (newDescriptors, 0)).1.type
      = newDescriptors.type := by
  induction k with
  | zero => exact ⟨rfl, rfl, rfl⟩
  | succ k ih =>
    rw [List.range_succ, List.foldl_append]
    simp only [List.foldl_cons, List.foldl_nil]
    unfold copyRowsStep
    split
    · obtain ⟨h1, h2, h3⟩ := memcpy_shape
        ((List.range k).foldl (copyRowsStep descriptors indexes) (newDescriptors, 0)).1
        ((List.range k).foldl (copyRowsStep descriptors indexes) (newDescriptors, 0)).2
        descriptors k (descriptors.cols * sizeofFloat)
      exact ⟨h1.trans ih.1, h2.trans ih.2.1, h3.trans ih.2.2⟩
    · exact ih

theorem copyRows_shape (descriptors : Mat) (indexes : List Int) (rows : Nat) :
    (copyRows descriptors indexes (Mat.create rows descriptors.cols descriptors.type)).1.rows
      = rows ∧
    (copyRows descriptors indexes (Mat.create rows descriptors.cols descriptors.type)).1.cols
      = descriptors.cols ∧
    (copyRows descriptors indexes (Mat.create rows descriptors.cols descriptors.type)).1.type
      = descriptors.type := by
  obtain ⟨h1, h2, h3⟩ := copyFold_inv descriptors indexes
    (Mat.create rows descriptors.cols descriptors.type) indexes.length
  refine ⟨?_, h2, h3⟩
  rw [copyRows, h1]
  simp [Mat.create, Mat.rows]

theorem depthLoop_output (getDepth : GetDepth) (keypoints : List KeyPoint) (depth : Mat)
    (fx fy cx cy maxDepth : F32) :
    resize (depthLoop getDepth keypoints depth fx fy cx cy maxDepth).output
        (depthLoop getDepth keypoints depth fx fy cx cy maxDepth).oi
      = ((List.range keypoints.length).filter (fun i =>
          depthOk getDepth depth fx fy cx cy maxDepth (keypoints.getD i default))).map
            (fun i => keypoints.getD i default) := by
  obtain ⟨hout, _, hoi, htake, _⟩ := depthLoop_inv getDepth keypoints depth fx fy cx cy maxDepth
  have hle : (depthLoop getDepth keypoints depth fx fy cx cy maxDepth).oi
      ≤ (depthLoop getDepth keypoints depth fx fy cx cy maxDepth).output.length := by
    rw [hoi, hout]
    exact length_filter_range_le _ _
  rw [resize, Nat.sub_eq_zero_of_le hle, htake]
  simp

theorem survivors_eq_filter (keep : KeyPoint → Bool) (keypoints : List KeyPoint) :
    ((List.range keypoints.length).filter (fun i => keep (keypoints.getD i default))).map
        (fun i => keypoints.getD i default)
      = keypoints.filter keep := by
  have h := List.filter_map (p := keep) (f := fun i => keypoints.getD i default)
    (l := List.range keypoints.length)
  rw [map_getD_range] at h
  rw [h]
  rfl

/-- The result of `filterKeypointsByDepth` when the guard of line 64 holds. -/
theorem filterKeypointsByDepth_active (getDepth : GetDepth) (keypoints : List KeyPoint)
    (descriptors : Mat) (depth : Mat) (fx fy cx cy maxDepth : F32)
    (hguard : (!depth.empty && F32.gt fx F32.zero && F32.gt fy F32.zero
      && F32.gt maxDepth F32.zero
      && (descriptors.empty || descriptors.rows == keypoints.length)) = true) :
    filterKeypointsByDepth getDepth keypoints descriptors depth fx fy cx cy maxDepth
      = (((List.range keypoints.length).filter (fun i =>
            depthOk getDepth depth fx fy cx cy maxDepth (keypoints.getD i default))).map
              (fun i => keypoints.getD i default),
          if (!descriptors.empty &&
              ((List.range keypoints.length).filter (fun i =>
                depthOk getDepth depth fx fy cx cy maxDepth
                  (keypoints.getD i default))).length != descriptors.rows) = true then
            if (((List.range keypoints.length).filter (fun i =>
                depthOk getDepth depth fx fy cx cy maxDepth
                  (keypoints.getD i default))).length == 0) = true then Mat.nil
            else (copyRows descriptors
              (depthLoop getDepth keypoints depth fx fy cx cy maxDepth).indexes
              (Mat.create
                ((List.range keypoints.length).filter (fun i =>
                  depthOk getDepth depth fx fy cx cy maxDepth
                    (keypoints.getD i default))).length
                descriptors.cols descriptors.type)).1
          else descriptors) := by
  unfold filterKeypointsByDepth
  rw [if_pos hguard]
  simp only [depthLoop_output, List.length_map]
  split
  · split
    · rfl
    · rfl
  · rfl

/-- The result of `filterKeypointsByDepth` when the guard of line 64 fails. -/
theorem filterKeypointsByDepth_inactive (getDepth : GetDepth) (keypoints : List KeyPoint)
    (descriptors : Mat) (depth : Mat) (fx fy cx cy maxDepth : F32)
    (hguard : (!depth.empty && F32.gt fx F32.zero && F32.gt fy F32.zero
      && F32.gt maxDepth F32.zero
      && (descriptors.empty || descriptors.rows == keypoints.length)) = false) :
    filterKeypointsByDepth getDepth keypoints descriptors depth fx fy cx cy maxDepth
      = (keypoints, descriptors) := by
  unfold filterKeypointsByDepth
  rw [hguard]
  simp

theorem survivors_length (keep : KeyPoint → Bool) (keypoints : List KeyPoint) :
    ((List.range keypoints.length).filter (fun i => keep (keypoints.getD i default))).length
      = (keypoints.filter keep).length := by
  rw [← survivors_eq_filter keep keypoints, List.length_map]

theorem filterKeypointsByDepth_active_fst (getDepth : GetDepth) (keypoints : List KeyPoint)
    (descriptors : Mat) (depth : Mat) (fx fy cx cy maxDepth : F32)
    (hguard : (!depth.empty && F32.gt fx F32.zero && F32.gt fy F32.zero
      && F32.gt maxDepth F32.zero
      && (descriptors.empty || descriptors.rows == keypoints.length)) = true) :
    (filterKeypointsByDepth getDepth keypoints descriptors depth fx fy cx cy maxDepth).1
      = keypoints.filter (depthOk getDepth depth fx fy cx cy maxDepth) := by
  rw [filterKeypointsByDepth_active _ _ _ _ _ _ _ _ _ hguard]
  exact survivors_eq_filter (depthOk getDepth depth fx fy cx cy maxDepth) keypoints

theorem filterKeypointsByDepth_active_snd_same (getDepth : GetDepth)
    (keypoints : List KeyPoint) (descriptors : Mat) (depth : Mat)
    (fx fy cx cy maxDepth : F32)
    (hguard : (!depth.empty && F32.gt fx F32.zero && F32.gt fy F32.zero
      && F32.gt maxDepth F32.zero
      && (descriptors.empty || descriptors.rows == keypoints.length)) = true)
    (hsame : descriptors.empty = true ∨
      descriptors.rows = (keypoints.filter (depthOk getDepth depth fx fy cx cy maxDepth)).length) :
    (filterKeypointsByDepth getDepth keypoints descriptors depth fx fy cx cy maxDepth).2
      = descriptors := by
  rw [filterKeypointsByDepth_active _ _ _ _ _ _ _ _ _ hguard]
  simp only
  rw [survivors_length (depthOk getDepth depth fx fy cx cy maxDepth) keypoints]
  rw [if_neg]
  rcases hsame with h | h
  · simp [h]
  · simp [h]

/-! ## Claims on `limitKeypoints` -/

/-- C1 as stated fails: of two keypoints with the responses 1 and NaN, `maxKeypoints = 1`
keeps the keypoint of response NaN and drops the keypoint of response 1, although
`fabs(NaN) >= fabs(1)` is false. The key NaN is inserted after the key 1 (`NaN < 1` is
false) and the reverse iteration starts with it. A NaN response also breaks the ranking
of the other keypoints: of the responses 1, NaN, 3, 0.5 `maxKeypoints = 2` keeps 3 and
0.5 and drops 1. After three insertions the root of the tree holds the key NaN, between
1 and 3; the descent for the key 0.5 goes right there (`0.5 < NaN` is false) and ends
between NaN and 3. -/
theorem limitKeypoints_nan_counterexample :
    (1 : Int) < (nanKeypoints.length : Int) ∧
    limitKeypoints nanKeypoints Mat.nil 1
      = some ([nanKeypoints.getD 1 default], Mat.nil) ∧
    nanKeypoints.getD 0 default ≠ nanKeypoints.getD 1 default ∧
    F32.ge (F32.fabs (nanKeypoints.getD 1 default).response)
      (F32.fabs (nanKeypoints.getD 0 default).response) = false ∧
    (2 : Int) < (nanAmongKeypoints.length : Int) ∧
    limitKeypoints nanAmongKeypoints Mat.nil 2
      = some ([nanAmongKeypoints.getD 2 default, nanAmongKeypoints.getD 3 default], Mat.nil) ∧
    F32.ge (F32.fabs (nanAmongKeypoints.getD 3 default).response)
      (F32.fabs (nanAmongKeypoints.getD 0 default).response) = false := by
  decide

/-- C1, amended. When `maxKeypoints > 0` and there are more than `maxKeypoints`
keypoints, none with a NaN response (and the descriptors pass the assertion of
line 112), `limitKeypoints` replaces the list by the keypoints at `maxKeypoints`
pairwise distinct original indices, in non-increasing order of absolute response, and
the absolute response of every kept keypoint is at least that of every dropped one. -/
theorem limitKeypoints_keeps_strongest (keypoints : List KeyPoint) (descriptors : Mat)
    (maxKeypoints : Int) (hmax : 0 < maxKeypoints)
    (hmore : maxKeypoints < (keypoints.length : Int))
    (hrows : descriptors.rows = 0 ∨ descriptors.rows = keypoints.length)
    (hnan : ∀ kp ∈ keypoints, kp.response ≠ F32.nan) :
    ∃ (kept : List Nat) (descriptors' : Mat),
      limitKeypoints keypoints descriptors maxKeypoints
        = some (kept.map (fun i => keypoints.getD i default), descriptors') ∧
      (kept.length : Int) = maxKeypoints ∧
      kept.Nodup ∧
      (∀ i ∈ kept, i < keypoints.length) ∧
      kept.Pairwise (fun i j => F32.ge (F32.fabs (keypoints.getD i default).response)
        (F32.fabs (keypoints.getD j default).response) = true) ∧
      ∀ i ∈ kept, ∀ j, j < keypoints.length → j ∉ kept →
        F32.ge (F32.fabs (keypoints.getD i default).response)
          (F32.fabs (keypoints.getD j default).response) = true := by
  have hM : maxKeypoints.toNat ≤ keypoints.length := by omega
  obtain ⟨hlen, hnodup, hrange, hsorted, hdom⟩ :=
    ranking_take keypoints hnan maxKeypoints.toNat hM
  obtain ⟨descriptors', hrun, _, _⟩ :=
    limitKeypoints_prune keypoints descriptors maxKeypoints hmax hmore hrows
  refine ⟨_, descriptors', hrun, ?_, hnodup, hrange, hsorted, hdom⟩
  rw [hlen]
  exact Int.toNat_of_nonneg (Int.le_of_lt hmax)

/-- C1, amended, on the scenario of the specification: the float responses 0.1, 0.9, 0.5,
0.3, 0.7 with `maxKeypoints = 3` give the responses 0.9, 0.7, 0.5. -/
theorem limitKeypoints_keeps_strongest_witness :
    limitKeypoints scenarioKeypoints Mat.nil 3
      = some ([keypointWithResponse (F32.literal (mkRat 9 10)),
          keypointWithResponse (F32.literal (mkRat 7 10)),
          keypointWithResponse (F32.literal (mkRat 5 10))], Mat.nil) ∧
    ∃ (kept : List Nat) (descriptors' : Mat),
      limitKeypoints scenarioKeypoints Mat.nil 3
        = some (kept.map (fun i => scenarioKeypoints.getD i default), descriptors') ∧
      (kept.length : Int) = 3 ∧
      kept.Nodup ∧
      (∀ i ∈ kept, i < scenarioKeypoints.length) ∧
      kept.Pairwise (fun i j => F32.ge (F32.fabs (scenarioKeypoints.getD i default).response)
        (F32.fabs (scenarioKeypoints.getD j default).response) = true) ∧
      ∀ i ∈ kept, ∀ j, j < scenarioKeypoints.length → j ∉ kept →
        F32.ge (F32.fabs (scenarioKeypoints.getD i default).response)
          (F32.fabs (scenarioKeypoints.getD j default).response) = true :=
  ⟨by decide,
   limitKeypoints_keeps_strongest scenarioKeypoints Mat.nil 3 (by decide) (by decide)
    (by decide) (by decide)⟩

/-- C2. For `maxKeypoints > 0` and descriptors that are absent (no rows) or have
one row per keypoint, `limitKeypoints` returns `min(maxKeypoints, count)` keypoints,
and when descriptors were supplied they have that same number of rows. -/
theorem limitKeypoints_count (keypoints : List KeyPoint) (descriptors : Mat)
    (maxKeypoints : Int) (hmax : 0 < maxKeypoints)
    (hrows : descriptors.rows = 0 ∨ descriptors.rows = keypoints.length) :
    ∃ (keypoints' : List KeyPoint) (descriptors' : Mat),
      limitKeypoints keypoints descriptors maxKeypoints = some (keypoints', descriptors') ∧
      (keypoints'.length : Int) = min maxKeypoints (keypoints.length : Int) ∧
      (descriptors.rows ≠ 0 →
        (descriptors'.rows : Int) = min maxKeypoints (keypoints.length : Int)) := by
  by_cases hmore : maxKeypoints < (keypoints.length : Int)
  · have hM : maxKeypoints.toNat ≤ keypoints.length := by omega
    have hlen : ((buildHessianMap keypoints).reverse.take maxKeypoints.toNat).length
        = maxKeypoints.toNat := by
      rw [List.length_take, List.length_reverse, buildHessianMap_length]
      exact Nat.min_eq_left hM
    obtain ⟨descriptors', hrun, _, hshape⟩ :=
      limitKeypoints_prune keypoints descriptors maxKeypoints hmax hmore hrows
    refine ⟨_, descriptors', hrun, ?_, ?_⟩
    · rw [List.length_map, List.length_map, hlen]
      omega
    · intro h0
      rw [(hshape h0).1]
      omega
  · have hle : (keypoints.length : Int) ≤ maxKeypoints := Int.not_lt.1 hmore
    refine ⟨_, _, limitKeypoints_keep keypoints descriptors maxKeypoints (Or.inr hle) hrows,
      ?_, ?_⟩
    · omega
    · intro h0
      rcases hrows with h | h
      · exact absurd h h0
      · rw [h]; omega

/-- C2 on the scenario: five keypoints with five descriptor rows, `maxKeypoints = 3`. -/
theorem limitKeypoints_count_witness :
    ∃ (keypoints' : List KeyPoint) (descriptors' : Mat),
      limitKeypoints scenarioKeypoints scenarioDescriptors 3
        = some (keypoints', descriptors') ∧
      (keypoints'.length : Int) = min 3 (scenarioKeypoints.length : Int) ∧
      (scenarioDescriptors.rows ≠ 0 →
        (descriptors'.rows : Int) = min 3 (scenarioKeypoints.length : Int)) :=
  limitKeypoints_count scenarioKeypoints scenarioDescriptors 3 (by decide) (by decide)

/-- C3. If `maxKeypoints <= 0` or there are at most `maxKeypoints` keypoints (and
the descriptors are absent or have one row per keypoint), `limitKeypoints` returns
the keypoints and the descriptors exactly as they were. -/
theorem limitKeypoints_noop (keypoints : List KeyPoint) (descriptors : Mat)
    (maxKeypoints : Int)
    (hrows : descriptors.rows = 0 ∨ descriptors.rows = keypoints.length)
    (h : maxKeypoints ≤ 0 ∨ (keypoints.length : Int) ≤ maxKeypoints) :
    limitKeypoints keypoints descriptors maxKeypoints = some (keypoints, descriptors) :=
  limitKeypoints_keep keypoints descriptors maxKeypoints h hrows

/-- C3 on the scenario with `maxKeypoints = 0`. -/
theorem limitKeypoints_noop_witness :
    limitKeypoints scenarioKeypoints Mat.nil 0 = some (scenarioKeypoints, Mat.nil) :=
  limitKeypoints_noop scenarioKeypoints Mat.nil 0 (by decide) (by decide)

/-- C4, the code at the failing input. Two keypoints of responses 0.5 and 0.75 come
with `CV_64F` descriptors of one column, the eight bytes of the rows being 1 to 8 and
11 to 18. With `maxKeypoints = 1` the keypoint of index 1 is kept and line 141 copies
`cols * sizeof(float)` = 4 bytes of its row into the new row of 8 bytes: the row
returned, 11, 12, 13, 14 and then the bytes the new matrix held, is the row of no
keypoint. -/
theorem limitKeypoints_pairing_wide_elements :
    doubleDescriptors.rows = pairKeypoints.length ∧
    doubleDescriptors.elemSize = 8 ∧
    limitKeypoints pairKeypoints doubleDescriptors 1
      = some ([pairKeypoints.getD 1 default], ⟨1, 6, [[11, 12, 13, 14, 0, 0, 0, 0]]⟩) ∧
    doubleDescriptors.row 1 = [11, 12, 13, 14, 15, 16, 17, 18] ∧
    ∀ j, j < pairKeypoints.length →
      doubleDescriptors.row j ≠ [11, 12, 13, 14, 0, 0, 0, 0] := by
  decide

/-- C5 as stated fails: with responses 1, -3, 2 and `maxKeypoints = 2` the keypoint of
response -3 is kept and the keypoint of response 1 is dropped, although -3 >= 1 is
false. -/
theorem limitKeypoints_raw_response_counterexample :
    ¬ (∀ (keypoints' : List KeyPoint) (descriptors' : Mat),
        limitKeypoints signedKeypoints Mat.nil 2 = some (keypoints', descriptors') →
        ∀ a ∈ keypoints', ∀ b ∈ signedKeypoints, b ∉ keypoints' →
          F32.ge a.response b.response = true) := by
  intro h
  have hrun : limitKeypoints signedKeypoints Mat.nil 2
      = some ([keypointWithResponse (F32.fin (-3)), keypointWithResponse (F32.fin 2)],
          Mat.nil) := by decide
  have hbad := h _ _ hrun (keypointWithResponse (F32.fin (-3))) (by decide)
    (keypointWithResponse (F32.fin 1)) (by decide) (by decide)
  revert hbad
  decide

/-- C5, amended. For `maxKeypoints > 0` (no NaN response, descriptors passing the
assertion of line 112), the keypoints `limitKeypoints` returns are those at pairwise
distinct original indices, and the absolute value of the response of every selected
keypoint is at least the absolute value of the response of every keypoint not
selected. -/
theorem limitKeypoints_selected_dominate (keypoints : List KeyPoint) (descriptors : Mat)
    (maxKeypoints : Int) (hmax : 0 < maxKeypoints)
    (hrows : descriptors.rows = 0 ∨ descriptors.rows = keypoints.length)
    (hnan : ∀ kp ∈ keypoints, kp.response ≠ F32.nan) :
    ∃ (kept : List Nat) (descriptors' : Mat),
      limitKeypoints keypoints descriptors maxKeypoints
        = some (kept.map (fun i => keypoints.getD i default), descriptors') ∧
      kept.Nodup ∧
      (∀ i ∈ kept, i < keypoints.length) ∧
      ∀ i ∈ kept, ∀ j, j < keypoints.length → j ∉ kept →
        F32.ge (F32.fabs (keypoints.getD i default).response)
          (F32.fabs (keypoints.getD j default).response) = true := by
  by_cases hmore : maxKeypoints < (keypoints.length : Int)
  · have hM : maxKeypoints.toNat ≤ keypoints.length := by omega
    obtain ⟨_, hnodup, hrange, _, hdom⟩ := ranking_take keypoints hnan maxKeypoints.toNat hM
    obtain ⟨descriptors', hrun, _, _⟩ :=
      limitKeypoints_prune keypoints descriptors maxKeypoints hmax hmore hrows
    exact ⟨_, descriptors', hrun, hnodup, hrange, hdom⟩
  · have hle : (keypoints.length : Int) ≤ maxKeypoints := Int.not_lt.1 hmore
    refine ⟨List.range keypoints.length, descriptors, ?_, List.nodup_range _,
      fun i hi => List.mem_range.1 hi, ?_⟩
    · rw [map_getD_range]
      exact limitKeypoints_keep keypoints descriptors maxKeypoints (Or.inr hle) hrows
    · intro i _ j hj hjn
      exact absurd (List.mem_range.2 hj) hjn

/-- C5, amended, on the keypoints of responses 1, -3, 2 with `maxKeypoints = 2`. -/
theorem limitKeypoints_selected_dominate_witness :
    ∃ (kept : List Nat) (descriptors' : Mat),
      limitKeypoints signedKeypoints Mat.nil 2
        = some (kept.map (fun i => signedKeypoints.getD i default), descriptors') ∧
      kept.Nodup ∧
      (∀ i ∈ kept, i < signedKeypoints.length) ∧
      ∀ i ∈ kept, ∀ j, j < signedKeypoints.length → j ∉ kept →
        F32.ge (F32.fabs (signedKeypoints.getD i default).response)
          (F32.fabs (signedKeypoints.getD j default).response) = true :=
  limitKeypoints_selected_dominate signedKeypoints Mat.nil 2 (by decide) (by decide)
    (by decide)

/-! ## Claims on `filterKeypointsByDepth` -/

/-- C6. When the filter is active (non-empty depth map, `fx > 0`, `fy > 0`,
`maxDepth > 0`, descriptors empty or one row per keypoint), the keypoints
`filterKeypointsByDepth` returns are exactly the stable filter of the input: the
subsequence, in original order, of the keypoints whose looked-up depth `z` is finite
and `z < maxDepth`; so the count does not increase and every survivor has a finite
depth below `maxDepth`. -/
theorem filterKeypointsByDepth_stable_filter (getDepth : GetDepth)
    (keypoints : List KeyPoint) (descriptors : Mat) (depth : Mat)
    (fx fy cx cy maxDepth : F32)
    (hdepth : depth.empty = false) (hfx : F32.gt fx F32.zero = true)
    (hfy : F32.gt fy F32.zero = true) (hmax : F32.gt maxDepth F32.zero = true)
    (hdesc : descriptors.empty = true ∨ descriptors.rows = keypoints.length) :
    (filterKeypointsByDepth getDepth keypoints descriptors depth fx fy cx cy maxDepth).1
      = keypoints.filter (fun kp =>
          uIsFinite (getDepth depth kp.pt.x kp.pt.y cx cy fx fy true).z &&
            F32.lt (getDepth depth kp.pt.x kp.pt.y cx cy fx fy true).z maxDepth) ∧
    ((filterKeypointsByDepth getDepth keypoints descriptors depth fx fy cx cy maxDepth).1).Sublist
      keypoints ∧
    ((filterKeypointsByDepth getDepth keypoints descriptors depth fx fy cx cy maxDepth).1).length
      ≤ keypoints.length ∧
    ∀ kp ∈ (filterKeypointsByDepth getDepth keypoints descriptors depth fx fy cx cy
        maxDepth).1,
      uIsFinite (getDepth depth kp.pt.x kp.pt.y cx cy fx fy true).z = true ∧
      F32.lt (getDepth depth kp.pt.x kp.pt.y cx cy fx fy true).z maxDepth = true := by
  have hguard : (!depth.empty && F32.gt fx F32.zero && F32.gt fy F32.zero
      && F32.gt maxDepth F32.zero
      && (descriptors.empty || descriptors.rows == keypoints.length)) = true := by
    rcases hdesc with h | h <;> simp [hdepth, hfx, hfy, hmax, h]
  have hfst := filterKeypointsByDepth_active_fst getDepth keypoints descriptors depth
    fx fy cx cy maxDepth hguard
  have hkeep : depthOk getDepth depth fx fy cx cy maxDepth = (fun kp =>
      uIsFinite (getDepth depth kp.pt.x kp.pt.y cx cy fx fy true).z &&
        F32.lt (getDepth depth kp.pt.x kp.pt.y cx cy fx fy true).z maxDepth) := rfl
  rw [hkeep] at hfst
  rw [hfst]
  refine ⟨rfl, List.filter_sublist _, List.length_filter_le _ _, ?_⟩
  intro kp hkp
  have h := (List.mem_filter.1 hkp).2
  simpa using h

/-- C6 on a one-row depth image with depths 1, NaN, 7, 3 and `maxDepth = 5`. -/
theorem filterKeypointsByDepth_stable_filter_witness :
    (filterKeypointsByDepth sampleGetDepth sampleKeypoints sampleDescriptors sampleDepth
        (F32.fin 1) (F32.fin 1) F32.zero F32.zero (F32.fin 5)).1
      = sampleKeypoints.filter (fun kp =>
          uIsFinite (sampleGetDepth sampleDepth kp.pt.x kp.pt.y F32.zero F32.zero
            (F32.fin 1) (F32.fin 1) true).z &&
            F32.lt (sampleGetDepth sampleDepth kp.pt.x kp.pt.y F32.zero F32.zero
              (F32.fin 1) (F32.fin 1) true).z (F32.fin 5)) ∧
    ((filterKeypointsByDepth sampleGetDepth sampleKeypoints sampleDescriptors sampleDepth
        (F32.fin 1) (F32.fin 1) F32.zero F32.zero (F32.fin 5)).1).Sublist sampleKeypoints ∧
    ((filterKeypointsByDepth sampleGetDepth sampleKeypoints sampleDescriptors sampleDepth
        (F32.fin 1) (F32.fin 1) F32.zero F32.zero (F32.fin 5)).1).length
      ≤ sampleKeypoints.length ∧
    ∀ kp ∈ (filterKeypointsByDepth sampleGetDepth sampleKeypoints sampleDescriptors
        sampleDepth (F32.fin 1) (F32.fin 1) F32.zero F32.zero (F32.fin 5)).1,
      uIsFinite (sampleGetDepth sampleDepth kp.pt.x kp.pt.y F32.zero F32.zero
        (F32.fin 1) (F32.fin 1) true).z = true ∧
      F32.lt (sampleGetDepth sampleDepth kp.pt.x kp.pt.y F32.zero F32.zero
        (F32.fin 1) (F32.fin 1) true).z (F32.fin 5) = true :=
  filterKeypointsByDepth_stable_filter sampleGetDepth sampleKeypoints sampleDescriptors
    sampleDepth (F32.fin 1) (F32.fin 1) F32.zero F32.zero (F32.fin 5)
    (by decide) (by decide) (by decide) (by decide) (by decide)

/-- C7, the code at the failing input. The four keypoints of `sampleKeypoints` come
with `CV_64F` descriptors of one column, eight bytes per row. With `maxDepth = 5` the
keypoints of indices 0 and 3 survive, and line 95 copies `cols * sizeof(float)` = 4
bytes of each of their rows into the new rows of 8 bytes: the rows returned, 11, 12,
13, 14 and 41, 42, 43, 44 followed by the bytes the new matrix held, are not the input
rows of the surviving keypoints. -/
theorem filterKeypointsByDepth_descriptor_rows_wide_elements :
    doubleSampleDescriptors.empty = false ∧
    doubleSampleDescriptors.rows = sampleKeypoints.length ∧
    doubleSampleDescriptors.elemSize = 8 ∧
    filterKeypointsByDepth sampleGetDepth sampleKeypoints doubleSampleDescriptors
        sampleDepth (F32.fin 1) (F32.fin 1) F32.zero F32.zero (F32.fin 5)
      = ([sampleKeypoints.getD 0 default, sampleKeypoints.getD 3 default],
          ⟨1, 6, [[11, 12, 13, 14, 0, 0, 0, 0], [41, 42, 43, 44, 0, 0, 0, 0]]⟩) ∧
    doubleSampleDescriptors.row 0 = [11, 12, 13, 14, 15, 16, 17, 18] ∧
    doubleSampleDescriptors.row 3 = [41, 42, 43, 44, 45, 46, 47, 48] := by
  decide

/-- C8. `filterKeypointsByDepth` returns the keypoints and the descriptors unchanged
whenever one of these conditions fails: the depth map is non-empty, `fx > 0`, `fy > 0`,
`maxDepth > 0`, and the descriptors are empty or have one row per keypoint. -/
theorem filterKeypointsByDepth_pass_through (getDepth : GetDepth)
    (keypoints : List KeyPoint) (descriptors : Mat) (depth : Mat)
    (fx fy cx cy maxDepth : F32)
    (h : ¬ (depth.empty = false ∧ F32.gt fx F32.zero = true ∧ F32.gt fy F32.zero = true ∧
      F32.gt maxDepth F32.zero = true ∧
      (descriptors.empty = true ∨ descriptors.rows = keypoints.length))) :
    filterKeypointsByDepth getDepth keypoints descriptors depth fx fy cx cy maxDepth
      = (keypoints, descriptors) := by
  apply filterKeypointsByDepth_inactive
  rw [Bool.eq_false_iff]
  intro hguard
  apply h
  simpa [and_assoc] using hguard

/-- C8 on the sample data with `maxDepth = 0`: nothing is filtered. -/
theorem filterKeypointsByDepth_pass_through_witness :
    filterKeypointsByDepth sampleGetDepth sampleKeypoints sampleDescriptors sampleDepth
        (F32.fin 1) (F32.fin 1) F32.zero F32.zero (F32.fin 0)
      = (sampleKeypoints, sampleDescriptors) :=
  filterKeypointsByDepth_pass_through sampleGetDepth sampleKeypoints sampleDescriptors
    sampleDepth (F32.fin 1) (F32.fin 1) F32.zero F32.zero (F32.fin 0) (by decide)

/-- C9. `filterKeypointsByDepth` is idempotent: filtering its result again with the
same depth map, intrinsics and `maxDepth` gives that result again, keypoints and
descriptors alike. -/
theorem filterKeypointsByDepth_idempotent (getDepth : GetDepth)
    (keypoints : List KeyPoint) (descriptors : Mat) (depth : Mat)
    (fx fy cx cy maxDepth : F32) :
    filterKeypointsByDepth getDepth
        (filterKeypointsByDepth getDepth keypoints descriptors depth fx fy cx cy maxDepth).1
        (filterKeypointsByDepth getDepth keypoints descriptors depth fx fy cx cy maxDepth).2
        depth fx fy cx cy maxDepth
      = filterKeypointsByDepth getDepth keypoints descriptors depth fx fy cx cy maxDepth := by
  cases hguard : (!depth.empty && F32.gt fx F32.zero && F32.gt fy F32.zero
      && F32.gt maxDepth F32.zero
      && (descriptors.empty || descriptors.rows == keypoints.length))
  · rw [filterKeypointsByDepth_inactive _ _ _ _ _ _ _ _ _ hguard]
    exact filterKeypointsByDepth_inactive _ _ _ _ _ _ _ _ _ hguard
  · have hfst := filterKeypointsByDepth_active_fst getDepth keypoints descriptors depth
      fx fy cx cy maxDepth hguard
    have hrun := filterKeypointsByDepth_active getDepth keypoints descriptors depth
      fx fy cx cy maxDepth hguard
    have hsnd := congrArg Prod.snd hrun
    simp only at hsnd
    rw [survivors_length (depthOk getDepth depth fx fy cx cy maxDepth) keypoints] at hsnd
    have hff : (keypoints.filter (depthOk getDepth depth fx fy cx cy maxDepth)).filter
        (depthOk getDepth depth fx fy cx cy maxDepth)
        = keypoints.filter (depthOk getDepth depth fx fy cx cy maxDepth) := by
      rw [List.filter_filter]
      simp
    simp only [Bool.and_eq_true, Bool.or_eq_true, beq_iff_eq] at hguard
    obtain ⟨hparams, hdesc⟩ := hguard
    -- the descriptors of the first result are empty or have one row per survivor
    have hshape :
        (filterKeypointsByDepth getDepth keypoints descriptors depth fx fy cx cy
            maxDepth).2.empty = true ∨
        (filterKeypointsByDepth getDepth keypoints descriptors depth fx fy cx cy
            maxDepth).2.rows
          = (keypoints.filter (depthOk getDepth depth fx fy cx cy maxDepth)).length := by
      rw [hsnd]
      by_cases hempty : descriptors.empty = true
      · left
        simp [hempty]
      · have hempty' : descriptors.empty = false := by simpa using hempty
        by_cases hlen : (keypoints.filter
            (depthOk getDepth depth fx fy cx cy maxDepth)).length = descriptors.rows
        · right
          simp [hlen]
        · have hcond : (!descriptors.empty &&
              (keypoints.filter (depthOk getDepth depth fx fy cx cy maxDepth)).length
                != descriptors.rows) = true := by
            simp [hempty', hlen]
          rw [if_pos hcond]
          by_cases hzero : (keypoints.filter
              (depthOk getDepth depth fx fy cx cy maxDepth)).length = 0
          · left
            rw [if_pos (by simp [hzero])]
            rfl
          · right
            rw [if_neg (by simpa using hzero)]
            exact (copyRows_shape descriptors _ _).1
    have hguard2 : (!depth.empty && F32.gt fx F32.zero && F32.gt fy F32.zero
        && F32.gt maxDepth F32.zero
        && ((filterKeypointsByDepth getDepth keypoints descriptors depth fx fy cx cy
              maxDepth).2.empty ||
            (filterKeypointsByDepth getDepth keypoints descriptors depth fx fy cx cy
              maxDepth).2.rows ==
            ((filterKeypointsByDepth getDepth keypoints descriptors depth fx fy cx cy
              maxDepth).1).length)) = true := by
      simp only [Bool.and_eq_true, Bool.or_eq_true, beq_iff_eq]
      refine ⟨hparams, ?_⟩
      rw [hfst]
      exact hshape
    refine Prod.ext ?_ ?_
    · rw [filterKeypointsByDepth_active_fst _ _ _ _ _ _ _ _ _ hguard2, hfst, hff]
    · apply filterKeypointsByDepth_active_snd_same _ _ _ _ _ _ _ _ _ hguard2
      rw [hfst, hff]
      exact hshape

/-- C10 as stated fails: with `maxDepth = 0` the filter is a pass-through, and the
keypoint on the pixel whose depth is NaN stays in the list. -/
theorem filterKeypointsByDepth_nan_counterexample :
    ¬ (∀ (maxDepth : F32) (kp : KeyPoint),
        (sampleGetDepth sampleDepth kp.pt.x kp.pt.y F32.zero F32.zero (F32.fin 1)
          (F32.fin 1) true).z = F32.nan →
        kp ∉ (filterKeypointsByDepth sampleGetDepth sampleKeypoints Mat.nil sampleDepth
          (F32.fin 1) (F32.fin 1) F32.zero F32.zero maxDepth).1) := by
  intro h
  exact h (F32.fin 0) (keypointAt (F32.fin 1) (F32.fin 0)) (by decide) (by decide)

/-- C10, amended. When the filter is active (non-empty depth map, `fx > 0`, `fy > 0`,
`maxDepth > 0`, descriptors empty or one row per keypoint), a keypoint whose looked-up
depth is NaN is not among the keypoints `filterKeypointsByDepth` leaves. -/
theorem filterKeypointsByDepth_drops_nan (getDepth : GetDepth)
    (keypoints : List KeyPoint) (descriptors : Mat) (depth : Mat)
    (fx fy cx cy maxDepth : F32)
    (hdepth : depth.empty = false) (hfx : F32.gt fx F32.zero = true)
    (hfy : F32.gt fy F32.zero = true) (hmax : F32.gt maxDepth F32.zero = true)
    (hdesc : descriptors.empty = true ∨ descriptors.rows = keypoints.length)
    (kp : KeyPoint)
    (hz : (getDepth depth kp.pt.x kp.pt.y cx cy fx fy true).z = F32.nan) :
    kp ∉ (filterKeypointsByDepth getDepth keypoints descriptors depth fx fy cx cy
      maxDepth).1 := by
  have hguard : (!depth.empty && F32.gt fx F32.zero && F32.gt fy F32.zero
      && F32.gt maxDepth F32.zero
      && (descriptors.empty || descriptors.rows == keypoints.length)) = true := by
    rcases hdesc with h | h <;> simp [hdepth, hfx, hfy, hmax, h]
  rw [filterKeypointsByDepth_active_fst getDepth keypoints descriptors depth
    fx fy cx cy maxDepth hguard]
  intro hmem
  have hok := (List.mem_filter.1 hmem).2
  simp [depthOk, hz, uIsFinite] at hok

/-- C10, amended, on the sample depth image with `maxDepth = 5`: the keypoint on the
NaN pixel is dropped. -/
theorem filterKeypointsByDepth_drops_nan_witness :
    (sampleGetDepth sampleDepth (keypointAt (F32.fin 1) (F32.fin 0)).pt.x
      (keypointAt (F32.fin 1) (F32.fin 0)).pt.y F32.zero F32.zero (F32.fin 1) (F32.fin 1)
      true).z = F32.nan ∧
    keypointAt (F32.fin 1) (F32.fin 0) ∈ sampleKeypoints ∧
    keypointAt (F32.fin 1) (F32.fin 0) ∉
      (filterKeypointsByDepth sampleGetDepth sampleKeypoints sampleDescriptors sampleDepth
        (F32.fin 1) (F32.fin 1) F32.zero F32.zero (F32.fin 5)).1 :=
  ⟨by decide, by decide,
   filterKeypointsByDepth_drops_nan sampleGetDepth sampleKeypoints sampleDescriptors
    sampleDepth (F32.fin 1) (F32.fin 1) F32.zero F32.zero (F32.fin 5)
    (by decide) (by decide) (by decide) (by decide) (by decide)
    (keypointAt (F32.fin 1) (F32.fin 0)) (by decide)⟩

/-! ## Rounding to 24 significant bits -/

theorem F32.log2Aux_spec : ∀ (fuel n : Nat), 0 < n → n ≤ fuel →
    2 ^ F32.log2Aux fuel n ≤ n ∧ n < 2 ^ (F32.log2Aux fuel n + 1) := by
  intro fuel
  induction fuel with
  | zero => intro n h0 h1; omega
  | succ fuel ih =>
    intro n h0 h1
    unfold F32.log2Aux
    split
    · rename_i h2
      obtain ⟨ha, hb⟩ := ih (n / 2) (by omega) (by omega)
      rw [pow_succ, pow_succ]
      constructor <;> omega
    · have : n = 1 := by omega
      subst this
      simp

theorem F32.log2_spec (n : Nat) (h : 0 < n) :
    2 ^ F32.log2 n ≤ n ∧ n < 2 ^ (F32.log2 n + 1) :=
  F32.log2Aux_spec n n h (Nat.le_refl n)

theorem F32.log2_zero : F32.log2 0 = 0 := rfl

theorem F32.lt_pow_log2 (n : Nat) : n < 2 ^ (F32.log2 n + 1) := by
  rcases Nat.eq_zero_or_pos n with h | h
  · subst h
    simp
  · exact (F32.log2_spec n h).2

theorem F32.rne_le {n d c : Nat} (hd : 0 < d) (h : n ≤ c * d) : F32.rne n d ≤ c := by
  have hdm := Nat.div_add_mod n d
  have hml := Nat.mod_lt n hd
  have hf : n / d ≤ c := Nat.div_le_of_le_mul (by rwa [Nat.mul_comm] at h)
  have hf' : 0 < n % d → n / d + 1 ≤ c := by
    intro hr
    by_contra hc
    have hcf : c ≤ n / d := by omega
    have := Nat.mul_le_mul_left d hcf
    rw [Nat.mul_comm d c] at this
    omega
  unfold F32.rne
  split
  · exact hf
  · split
    · exact hf' (by omega)
    · split
      · exact hf
      · exact hf' (by omega)

theorem F32.rne_err {n d : Nat} (hd : 0 < d) :
    2 * (F32.rne n d * d) ≤ 2 * n + d ∧ 2 * n ≤ 2 * (F32.rne n d * d) + d := by
  have hdm := Nat.div_add_mod n d
  have hml := Nat.mod_lt n hd
  have hmul : (n / d + 1) * d = d * (n / d) + d := by ring
  have hmul0 : n / d * d = d * (n / d) := Nat.mul_comm _ _
  unfold F32.rne
  split
  · rw [hmul0]; omega
  · split
    · rw [hmul]; omega
    · split
      · rw [hmul0]; omega
      · rw [hmul]; omega

theorem F32.rne_mul {c d : Nat} (hd : 0 < d) : F32.rne (c * d) d = c := by
  unfold F32.rne
  rw [Nat.mul_mod_left, Nat.mul_div_cancel _ hd]
  simp [hd]

theorem F32.lt_pow_log2_mul (n d : Nat) (hd : 0 < d) :
    n < 2 ^ (F32.log2 (n / d) + 1) * d :=
  (Nat.div_lt_iff_lt_mul hd).1 (F32.lt_pow_log2 (n / d))

theorem F32.pow_log2_mul_le (n d : Nat) (h : 0 < n / d) : 2 ^ F32.log2 (n / d) * d ≤ n :=
  Nat.mul_le_of_le_div _ _ _ (F32.log2_spec (n / d) h).1

/-- A number with 24 significant bits that reaches `2^e` is a multiple of
`2^(e - 23)`. -/
theorem F32.dvd_of_significant (m i e : Nat) (hm : m < 2 ^ 24)
    (h : e - 23 = 0 ∨ 2 ^ e ≤ m * 2 ^ i) : ∃ c, m * 2 ^ i = c * 2 ^ (e - 23) := by
  by_cases hj : e - 23 = 0
  · exact ⟨m * 2 ^ i, by rw [hj]; simp⟩
  · have hle : 2 ^ e ≤ m * 2 ^ i := by
      rcases h with h | h
      · exact absurd h hj
      · exact h
    have hlt : 2 ^ e < 2 ^ (24 + i) := by
      rw [pow_add]
      exact lt_of_le_of_lt hle (Nat.mul_lt_mul_of_pos_right hm (pow_pos (by norm_num) _))
    have hei : e < 24 + i := (Nat.pow_lt_pow_iff_right (by norm_num)).1 hlt
    refine ⟨m * 2 ^ (i - (e - 23)), ?_⟩
    rw [Nat.mul_assoc, ← pow_add]
    congr 2
    omega

theorem F32.roundScaled_le {n d m i : Nat} (hd : 0 < d) (hm : m < 2 ^ 24)
    (h : n ≤ m * 2 ^ i * d) : F32.roundScaled n d ≤ m * 2 ^ i := by
  have hdiv : F32.log2 (n / d) - 23 = 0 ∨ 2 ^ F32.log2 (n / d) ≤ m * 2 ^ i := by
    rcases Nat.eq_zero_or_pos (n / d) with h0 | h0
    · left
      rw [h0, F32.log2_zero]
    · right
      have h1 := F32.pow_log2_mul_le n d h0
      exact Nat.le_of_mul_le_mul_right (le_trans h1 h) hd
  obtain ⟨c, hc⟩ := F32.dvd_of_significant m i _ hm hdiv
  unfold F32.roundScaled
  rw [hc]
  apply Nat.mul_le_mul_right
  apply F32.rne_le (Nat.mul_pos hd (pow_pos (by norm_num) _))
  rw [hc] at h
  calc n ≤ c * 2 ^ (F32.log2 (n / d) - 23) * d := h
    _ = c * (d * 2 ^ (F32.log2 (n / d) - 23)) := by ring

theorem F32.roundScaled_exact {d m i : Nat} (hd : 0 < d) (hm : m < 2 ^ 24) :
    F32.roundScaled (m * 2 ^ i * d) d = m * 2 ^ i := by
  have hq : m * 2 ^ i * d / d = m * 2 ^ i := Nat.mul_div_cancel _ hd
  have hdiv : F32.log2 (m * 2 ^ i) - 23 = 0 ∨ 2 ^ F32.log2 (m * 2 ^ i) ≤ m * 2 ^ i := by
    rcases Nat.eq_zero_or_pos (m * 2 ^ i) with h0 | h0
    · left
      rw [h0, F32.log2_zero]
    · right
      exact (F32.log2_spec _ h0).1
  obtain ⟨c, hc⟩ := F32.dvd_of_significant m i _ hm hdiv
  unfold F32.roundScaled
  rw [hq]
  generalize F32.log2 (m * 2 ^ i) - 23 = j at hc
  have hn : m * 2 ^ i * d = c * (d * 2 ^ j) := by
    rw [hc]; ring
  rw [hn, F32.rne_mul (Nat.mul_pos hd (pow_pos (by norm_num) _)), ← hc]

theorem F32.roundScaled_repr (n d : Nat) (hd : 0 < d) :
    ∃ m i, m < 2 ^ 24 ∧ F32.roundScaled n d = m * 2 ^ i := by
  have h1 := F32.lt_pow_log2_mul n d hd
  have hpow : 2 ^ (F32.log2 (n / d) + 1) ≤ 2 ^ (24 + (F32.log2 (n / d) - 23)) :=
    Nat.pow_le_pow_right (by norm_num) (by omega)
  have hle : F32.rne n (d * 2 ^ (F32.log2 (n / d) - 23)) ≤ 2 ^ 24 := by
    apply F32.rne_le (Nat.mul_pos hd (pow_pos (by norm_num) _))
    calc n ≤ 2 ^ (F32.log2 (n / d) + 1) * d := Nat.le_of_lt h1
      _ ≤ 2 ^ (24 + (F32.log2 (n / d) - 23)) * d := Nat.mul_le_mul_right d hpow
      _ = 2 ^ 24 * (d * 2 ^ (F32.log2 (n / d) - 23)) := by rw [pow_add]; ring
  rcases Nat.lt_or_ge (F32.rne n (d * 2 ^ (F32.log2 (n / d) - 23))) (2 ^ 24) with h | h
  · exact ⟨_, _, h, rfl⟩
  · have heq : F32.rne n (d * 2 ^ (F32.log2 (n / d) - 23)) = 2 ^ 24 := Nat.le_antisymm hle h
    refine ⟨2 ^ 23, F32.log2 (n / d) - 23 + 1, by norm_num, ?_⟩
    unfold F32.roundScaled
    rw [heq, pow_succ]
    ring

theorem F32.roundScaled_err {n d : Nat} (hd : 0 < d) (h : n < 2 ^ 173 * d) :
    2 * (F32.roundScaled n d * d) ≤ 2 * n + 2 ^ 149 * d ∧
    2 * n ≤ 2 * (F32.roundScaled n d * d) + 2 ^ 149 * d := by
  have hj : F32.log2 (n / d) - 23 ≤ 149 := by
    rcases Nat.eq_zero_or_pos (n / d) with h0 | h0
    · rw [h0, F32.log2_zero]
      omega
    · have h1 := (F32.log2_spec _ h0).1
      have h2 : n / d < 2 ^ 173 := (Nat.div_lt_iff_lt_mul hd).2 h
      have h3 : F32.log2 (n / d) < 173 :=
        (Nat.pow_lt_pow_iff_right (by norm_num)).1 (lt_of_le_of_lt h1 h2)
      omega
  have hD : d * 2 ^ (F32.log2 (n / d) - 23) ≤ 2 ^ 149 * d := by
    rw [Nat.mul_comm]
    exact Nat.mul_le_mul_right d (Nat.pow_le_pow_right (by norm_num) hj)
  have herr := F32.rne_err (n := n) (Nat.mul_pos hd (pow_pos (by norm_num : 0 < 2)
    (F32.log2 (n / d) - 23)))
  have hk : F32.roundScaled n d * d
      = F32.rne n (d * 2 ^ (F32.log2 (n / d) - 23)) * (d * 2 ^ (F32.log2 (n / d) - 23)) := by
    unfold F32.roundScaled
    ring
  rw [hk]
  omega

/-! ## Rounding of rationals -/

theorem F32.abs_mul_den (q : ℚ) : |q| * (q.den : ℚ) = (q.num.natAbs : ℚ) := by
  have hden : (0 : ℚ) < (q.den : ℚ) := by exact_mod_cast q.den_pos
  have h1 : q * (q.den : ℚ) = (q.num : ℚ) := Rat.mul_den_eq_num q
  have h2 : |q| * (q.den : ℚ) = |(q.num : ℚ)| := by
    rw [← h1, abs_mul, abs_of_pos hden]
  rw [h2, Nat.cast_natAbs, Int.cast_abs]

/-- The rounding of a rational whose rounded multiplier stays below `2^277`: a finite
value of that multiplier and of the sign of the rational. -/
theorem F32.round_cases (q : ℚ)
    (hk : F32.roundScaled (q.num.natAbs * 2 ^ 149) q.den < 2 ^ 128 * 2 ^ 149) :
    ∃ r : ℚ, F32.round q = F32.fin r ∧
      |r| * 2 ^ 149 = ((F32.roundScaled (q.num.natAbs * 2 ^ 149) q.den : Nat) : ℚ) ∧
      (0 ≤ q → 0 ≤ r) ∧ (q < 0 → r ≤ 0) := by
  have hno : ¬ (2 ^ 128 * 2 ^ 149 ≤ F32.roundScaled (q.num.natAbs * 2 ^ 149) q.den) :=
    Nat.not_le.2 hk
  have hpow : (0 : ℚ) < 2 ^ 149 := by positivity
  unfold F32.round
  rw [if_neg hno]
  generalize F32.roundScaled (q.num.natAbs * 2 ^ 149) q.den = k
  by_cases hneg : q.num < 0
  · refine ⟨_, rfl, ?_, ?_, ?_⟩
    · rw [if_pos hneg, Rat.mkRat_eq_div]
      simp only [Nat.cast_pow, Nat.cast_ofNat, Int.cast_neg, Int.cast_natCast]
      rw [abs_div, abs_neg, abs_of_nonneg (Nat.cast_nonneg k), abs_of_pos hpow]
      field_simp
    · intro h0
      exact absurd (Rat.num_nonneg.2 h0) (not_le.2 hneg)
    · intro _
      rw [if_pos hneg, Rat.mkRat_eq_div]
      simp only [Nat.cast_pow, Nat.cast_ofNat, Int.cast_neg, Int.cast_natCast]
      apply div_nonpos_of_nonpos_of_nonneg
      · simp
      · exact le_of_lt hpow
  · refine ⟨_, rfl, ?_, ?_, ?_⟩
    · rw [if_neg hneg, Rat.mkRat_eq_div]
      simp only [Nat.cast_pow, Nat.cast_ofNat, Int.cast_natCast]
      rw [abs_div, abs_of_nonneg (Nat.cast_nonneg k), abs_of_pos hpow]
      field_simp
    · intro _
      rw [if_neg hneg, Rat.mkRat_eq_div]
      simp only [Nat.cast_pow, Nat.cast_ofNat, Int.cast_natCast]
      positivity
    · intro h0
      exact absurd (Rat.num_neg.2 h0) hneg

/-- A rational bounded in absolute value by a binary32 value rounds to a finite
binary32 value within the same bound and of the same sign. -/
theorem F32.round_le (q b : ℚ) (hq : |q| ≤ b) (hb : F32.Rep b) :
    ∃ r : ℚ, F32.round q = F32.fin r ∧ |r| ≤ b ∧ F32.Rep r ∧
      (0 ≤ q → 0 ≤ r) ∧ (q < 0 → r ≤ 0) := by
  obtain ⟨m, i, hm, hlt, hB⟩ := hb
  have hb0 : 0 ≤ b := le_trans (abs_nonneg q) hq
  rw [abs_of_nonneg hb0] at hB
  have hden : (0 : ℚ) < (q.den : ℚ) := by exact_mod_cast q.den_pos
  have hpow : (0 : ℚ) < 2 ^ 149 := by positivity
  have hle : q.num.natAbs * 2 ^ 149 ≤ m * 2 ^ i * q.den := by
    have h1 : |q| * (q.den : ℚ) * 2 ^ 149 ≤ b * 2 ^ 149 * (q.den : ℚ) := by
      have := mul_le_mul_of_nonneg_right
        (mul_le_mul_of_nonneg_right hq (le_of_lt hden)) (le_of_lt hpow)
      linarith
    rw [F32.abs_mul_den, hB] at h1
    exact_mod_cast h1
  have hk := F32.roundScaled_le q.den_pos hm hle
  obtain ⟨r, hr, habs, hpos, hneg⟩ := F32.round_cases q (lt_of_le_of_lt hk hlt)
  obtain ⟨m', i', hm', hrepr⟩ := F32.roundScaled_repr (q.num.natAbs * 2 ^ 149) q.den q.den_pos
  refine ⟨r, hr, ?_, ⟨m', i', hm', ?_, ?_⟩, hpos, hneg⟩
  · have h2 : |r| * 2 ^ 149 ≤ b * 2 ^ 149 := by
      rw [habs, hB]
      exact_mod_cast hk
    exact le_of_mul_le_mul_right h2 hpow
  · rw [← hrepr]
    exact lt_of_le_of_lt hk hlt
  · rw [habs, hrepr]

/-- A binary32 value is not changed by rounding. -/
theorem F32.round_of_rep (q : ℚ) (hq : F32.Rep q) : F32.round q = F32.fin q := by
  obtain ⟨m, i, hm, hlt, hB⟩ := hq
  have hden : (0 : ℚ) < (q.den : ℚ) := by exact_mod_cast q.den_pos
  have hpow : (0 : ℚ) < 2 ^ 149 := by positivity
  have hn : q.num.natAbs * 2 ^ 149 = m * 2 ^ i * q.den := by
    have h1 : |q| * (q.den : ℚ) * 2 ^ 149 = |q| * 2 ^ 149 * (q.den : ℚ) := by ring
    rw [F32.abs_mul_den, hB] at h1
    exact_mod_cast h1
  have hk : F32.roundScaled (q.num.natAbs * 2 ^ 149) q.den = m * 2 ^ i := by
    rw [hn]
    exact F32.roundScaled_exact q.den_pos hm
  obtain ⟨r, hr, habs, hpos, hneg⟩ := F32.round_cases q (by rw [hk]; exact hlt)
  rw [hr]
  congr 1
  rw [hk, ← hB] at habs
  have habs' : |r| = |q| := mul_right_cancel₀ (ne_of_gt hpow) habs
  rcases le_or_lt 0 q with h0 | h0
  · rw [abs_of_nonneg (hpos h0), abs_of_nonneg h0] at habs'
    exact habs'
  · rw [abs_of_nonpos (hneg h0), abs_of_neg h0] at habs'
    linarith

/-- Below `2^24` in absolute value, rounding moves a rational by at most one half. -/
theorem F32.round_err (q r : ℚ) (hq : |q| < 2 ^ 24) (hr : F32.round q = F32.fin r) :
    |r - q| ≤ 1 / 2 := by
  have hden : (0 : ℚ) < (q.den : ℚ) := by exact_mod_cast q.den_pos
  have hpow : (0 : ℚ) < 2 ^ 149 := by positivity
  have hlt : q.num.natAbs * 2 ^ 149 < 2 ^ 173 * q.den := by
    have h1 : |q| * (q.den : ℚ) * 2 ^ 149 < 2 ^ 24 * (q.den : ℚ) * 2 ^ 149 :=
      mul_lt_mul_of_pos_right (mul_lt_mul_of_pos_right hq hden) hpow
    rw [F32.abs_mul_den] at h1
    have h2 : ((q.num.natAbs * 2 ^ 149 : Nat) : ℚ) < ((2 ^ 173 * q.den : Nat) : ℚ) := by
      push_cast
      calc (q.num.natAbs : ℚ) * 2 ^ 149 < 2 ^ 24 * (q.den : ℚ) * 2 ^ 149 := h1
        _ = 2 ^ 173 * (q.den : ℚ) := by ring
    exact_mod_cast h2
  obtain ⟨he1, he2⟩ := F32.roundScaled_err q.den_pos hlt
  have hkle : F32.roundScaled (q.num.natAbs * 2 ^ 149) q.den < 2 ^ 128 * 2 ^ 149 := by
    by_contra hge
    have hover : 2 ^ 128 * 2 ^ 149 ≤ F32.roundScaled (q.num.natAbs * 2 ^ 149) q.den :=
      Nat.not_lt.1 hge
    unfold F32.round at hr
    rw [if_pos hover] at hr
    split at hr <;> exact absurd hr (by simp)
  obtain ⟨r', hr', habs, hpos, hneg⟩ := F32.round_cases q hkle
  rw [hr] at hr'
  have hrr : r = r' := by injection hr'
  subst hrr
  generalize F32.roundScaled (q.num.natAbs * 2 ^ 149) q.den = k at he1 he2 habs
  have hN := F32.abs_mul_den q
  have e1 : 2 * ((k : ℚ) * q.den) ≤ 2 * ((q.num.natAbs : ℚ) * 2 ^ 149) + 2 ^ 149 * q.den := by
    exact_mod_cast he1
  have e2 : 2 * ((q.num.natAbs : ℚ) * 2 ^ 149) ≤ 2 * ((k : ℚ) * q.den) + 2 ^ 149 * q.den := by
    exact_mod_cast he2
  rw [← habs, ← hN] at e1 e2
  have hscale : 0 < 2 ^ 149 * (q.den : ℚ) := mul_pos hpow hden
  have hbound : |(|r| - |q|)| ≤ 1 / 2 := by
    rw [abs_le]
    constructor
    · by_contra hc
      have hc' : |r| - |q| < -(1 / 2) := not_le.1 hc
      have := mul_lt_mul_of_pos_right hc' hscale
      nlinarith
    · by_contra hc
      have hc' : 1 / 2 < |r| - |q| := not_le.1 hc
      have := mul_lt_mul_of_pos_right hc' hscale
      nlinarith
  rcases le_or_lt 0 q with h0 | h0
  · rw [abs_of_nonneg (hpos h0), abs_of_nonneg h0] at hbound
    exact hbound
  · rw [abs_of_nonpos (hneg h0), abs_of_neg h0] at hbound
    have : r - q = -(-r - -q) := by ring
    rw [this, abs_neg]
    exact hbound

/-! ## Float operations on finite values -/

theorem F32.add_fin (a b : ℚ) : F32.add (F32.fin a) (F32.fin b) = F32.round (a + b) := by
  simp only [F32.add]
  rw [← Rat.add_def']

theorem F32.sub_fin (a b : ℚ) : F32.sub (F32.fin a) (F32.fin b) = F32.round (a - b) := by
  simp only [F32.sub]
  rw [← Rat.sub_def']

theorem F32.mul_fin (a b : ℚ) : F32.mul (F32.fin a) (F32.fin b) = F32.round (a * b) := by
  simp only [F32.mul]
  rw [Rat.mul_def, Rat.normalize_eq_mkRat]

/-- The integers up to `2^24` in absolute value are binary32 values. -/
theorem F32.rep_int (n : Int) (h : |n| ≤ 2 ^ 24) : F32.Rep (n : ℚ) := by
  have hcast : |(n : ℚ)| = ((n.natAbs : Nat) : ℚ) := by
    rw [Nat.cast_natAbs, Int.cast_abs]
  have hnat : n.natAbs ≤ 2 ^ 24 := by
    have : ((n.natAbs : Nat) : Int) ≤ 2 ^ 24 := by rw [Int.natCast_natAbs]; exact h
    exact_mod_cast this
  rcases Nat.lt_or_ge n.natAbs (2 ^ 24) with hlt | hge
  · refine ⟨n.natAbs, 149, hlt, ?_, ?_⟩
    · exact Nat.mul_lt_mul_of_lt_of_le (lt_trans hlt (by norm_num)) (Nat.le_refl _)
        (by positivity)
    · rw [hcast]
      push_cast
      ring
  · have heq : n.natAbs = 2 ^ 24 := Nat.le_antisymm hnat hge
    refine ⟨2 ^ 23, 150, by norm_num, by norm_num, ?_⟩
    rw [hcast, heq]
    push_cast
    ring

theorem F32.round_int (n : Int) (h : |n| ≤ 2 ^ 24) : F32.round (n : ℚ) = F32.fin (n : ℚ) :=
  F32.round_of_rep _ (F32.rep_int n h)

theorem F32.ofInt_eq (n : Int) (h : |n| ≤ 2 ^ 24) : F32.ofInt n = F32.fin (n : ℚ) :=
  F32.round_int n h

/-- A value that rounding leaves as it is, is a binary32 value. -/
theorem F32.rep_of_isBinary32 (q : ℚ) (h : F32.isBinary32 (F32.fin q) = true) :
    F32.Rep q := by
  have hr : F32.round q = F32.fin q := by simpa [F32.isBinary32] using h
  have hk : F32.roundScaled (q.num.natAbs * 2 ^ 149) q.den < 2 ^ 128 * 2 ^ 149 := by
    by_contra hge
    unfold F32.round at hr
    rw [if_pos (Nat.not_lt.1 hge)] at hr
    split at hr <;> exact absurd hr (by simp)
  obtain ⟨r, hr', habs, _, _⟩ := F32.round_cases q hk
  rw [hr] at hr'
  have hrr : q = r := by injection hr'
  subst hrr
  obtain ⟨m, i, hm, hrepr⟩ := F32.roundScaled_repr (q.num.natAbs * 2 ^ 149) q.den q.den_pos
  exact ⟨m, i, hm, by rw [← hrepr]; exact hk, by rw [habs, hrepr]⟩

theorem F32.trunc_nonneg (q : ℚ) (hq : 0 ≤ q) : F32.trunc (F32.fin q) = ⌊q⌋ := by
  rw [Rat.floor_def, F32.trunc]
  exact Int.tdiv_eq_ediv (Rat.num_nonneg.2 hq) (Int.ofNat_nonneg _)

theorem F32.trunc_nonpos (q : ℚ) (hq : q ≤ 0) : F32.trunc (F32.fin q) = -⌊-q⌋ := by
  have h := F32.trunc_nonneg (-q) (neg_nonneg.2 hq)
  rw [← h]
  simp only [F32.trunc, Rat.neg_num, Rat.neg_den, Int.neg_tdiv, neg_neg]

theorem F32.trunc_int (n : Int) : F32.trunc (F32.fin (n : ℚ)) = n := by
  simp [F32.trunc]

/-- The truncation of a finite value lies between zero and the value. -/
theorem F32.abs_trunc_le (q : ℚ) : |((F32.trunc (F32.fin q) : Int) : ℚ)| ≤ |q| := by
  rcases le_or_lt 0 q with h | h
  · rw [F32.trunc_nonneg q h, abs_of_nonneg h,
      abs_of_nonneg (by exact_mod_cast Int.floor_nonneg.2 h)]
    exact Int.floor_le q
  · have hn : 0 ≤ -q := le_of_lt (neg_pos.2 h)
    rw [F32.trunc_nonpos q (le_of_lt h), abs_of_neg h]
    push_cast
    rw [abs_neg, abs_of_nonneg (by exact_mod_cast Int.floor_nonneg.2 hn)]
    exact Int.floor_le (-q)

/-- A finite value of absolute value at most `2^24` converts to `int`. -/
theorem F32.toInt_fin (q : ℚ) (hq : |q| ≤ 2 ^ 24) :
    F32.toInt (F32.fin q) = some (F32.trunc (F32.fin q)) := by
  have h := le_trans (F32.abs_trunc_le q) hq
  have h' : |F32.trunc (F32.fin q)| ≤ 2 ^ 24 := by exact_mod_cast h
  have hb := abs_le.1 h'
  simp only [F32.trunc] at hb
  simp only [F32.toInt, F32.trunc]
  rw [if_pos]
  constructor
  · exact le_trans (by norm_num) hb.1
  · exact le_trans hb.2 (by norm_num)

/-! ## The two steps of `computeRoi` along one axis -/

theorem F32.ofInt_zero : F32.ofInt 0 = F32.fin 0 := by
  have h := F32.ofInt_eq 0 (by norm_num)
  simpa using h

theorem F32.ofInt_one : F32.ofInt 1 = F32.fin 1 := by
  have h := F32.ofInt_eq 1 (by norm_num)
  simpa using h

theorem F32.ofInt_natCast (W : Nat) (hW : W ≤ 2 ^ 24) :
    F32.ofInt (W : Int) = F32.fin (W : ℚ) := by
  have h := F32.ofInt_eq (W : Int) (by
    rw [abs_of_nonneg (Int.ofNat_nonneg W)]
    exact_mod_cast hW)
  simpa using h

/-- When the guard `near < 1 - far` of a ratio holds, the two ratios sum to less
than one. -/
theorem F32.guard_sum_lt (l r : ℚ) (hl : F32.Rep l) (hr1 : r ≤ 1)
    (h : F32.lt (F32.fin l) (F32.sub (F32.ofInt 1) (F32.fin r)) = true) : l + r < 1 := by
  by_contra hc
  have hle : 1 - r ≤ l := by linarith
  have h0 : 0 ≤ 1 - r := by linarith
  obtain ⟨g, hg, hgl, _, _, _⟩ := F32.round_le (1 - r) l (by rwa [abs_of_nonneg h0]) hl
  rw [F32.ofInt_one, F32.sub_fin, hg] at h
  have hlt : l < g := by simpa [F32.lt] using h
  exact absurd (lt_of_lt_of_le hlt (le_trans (le_abs_self g) hgl)) (lt_irrefl l)

/-- The difference between a binary32 value and the integer just below it is a binary32
value. -/
theorem F32.rep_sub_int (p : ℚ) (hp : F32.Rep p) (z : Int) (hz : 0 ≤ z)
    (h1 : (z : ℚ) < p) (h2 : p < (z : ℚ) + 1) : F32.Rep ((z : ℚ) - p) := by
  obtain ⟨m, i, hm, hlt, hB⟩ := hp
  have hp0 : 0 < p := lt_of_le_of_lt (by exact_mod_cast hz) h1
  rw [abs_of_pos hp0] at hB
  have hpow : (0 : ℚ) < 2 ^ 149 := by positivity
  obtain ⟨n, rfl⟩ := Int.eq_ofNat_of_zero_le hz
  simp only [Int.cast_natCast] at h1 h2 ⊢
  have habs : |(n : ℚ) - p| = p - n := by
    rw [abs_of_neg (by linarith)]
    ring
  rcases Nat.lt_or_ge i 149 with hi | hi
  · -- the unit of `p` divides `2^149`
    have hsplit : (2 : ℚ) ^ 149 = 2 ^ (149 - i) * 2 ^ i := by
      rw [← pow_add]
      congr 1
      omega
    have hc : n * 2 ^ (149 - i) < m := by
      have h3 : (n : ℚ) * 2 ^ 149 < p * 2 ^ 149 := mul_lt_mul_of_pos_right h1 hpow
      rw [hB, hsplit] at h3
      have h4 : ((n * 2 ^ (149 - i) * 2 ^ i : Nat) : ℚ) < ((m * 2 ^ i : Nat) : ℚ) := by
        push_cast
        push_cast at h3
        linarith
      have h5 : n * 2 ^ (149 - i) * 2 ^ i < m * 2 ^ i := by exact_mod_cast h4
      exact Nat.lt_of_mul_lt_mul_right h5
    refine ⟨m - n * 2 ^ (149 - i), i, by omega, ?_, ?_⟩
    · exact lt_of_le_of_lt (Nat.mul_le_mul_right _ (Nat.sub_le _ _)) hlt
    · rw [habs, sub_mul, hB]
      have hcast : (((m - n * 2 ^ (149 - i)) * 2 ^ i : Nat) : ℚ)
          = ((m : ℚ) - (n : ℚ) * 2 ^ (149 - i)) * 2 ^ i := by
        rw [Nat.cast_mul, Nat.cast_sub (Nat.le_of_lt hc)]
        push_cast
        ring
      rw [hcast, hsplit]
      push_cast
      ring
  · -- `p` is an integer, which cannot lie strictly between `n` and `n + 1`
    exfalso
    have hsplit : (2 : ℚ) ^ i = 2 ^ (i - 149) * 2 ^ 149 := by
      rw [← pow_add]
      congr 1
      omega
    have hpn : p = ((m * 2 ^ (i - 149) : Nat) : ℚ) := by
      have h3 : p * 2 ^ 149 = ((m * 2 ^ (i - 149) : Nat) : ℚ) * 2 ^ 149 := by
        rw [hB]
        push_cast
        rw [hsplit]
        ring
      exact mul_right_cancel₀ (ne_of_gt hpow) h3
    rw [hpn] at h1 h2
    have h1' : n < m * 2 ^ (i - 149) := by exact_mod_cast h1
    have h2' : m * 2 ^ (i - 149) < n + 1 := by exact_mod_cast h2
    omega

/-- The origin along one axis: the conversion of the product is defined, and the
origin lies between 0 and the size, at most one half above the exact product. -/
theorem origin_steps (W : Nat) (hW : W ≤ 2 ^ 24) (l : ℚ) (hl0 : 0 ≤ l) (hl1 : l < 1)
    (far : F32) :
    (if F32.lt (F32.ofInt 0) (F32.fin l) &&
        F32.lt (F32.fin l) (F32.sub (F32.ofInt 1) far) then
      F32.toInt (F32.mul (F32.ofInt W) (F32.fin l))
    else some 0) = some (specOrigin W (F32.fin l) far) ∧
    0 ≤ specOrigin W (F32.fin l) far ∧
    specOrigin W (F32.fin l) far ≤ W ∧
    ((specOrigin W (F32.fin l) far : Int) : ℚ) ≤ W * l + 1 / 2 := by
  have hWq : (0 : ℚ) ≤ (W : ℚ) := Nat.cast_nonneg W
  have hW24 : (W : ℚ) ≤ 2 ^ 24 := by exact_mod_cast hW
  unfold specOrigin
  by_cases hg : (F32.lt (F32.ofInt 0) (F32.fin l) &&
      F32.lt (F32.fin l) (F32.sub (F32.ofInt 1) far)) = true
  · rw [if_pos hg, if_pos hg, F32.ofInt_natCast W hW, F32.mul_fin]
    have hprod0 : 0 ≤ (W : ℚ) * l := mul_nonneg hWq hl0
    have hprodW : (W : ℚ) * l ≤ W := by nlinarith
    have hrepW : F32.Rep (W : ℚ) := by
      have h := F32.rep_int (W : Int) (by
        rw [abs_of_nonneg (Int.ofNat_nonneg W)]
        exact_mod_cast hW)
      simpa using h
    obtain ⟨p, hp, hpW, _, hp0, _⟩ :=
      F32.round_le ((W : ℚ) * l) W (by rwa [abs_of_nonneg hprod0]) hrepW
    have hp0' : 0 ≤ p := hp0 hprod0
    rw [abs_of_nonneg hp0'] at hpW
    have hlt24 : |(W : ℚ) * l| < 2 ^ 24 := by
      rw [abs_of_nonneg hprod0]
      rcases Nat.eq_zero_or_pos W with h0 | h0
      · subst h0
        simp
      · have hWpos : (0 : ℚ) < (W : ℚ) := by exact_mod_cast h0
        nlinarith
    have herr := F32.round_err _ p hlt24 hp
    rw [hp, F32.toInt_fin p (by rw [abs_of_nonneg hp0']; linarith), F32.trunc_nonneg p hp0']
    refine ⟨rfl, Int.floor_nonneg.2 hp0', ?_, ?_⟩
    · have h1 : ((⌊p⌋ : Int) : ℚ) ≤ ((W : Int) : ℚ) := by
        have := Int.floor_le p
        push_cast
        linarith
      exact_mod_cast h1
    · have h1 := Int.floor_le p
      have h2 := (abs_le.1 herr).2
      linarith
  · rw [if_neg hg, if_neg hg]
    refine ⟨rfl, le_refl 0, Int.ofNat_nonneg W, ?_⟩
    have : 0 ≤ (W : ℚ) * l := mul_nonneg hWq hl0
    push_cast
    linarith

/-- The extent along one axis: the two conversions are defined, the extent is at most
what is left of the size after the origin, and it is not negative when the ratio of
the far side is a binary32 value. -/
theorem extent_steps (W : Nat) (hW : W ≤ 2 ^ 24) (l r : ℚ) (hl0 : 0 ≤ l) (hl1 : l < 1)
    (hr0 : 0 ≤ r) (hr1 : r < 1) :
    F32.toInt (F32.sub (F32.ofInt W) (F32.ofInt (specOrigin W (F32.fin l) (F32.fin r))))
      = some (W - specOrigin W (F32.fin l) (F32.fin r)) ∧
    (if F32.lt (F32.ofInt 0) (F32.fin r) &&
        F32.lt (F32.fin r) (F32.sub (F32.ofInt 1) (F32.fin l)) then
      F32.toInt (F32.sub (F32.ofInt (W - specOrigin W (F32.fin l) (F32.fin r)))
        (F32.mul (F32.ofInt W) (F32.fin r)))
    else some (W - specOrigin W (F32.fin l) (F32.fin r)))
      = some (specExtent W (F32.fin l) (F32.fin r)) ∧
    specExtent W (F32.fin l) (F32.fin r) ≤ W - specOrigin W (F32.fin l) (F32.fin r) ∧
    (F32.Rep r → 0 ≤ specExtent W (F32.fin l) (F32.fin r)) := by
  obtain ⟨_, hx0, hxW, hxl⟩ := origin_steps W hW l hl0 hl1 (F32.fin r)
  unfold specExtent
  generalize specOrigin W (F32.fin l) (F32.fin r) = x at hx0 hxW hxl ⊢
  have hWq : (0 : ℚ) ≤ (W : ℚ) := Nat.cast_nonneg W
  have hW24 : (W : ℚ) ≤ 2 ^ 24 := by exact_mod_cast hW
  have hWi : ((W : Int) : Int) ≤ 2 ^ 24 := by exact_mod_cast hW
  have hxq0 : (0 : ℚ) ≤ (x : ℚ) := by exact_mod_cast hx0
  have hxqW : (x : ℚ) ≤ (W : ℚ) := by exact_mod_cast hxW
  have habsx : |x| ≤ 2 ^ 24 := by
    rw [abs_of_nonneg hx0]
    omega
  have habsd : |(W : Int) - x| ≤ 2 ^ 24 := by
    rw [abs_of_nonneg (by omega)]
    omega
  have hfirst : F32.toInt (F32.sub (F32.ofInt W) (F32.ofInt x)) = some (W - x) := by
    rw [F32.ofInt_natCast W hW, F32.ofInt_eq x habsx, F32.sub_fin]
    have hcast : (W : ℚ) - (x : ℚ) = (((W : Int) - x : Int) : ℚ) := by push_cast; ring
    rw [hcast, F32.round_int _ habsd, F32.toInt_fin _ (by exact_mod_cast habsd),
      F32.trunc_int]
  refine ⟨hfirst, ?_⟩
  by_cases hg : (F32.lt (F32.ofInt 0) (F32.fin r) &&
      F32.lt (F32.fin r) (F32.sub (F32.ofInt 1) (F32.fin l))) = true
  · rw [if_pos hg, if_pos hg, F32.ofInt_natCast W hW, F32.ofInt_eq _ habsd, F32.mul_fin]
    have hprod0 : 0 ≤ (W : ℚ) * r := mul_nonneg hWq hr0
    have hprodW : (W : ℚ) * r ≤ W := by nlinarith
    have hrepW : F32.Rep (W : ℚ) := by
      have h := F32.rep_int (W : Int) (by
        rw [abs_of_nonneg (Int.ofNat_nonneg W)]
        exact_mod_cast hW)
      simpa using h
    obtain ⟨p, hp, hpW, hprep, hp0, _⟩ :=
      F32.round_le ((W : ℚ) * r) W (by rwa [abs_of_nonneg hprod0]) hrepW
    have hp0' : 0 ≤ p := hp0 hprod0
    rw [abs_of_nonneg hp0'] at hpW
    have hlt24 : |(W : ℚ) * r| < 2 ^ 24 := by
      rw [abs_of_nonneg hprod0]
      rcases Nat.eq_zero_or_pos W with h0 | h0
      · subst h0
        simp
      · have hWpos : (0 : ℚ) < (W : ℚ) := by exact_mod_cast h0
        nlinarith
    have herr := (abs_le.1 (F32.round_err _ p hlt24 hp)).2
    rw [hp, F32.sub_fin]
    have hd0 : (0 : ℚ) ≤ (((W : Int) - x : Int) : ℚ) := by push_cast; linarith
    have hdW : ((((W : Int) - x : Int) : ℚ)) ≤ 2 ^ 24 := by push_cast; linarith
    have h24 : F32.Rep (2 ^ 24) := by
      have h := F32.rep_int (2 ^ 24) (by norm_num)
      simpa using h
    have hvabs : |(((W : Int) - x : Int) : ℚ) - p| ≤ 2 ^ 24 := by
      rw [abs_le]
      constructor <;> linarith
    obtain ⟨v, hv, hv24, _, hvpos, hvneg⟩ := F32.round_le _ _ hvabs h24
    rw [hv, F32.toInt_fin v hv24]
    refine ⟨rfl, ?_, ?_⟩
    · -- the extent does not exceed what is left after the origin
      rcases le_or_lt 0 ((((W : Int) - x : Int) : ℚ) - p) with hs | hs
      · obtain ⟨v2, hv2, hv2le, _, hv2pos, _⟩ := F32.round_le
          ((((W : Int) - x : Int) : ℚ) - p) (((W : Int) - x : Int) : ℚ)
          (by rw [abs_of_nonneg hs]; linarith) (F32.rep_int _ habsd)
        rw [hv] at hv2
        have hvv : v = v2 := by injection hv2
        subst hvv
        have hv0 : 0 ≤ v := hvpos hs
        rw [abs_of_nonneg hv0] at hv2le
        rw [F32.trunc_nonneg v hv0]
        have h1 : ((⌊v⌋ : Int) : ℚ) ≤ (((W : Int) - x : Int) : ℚ) :=
          le_trans (Int.floor_le v) hv2le
        exact_mod_cast h1
      · have hv0 : v ≤ 0 := hvneg hs
        rw [F32.trunc_nonpos v hv0]
        have h1 : 0 ≤ ⌊-v⌋ := Int.floor_nonneg.2 (neg_nonneg.2 hv0)
        omega
    · -- the extent is not negative
      intro hrrep
      have hsum : r + l < 1 := by
        have hg2 : F32.lt (F32.fin r) (F32.sub (F32.ofInt 1) (F32.fin l)) = true := by
          simp only [Bool.and_eq_true] at hg
          exact hg.2
        exact F32.guard_sum_lt r l hrrep (le_of_lt hl1) hg2
      have hgt : -1 < (((W : Int) - x : Int) : ℚ) - p := by
        push_cast
        rcases Nat.eq_zero_or_pos W with h0 | h0
        · subst h0
          simp only [Nat.cast_zero] at hpW hxqW ⊢
          have : p = 0 := le_antisymm hpW hp0'
          have : (x : ℚ) = 0 := le_antisymm hxqW hxq0
          linarith
        · have hWpos : (0 : ℚ) < (W : ℚ) := by exact_mod_cast h0
          nlinarith
      rcases le_or_lt 0 ((((W : Int) - x : Int) : ℚ) - p) with hs | hs
      · have hv0 : 0 ≤ v := hvpos hs
        rw [F32.trunc_nonneg v hv0]
        exact Int.floor_nonneg.2 hv0
      · have hrepv : F32.Rep ((((W : Int) - x : Int) : ℚ) - p) :=
          F32.rep_sub_int p hprep _ (by omega) (by linarith) (by linarith)
        rw [F32.round_of_rep _ hrepv] at hv
        have hvv : (((W : Int) - x : Int) : ℚ) - p = v := by injection hv
        rw [← hvv, F32.trunc_nonpos _ (le_of_lt hs)]
        have hfl : ⌊-((((W : Int) - x : Int) : ℚ) - p)⌋ = 0 := by
          rw [Int.floor_eq_iff]
          push_cast at hs hgt ⊢
          constructor
          · linarith
          · linarith
        rw [hfl]
        simp
  · rw [if_neg hg, if_neg hg]
    exact ⟨rfl, le_refl _, fun _ => by omega⟩

/-! ## `computeRoi`: lemmas and claims -/

/-- On a non-empty image and four ratios `computeRoi` returns the rectangle made of the
results of its steps, when every conversion to `int` is defined. -/
theorem computeRoi_steps (image : Mat) (left right top bottom : F32)
    (himage : image.empty = false) (w0 h0 x w1 w2 y h1 h2 : Int)
    (hw0 : F32.toInt (F32.ofInt image.cols) = some w0)
    (hh0 : F32.toInt (F32.ofInt image.rows) = some h0)
    (hx : (if F32.lt (F32.ofInt 0) left && F32.lt left (F32.sub (F32.ofInt 1) right) then
        F32.toInt (F32.mul (F32.ofInt image.cols) left)
      else some 0) = some x)
    (hw1 : F32.toInt (F32.sub (F32.ofInt image.cols) (F32.ofInt x)) = some w1)
    (hw2 : (if F32.lt (F32.ofInt 0) right && F32.lt right (F32.sub (F32.ofInt 1) left) then
        F32.toInt (F32.sub (F32.ofInt w1) (F32.mul (F32.ofInt image.cols) right))
      else some w1) = some w2)
    (hy : (if F32.lt (F32.ofInt 0) top && F32.lt top (F32.sub (F32.ofInt 1) bottom) then
        F32.toInt (F32.mul (F32.ofInt image.rows) top)
      else some 0) = some y)
    (hh1 : F32.toInt (F32.sub (F32.ofInt image.rows) (F32.ofInt y)) = some h1)
    (hh2 : (if F32.lt (F32.ofInt 0) bottom && F32.lt bottom (F32.sub (F32.ofInt 1) top) then
        F32.toInt (F32.sub (F32.ofInt h1) (F32.mul (F32.ofInt image.rows) bottom))
      else some h1) = some h2) :
    computeRoi image [left, right, top, bottom] = some ⟨x, y, w2, h2⟩ := by
  have hguard : (!image.empty && [left, right, top, bottom].length == 4) = true := by
    simp [himage]
  unfold computeRoi
  rw [if_pos hguard]
  simp only [List.getD_cons_zero, List.getD_cons_succ, F32.gt, hw0, hh0, Option.some_bind]
  generalize (F32.lt (F32.ofInt 0) left && F32.lt left (F32.sub (F32.ofInt 1) right)) = g0
    at hx ⊢
  generalize (F32.lt (F32.ofInt 0) right && F32.lt right (F32.sub (F32.ofInt 1) left)) = g1
    at hw2 ⊢
  generalize (F32.lt (F32.ofInt 0) top && F32.lt top (F32.sub (F32.ofInt 1) bottom)) = g2
    at hy ⊢
  generalize (F32.lt (F32.ofInt 0) bottom && F32.lt bottom (F32.sub (F32.ofInt 1) top)) = g3
    at hh2 ⊢
  cases g0 <;> cases g1 <;> cases g2 <;> cases g3 <;>
    simp only [if_true, if_false, Bool.false_eq_true, Option.some.injEq] at hx hw2 hy hh2 <;>
    subst_vars <;>
    simp_all only [if_true, if_false, Bool.false_eq_true, Option.some_bind, Option.map_some']

theorem F32.toInt_natCast (W : Nat) (hW : W ≤ 2 ^ 24) :
    F32.toInt (F32.ofInt (W : Int)) = some (W : Int) := by
  rw [F32.ofInt_natCast W hW]
  have h := F32.toInt_fin ((W : Int) : ℚ) (by
    rw [abs_of_nonneg (by positivity)]
    exact_mod_cast hW)
  rw [F32.trunc_int] at h
  simpa using h

theorem F32.ratio_cases (v : F32) (h0 : F32.le (F32.ofInt 0) v = true)
    (h1 : F32.lt v (F32.ofInt 1) = true) : ∃ q : ℚ, v = F32.fin q ∧ 0 ≤ q ∧ q < 1 := by
  rw [F32.ofInt_zero] at h0
  rw [F32.ofInt_one] at h1
  cases v with
  | fin q =>
    refine ⟨q, rfl, ?_, ?_⟩
    · simpa [F32.le] using h0
    · simpa [F32.lt] using h1
  | nan => simp [F32.le] at h0
  | ninf => simp [F32.le] at h0
  | pinf => simp [F32.lt] at h1

/-- On a non-empty image of at most `2^24` columns and rows and ratios in `[0, 1)`,
`computeRoi` returns the rectangle of the specification. -/
theorem computeRoi_eq_specRoi (image : Mat) (l r t b : ℚ) (himage : image.empty = false)
    (hcols : image.cols ≤ 2 ^ 24) (hrows : image.rows ≤ 2 ^ 24)
    (hl0 : 0 ≤ l) (hl1 : l < 1) (hr0 : 0 ≤ r) (hr1 : r < 1)
    (ht0 : 0 ≤ t) (ht1 : t < 1) (hb0 : 0 ≤ b) (hb1 : b < 1) :
    computeRoi image [F32.fin l, F32.fin r, F32.fin t, F32.fin b]
      = some (specRoi image.cols image.rows (F32.fin l) (F32.fin r) (F32.fin t)
          (F32.fin b)) := by
  obtain ⟨hx, _, _, _⟩ := origin_steps image.cols hcols l hl0 hl1 (F32.fin r)
  obtain ⟨hw1, hw2, _, _⟩ := extent_steps image.cols hcols l r hl0 hl1 hr0 hr1
  obtain ⟨hy, _, _, _⟩ := origin_steps image.rows hrows t ht0 ht1 (F32.fin b)
  obtain ⟨hh1, hh2, _, _⟩ := extent_steps image.rows hrows t b ht0 ht1 hb0 hb1
  exact computeRoi_steps image _ _ _ _ himage _ _ _ _ _ _ _ _
    (F32.toInt_natCast _ hcols) (F32.toInt_natCast _ hrows) hx hw1 hw2 hy hh1 hh2

/-- C11 as stated fails: on an image of 16777219 columns and one row, with the ratios
0, 0, 0, 0, the width of the image becomes the float 16777220 and `computeRoi` returns
a rectangle of that width, wider than the image. -/
theorem computeRoi_within_image_counterexample :
    (blankImage 16777219 1).empty = false ∧
    (∀ v ∈ [F32.zero, F32.zero, F32.zero, F32.zero],
      F32.le (F32.ofInt 0) v = true ∧ F32.lt v (F32.ofInt 1) = true) ∧
    computeRoi (blankImage 16777219 1) [F32.zero, F32.zero, F32.zero, F32.zero]
      = some ⟨0, 0, 16777220, 1⟩ ∧
    ¬ ((0 : Int) + 16777220 ≤ (blankImage 16777219 1).cols) := by
  decide

/-- C11, amended. For every non-empty image of `W <= 16777216` columns and
`H <= 16777216` rows and every four ratios, binary32 values each in `[0, 1)`,
`computeRoi` returns a rectangle with `x >= 0`, `y >= 0`, `width >= 0`, `height >= 0`,
`x + width <= W` and `y + height <= H`. -/
theorem computeRoi_within_image (image : Mat) (roiRatios : List F32)
    (himage : image.empty = false) (hcols : image.cols ≤ 16777216)
    (hrows : image.rows ≤ 16777216) (hcount : roiRatios.length = 4)
    (hratios : ∀ v ∈ roiRatios, F32.isBinary32 v = true ∧
      F32.le (F32.ofInt 0) v = true ∧ F32.lt v (F32.ofInt 1) = true) :
    ∃ roi : Rect, computeRoi image roiRatios = some roi ∧
      0 ≤ roi.x ∧ 0 ≤ roi.y ∧ 0 ≤ roi.width ∧ 0 ≤ roi.height ∧
      roi.x + roi.width ≤ image.cols ∧ roi.y + roi.height ≤ image.rows := by
  match roiRatios, hcount with
  | [left, right, top, bottom], _ =>
    obtain ⟨l, rfl, hl0, hl1⟩ := F32.ratio_cases left (hratios left (by simp)).2.1
      (hratios left (by simp)).2.2
    obtain ⟨r, rfl, hr0, hr1⟩ := F32.ratio_cases right (hratios right (by simp)).2.1
      (hratios right (by simp)).2.2
    obtain ⟨t, rfl, ht0, ht1⟩ := F32.ratio_cases top (hratios top (by simp)).2.1
      (hratios top (by simp)).2.2
    obtain ⟨b, rfl, hb0, hb1⟩ := F32.ratio_cases bottom (hratios bottom (by simp)).2.1
      (hratios bottom (by simp)).2.2
    have hrr := F32.rep_of_isBinary32 r (hratios _ (by simp)).1
    have hbr := F32.rep_of_isBinary32 b (hratios _ (by simp)).1
    obtain ⟨_, hx0, _, _⟩ := origin_steps image.cols hcols l hl0 hl1 (F32.fin r)
    obtain ⟨_, _, hwle, hw0⟩ := extent_steps image.cols hcols l r hl0 hl1 hr0 hr1
    obtain ⟨_, hy0, _, _⟩ := origin_steps image.rows hrows t ht0 ht1 (F32.fin b)
    obtain ⟨_, _, hhle, hh0⟩ := extent_steps image.rows hrows t b ht0 ht1 hb0 hb1
    refine ⟨_, computeRoi_eq_specRoi image l r t b himage hcols hrows hl0 hl1 hr0 hr1
      ht0 ht1 hb0 hb1, hx0, hy0, hw0 hrr, hh0 hbr, ?_, ?_⟩
    · simp only [specRoi]
      omega
    · simp only [specRoi]
      omega

/-- C11, amended, on the scenario: a 100 x 100 image with ratios 0.1, 0.1, 0, 0. -/
theorem computeRoi_within_image_witness :
    ∃ roi : Rect, computeRoi (blankImage 100 100) scenarioRatios = some roi ∧
      0 ≤ roi.x ∧ 0 ≤ roi.y ∧ 0 ≤ roi.width ∧ 0 ≤ roi.height ∧
      roi.x + roi.width ≤ (blankImage 100 100).cols ∧
      roi.y + roi.height ≤ (blankImage 100 100).rows :=
  computeRoi_within_image (blankImage 100 100) scenarioRatios (by decide) (by decide)
    (by decide) (by decide) (by decide)

/-- C12 as stated fails. On an image of 16777219 columns with the ratios 0, 0, 0, 0 no
ratio is applied and the width returned is 16777220, not `W - x = 16777219`. On an
image of 16777215 columns with the ratios 2.75, -3, 0, 0 the left ratio is applied
(`0 < 2.75 < 1 - (-3)`), the right one is not, `x` is 46137340 and the width returned
is -29360124, not `W - x = -29360125`. -/
theorem computeRoi_formula_counterexample :
    computeRoi (blankImage 16777219 1) [F32.zero, F32.zero, F32.zero, F32.zero]
      = some ⟨0, 0, 16777220, 1⟩ ∧
    (16777220 : Int) ≠ (blankImage 16777219 1).cols - 0 ∧
    computeRoi (blankImage 16777215 1) wildRatios = some ⟨46137340, 0, -29360124, 1⟩ ∧
    (F32.lt (F32.ofInt 0) (F32.fin (mkRat 11 4)) &&
      F32.lt (F32.fin (mkRat 11 4)) (F32.sub (F32.ofInt 1) (F32.fin (-3)))) = true ∧
    (F32.lt (F32.ofInt 0) (F32.fin (-3)) &&
      F32.lt (F32.fin (-3)) (F32.sub (F32.ofInt 1) (F32.fin (mkRat 11 4)))) = false ∧
    (-29360124 : Int) ≠ (blankImage 16777215 1).cols - 46137340 := by
  decide

/-- C12, amended. For every non-empty `W x H` image with `W, H <= 16777216` and ratios
`left`, `right`, `top`, `bottom` in `[0, 1)`, `computeRoi` returns the rectangle of the
specification, the products and differences being those of float arithmetic:
`x = trunc(W * left)` if `0 < left < 1 - right`, else `0`;
`width = trunc((W - x) - W * right)` if `0 < right < 1 - left`, else `W - x`; and `y`,
`height` likewise from `top`, `bottom` and `H` (definitions `specOrigin`, `specExtent`,
`specRoi`). -/
theorem computeRoi_formula (image : Mat) (left right top bottom : F32)
    (himage : image.empty = false) (hcols : image.cols ≤ 16777216)
    (hrows : image.rows ≤ 16777216)
    (hratios : ∀ v ∈ [left, right, top, bottom],
      F32.le (F32.ofInt 0) v = true ∧ F32.lt v (F32.ofInt 1) = true) :
    computeRoi image [left, right, top, bottom]
      = some (specRoi image.cols image.rows left right top bottom) := by
  obtain ⟨l, rfl, hl0, hl1⟩ := F32.ratio_cases left (hratios left (by simp)).1
    (hratios left (by simp)).2
  obtain ⟨r, rfl, hr0, hr1⟩ := F32.ratio_cases right (hratios right (by simp)).1
    (hratios right (by simp)).2
  obtain ⟨t, rfl, ht0, ht1⟩ := F32.ratio_cases top (hratios top (by simp)).1
    (hratios top (by simp)).2
  obtain ⟨b, rfl, hb0, hb1⟩ := F32.ratio_cases bottom (hratios bottom (by simp)).1
    (hratios bottom (by simp)).2
  exact computeRoi_eq_specRoi image l r t b himage hcols hrows hl0 hl1 hr0 hr1
    ht0 ht1 hb0 hb1

/-- C12, amended, on the scenario: a 100 x 100 image with the float ratios 0.1, 0.1, 0, 0
gives `x = 10`, `y = 0`, `width = 80`, `height = 100`; and a 10 x 1 image with the
float ratio 0.7 on the left gives `x = 7`, the float product `10 * 0.7f` being 7. -/
theorem computeRoi_formula_witness :
    computeRoi (blankImage 100 100) scenarioRatios = some ⟨10, 0, 80, 100⟩ ∧
    specRoi 100 100 (F32.literal (mkRat 1 10)) (F32.literal (mkRat 1 10)) F32.zero F32.zero
      = ⟨10, 0, 80, 100⟩ ∧
    specRoi 10 1 (F32.literal (mkRat 7 10)) F32.zero F32.zero F32.zero = ⟨7, 0, 3, 1⟩ ∧
    computeRoi (blankImage 100 100)
        [F32.literal (mkRat 1 10), F32.literal (mkRat 1 10), F32.zero, F32.zero]
      = some (specRoi (blankImage 100 100).cols (blankImage 100 100).rows
          (F32.literal (mkRat 1 10)) (F32.literal (mkRat 1 10)) F32.zero F32.zero) :=
  ⟨by decide, by decide, by decide,
   computeRoi_formula (blankImage 100 100) (F32.literal (mkRat 1 10))
    (F32.literal (mkRat 1 10)) F32.zero F32.zero (by decide) (by decide) (by decide)
    (by decide)⟩

/-- C13 as stated fails: on an image of 16777217 columns and one row the width of the
image becomes the float 16777216, and `computeRoi` with the ratios 0, 0, 0, 0 returns
a rectangle of that width, not the full image. -/
theorem computeRoi_zero_ratios_counterexample :
    (blankImage 16777217 1).empty = false ∧
    computeRoi (blankImage 16777217 1) [F32.zero, F32.zero, F32.zero, F32.zero]
      = some ⟨0, 0, 16777216, 1⟩ ∧
    (⟨0, 0, 16777216, 1⟩ : Rect)
      ≠ ⟨0, 0, (blankImage 16777217 1).cols, (blankImage 16777217 1).rows⟩ := by
  decide

/-- C13, amended. For every non-empty image of `W <= 16777216` columns and
`H <= 16777216` rows, `computeRoi` with the ratios 0, 0, 0, 0 returns the full image
rectangle `(0, 0, W, H)`. -/
theorem computeRoi_zero_ratios (image : Mat) (himage : image.empty = false)
    (hcols : image.cols ≤ 16777216) (hrows : image.rows ≤ 16777216) :
    computeRoi image [F32.zero, F32.zero, F32.zero, F32.zero]
      = some ⟨0, 0, image.cols, image.rows⟩ := by
  have h := computeRoi_eq_specRoi image 0 0 0 0 himage hcols hrows (le_refl 0)
    (by norm_num) (le_refl 0) (by norm_num) (le_refl 0) (by norm_num) (le_refl 0)
    (by norm_num)
  have hzero : ∀ size : Int, specOrigin size (F32.fin 0) (F32.fin 0) = 0 := by
    intro size
    simp [specOrigin, F32.ofInt_zero, F32.lt]
  have hext : ∀ size : Int, specExtent size (F32.fin 0) (F32.fin 0) = size := by
    intro size
    rw [specExtent, hzero]
    simp [F32.ofInt_zero, F32.lt]
  rw [specRoi, hzero, hzero, hext, hext] at h
  exact h

/-- C13, amended, on a 100 x 100 image. -/
theorem computeRoi_zero_ratios_witness :
    computeRoi (blankImage 100 100) [F32.zero, F32.zero, F32.zero, F32.zero]
      = some ⟨0, 0, (blankImage 100 100).cols, (blankImage 100 100).rows⟩ :=
  computeRoi_zero_ratios (blankImage 100 100) (by decide) (by decide) (by decide)

/-- C14. Whenever the image is empty or the ratio list does not have exactly 4 entries,
`computeRoi` returns (it does not abort) and the rectangle returned is the empty
`(0, 0, 0, 0)`, whatever the ratio values are. -/
theorem computeRoi_invalid_argument (image : Mat) (roiRatios : List F32)
    (h : image.empty = true ∨ roiRatios.length ≠ 4) :
    computeRoi image roiRatios = some ⟨0, 0, 0, 0⟩ := by
  have hguard : (!image.empty && roiRatios.length == 4) = false := by
    rcases h with h | h
    · simp [h]
    · simp [h]
  unfold computeRoi
  rw [hguard]
  rfl

/-- C14 on a 100 x 100 image with three ratios, and on an empty image with four. -/
theorem computeRoi_invalid_argument_witness :
    computeRoi (blankImage 100 100) [F32.fin (mkRat 1 10), F32.fin (mkRat 1 10), F32.zero]
      = some ⟨0, 0, 0, 0⟩ ∧
    computeRoi Mat.nil scenarioRatios = some ⟨0, 0, 0, 0⟩ :=
  ⟨computeRoi_invalid_argument (blankImage 100 100)
      [F32.fin (mkRat 1 10), F32.fin (mkRat 1 10), F32.zero] (Or.inr (by decide)),
   computeRoi_invalid_argument Mat.nil scenarioRatios (Or.inl (by decide))⟩

/-! ## `Feature2D::generateKeypoints`: lemmas and claims -/

/-- The overload without descriptors always returns: a sublist-by-index of its input,
of at most `maxKeypoints` keypoints when `maxKeypoints > 0`. -/
theorem limitKeypointsOnly_spec (keypoints : List KeyPoint) (maxKeypoints : Int) :
    ∃ limited : List KeyPoint,
      limitKeypointsOnly keypoints maxKeypoints = some limited ∧
      (∀ kp ∈ limited, kp ∈ keypoints) ∧
      (0 < maxKeypoints → (limited.length : Int) ≤ maxKeypoints) := by
  have hrows : Mat.nil.rows = 0 ∨ Mat.nil.rows = keypoints.length := Or.inl rfl
  by_cases hprune : 0 < maxKeypoints ∧ maxKeypoints < (keypoints.length : Int)
  · obtain ⟨hmax, hmore⟩ := hprune
    obtain ⟨_, hrun, _, _⟩ :=
      limitKeypoints_prune keypoints Mat.nil maxKeypoints hmax hmore hrows
    refine ⟨_, by rw [limitKeypointsOnly, hrun]; rfl, ?_, ?_⟩
    · intro kp hkp
      obtain ⟨i, hi, rfl⟩ := List.mem_map.1 hkp
      have hlt := selected_in_range keypoints maxKeypoints.toNat i hi
      rw [List.getD_eq_getElem _ _ hlt]
      exact List.getElem_mem _
    · intro _
      rw [List.length_map, List.length_map, List.length_take]
      omega
  · have hkeep : maxKeypoints ≤ 0 ∨ (keypoints.length : Int) ≤ maxKeypoints := by omega
    have hrun := limitKeypoints_keep keypoints Mat.nil maxKeypoints hkeep hrows
    refine ⟨keypoints, by rw [limitKeypointsOnly, hrun]; rfl, fun kp hkp => hkp, ?_⟩
    intro hmax
    omega

theorem F32.add_ofInt_zero (a : F32) (h : F32.isBinary32 a = true) :
    F32.add a (F32.ofInt 0) = a := by
  rw [F32.ofInt_zero]
  cases a with
  | fin q =>
    rw [F32.add_fin, add_zero]
    simpa [F32.isBinary32] using h
  | nan => rfl
  | ninf => rfl
  | pinf => rfl

theorem map_translate_zero (keypoints : List KeyPoint)
    (h : ∀ kp ∈ keypoints,
      F32.isBinary32 kp.pt.x = true ∧ F32.isBinary32 kp.pt.y = true) :
    keypoints.map (fun kp =>
      { kp with pt := ⟨F32.add kp.pt.x (F32.ofInt 0), F32.add kp.pt.y (F32.ofInt 0)⟩ })
      = keypoints := by
  induction keypoints with
  | nil => rfl
  | cons kp rest ih =>
    have hkp := h kp (List.mem_cons_self _ _)
    rw [List.map_cons, ih (fun k hk => h k (List.mem_cons_of_mem _ hk)),
      F32.add_ofInt_zero _ hkp.1, F32.add_ofInt_zero _ hkp.2]

/-- C15. For every non-empty single-channel 8-bit image, every `maxKeypoints` and every
ROI with non-zero width and height, when the backend's detection step returns the
keypoints `raw` on that ROI (their positions being binary32 values), `generateKeypoints`
returns `limitKeypoints` applied to `raw` (at most `maxKeypoints` keypoints when
`maxKeypoints > 0`, each of them one of `raw`), with `(roi.x, roi.y)` added to every
position, in float arithmetic, and every other field unchanged. -/
theorem generateKeypoints_on_roi (generateKeypointsImpl : GenerateKeypointsImpl)
    (image : Mat) (maxKeypoints : Int) (roi : Rect) (raw : List KeyPoint)
    (himage : image.empty = false) (hchannels : image.channels = 1)
    (htype : image.type = CV_8U) (hwidth : roi.width ≠ 0) (hheight : roi.height ≠ 0)
    (hdetect : generateKeypointsImpl image roi = some raw)
    (hfloat : ∀ kp ∈ raw,
      F32.isBinary32 kp.pt.x = true ∧ F32.isBinary32 kp.pt.y = true) :
    ∃ limited : List KeyPoint,
      limitKeypointsOnly raw maxKeypoints = some limited ∧
      generateKeypoints generateKeypointsImpl image maxKeypoints roi
        = some (limited.map fun kp =>
            { kp with pt := ⟨F32.add kp.pt.x (F32.ofInt roi.x),
                             F32.add kp.pt.y (F32.ofInt roi.y)⟩ }) ∧
      (∀ kp ∈ limited, kp ∈ raw) ∧
      (0 < maxKeypoints → (limited.length : Int) ≤ maxKeypoints) := by
  obtain ⟨limited, hlimit, hsub, hlen⟩ := limitKeypointsOnly_spec raw maxKeypoints
  refine ⟨limited, hlimit, ?_, hsub, hlen⟩
  have hguard : (!image.empty && image.channels == 1 && image.type == CV_8U) = true := by
    simp [himage, hchannels, htype]
  have hroi : (roi.width != 0 && roi.height != 0) = true := by
    simp [hwidth, hheight]
  unfold generateKeypoints
  rw [if_pos hguard, if_pos hroi, hdetect, Option.some_bind, hlimit, Option.some_bind]
  by_cases hshift : (roi.x != 0 || roi.y != 0) = true
  · rw [if_pos hshift]
  · rw [if_neg hshift]
    have hx : roi.x = 0 := by
      by_contra h
      exact hshift (by simp [h])
    have hy : roi.y = 0 := by
      by_contra h
      exact hshift (by simp [h])
    rw [hx, hy, map_translate_zero limited (fun kp hkp => hfloat kp (hsub kp hkp))]

/-- C15 on a 200 x 100 image and the ROI (100, 50, 20, 20): the detection at the
sub-pixel position `(1.3f, 2.7f)` is returned at the floats nearest to 101.3 and 52.7,
which are the float sums. On a 10 x 10 image, the ROI (2, 3, 4, 4) and
`maxKeypoints = 3`: of the five detections the three strongest are returned, moved by
(2, 3). -/
theorem generateKeypoints_on_roi_witness :
    generateKeypoints subPixelBackend (blankImage 200 100) 0 ⟨100, 50, 20, 20⟩
      = some [keypointAt (F32.fin (mkRat 6638797 65536))
          (F32.fin (mkRat 13814989 262144))] ∧
    generateKeypoints scenarioBackend (blankImage 10 10) 3 ⟨2, 3, 4, 4⟩
      = some
        [{ keypointWithResponse (F32.literal (mkRat 9 10)) with
            pt := ⟨F32.fin 4, F32.fin 4⟩ },
         { keypointWithResponse (F32.literal (mkRat 7 10)) with
            pt := ⟨F32.fin 7, F32.fin 4⟩ },
         { keypointWithResponse (F32.literal (mkRat 5 10)) with
            pt := ⟨F32.fin 5, F32.fin 4⟩ }] ∧
    ∃ (raw limited : List KeyPoint),
      subPixelBackend (blankImage 200 100) ⟨100, 50, 20, 20⟩ = some raw ∧
      limitKeypointsOnly raw 0 = some limited ∧
      generateKeypoints subPixelBackend (blankImage 200 100) 0 ⟨100, 50, 20, 20⟩
        = some (limited.map fun kp =>
            { kp with pt := ⟨F32.add kp.pt.x (F32.ofInt (100 : Int)),
                             F32.add kp.pt.y (F32.ofInt (50 : Int))⟩ }) ∧
      (∀ kp ∈ limited, kp ∈ raw) ∧
      (0 < (0 : Int) → (limited.length : Int) ≤ 0) :=
  ⟨by decide, by decide,
   match generateKeypoints_on_roi subPixelBackend (blankImage 200 100) 0
      ⟨100, 50, 20, 20⟩ _ (by decide) (by decide) (by decide) (by decide) (by decide) rfl
      (by decide) with
   | ⟨limited, h⟩ => ⟨_, limited, rfl, h⟩⟩

/-- C16. For every image that is empty, or not single-channel, or not of type `CV_8U`,
and for every backend, `maxKeypoints` and ROI, `generateKeypoints` returns the empty
sequence; as this holds for a backend whose detection step never returns, that step is
not invoked. -/
theorem generateKeypoints_invalid_image (generateKeypointsImpl : GenerateKeypointsImpl)
    (image : Mat) (maxKeypoints : Int) (roi : Rect)
    (h : image.empty = true ∨ image.channels ≠ 1 ∨ image.type ≠ CV_8U) :
    generateKeypoints generateKeypointsImpl image maxKeypoints roi = some [] := by
  have hguard : (!image.empty && image.channels == 1 && image.type == CV_8U) = false := by
    rcases h with h | h | h
    · simp [h]
    · simp [h]
    · simp [h]
  unfold generateKeypoints
  rw [hguard]
  simp only [Bool.false_eq_true, if_false]
  split <;> rfl

/-- C16 with a backend that never returns: on an empty image, and on a 3-channel 8-bit
image (type tag 16), the result is the empty sequence. -/
theorem generateKeypoints_invalid_image_witness :
    generateKeypoints failingBackend Mat.nil 3 ⟨2, 3, 4, 4⟩ = some [] ∧
    generateKeypoints failingBackend (Mat.create 10 10 16) 3 ⟨2, 3, 4, 4⟩
      = some [] :=
  ⟨generateKeypoints_invalid_image failingBackend Mat.nil 3 ⟨2, 3, 4, 4⟩
      (Or.inl (by decide)),
   generateKeypoints_invalid_image failingBackend (Mat.create 10 10 16) 3
      ⟨2, 3, 4, 4⟩ (Or.inr (Or.inl (by decide)))⟩

/-- C17, the code at the failing input. For the float ratios 0.5, 0.45, 0, 0 on a
10 x 10 image `computeRoi` gives the degenerate rectangle (5, 0, 0, 10); with it detection runs
on the whole image (the backend returns only then), the raw detection is at (1, 1), and
`generateKeypoints` returns it at (6, 1): moved by the origin of the supplied
rectangle, not by the origin (0, 0) of the rectangle detection ran on. -/
theorem generateKeypoints_degenerate_roi_shift :
    computeRoi (blankImage 10 10)
        [F32.fin (mkRat 1 2), F32.literal (mkRat 45 100), F32.zero, F32.zero]
      = some ⟨5, 0, 0, 10⟩ ∧
    wholeImageBackend (blankImage 10 10) ⟨0, 0, 10, 10⟩
      = some [keypointAt (F32.fin 1) (F32.fin 1)] ∧
    wholeImageBackend (blankImage 10 10) ⟨5, 0, 0, 10⟩ = none ∧
    generateKeypoints wholeImageBackend (blankImage 10 10) 0 ⟨5, 0, 0, 10⟩
      = some [keypointAt (F32.fin 6) (F32.fin 1)] := by
  decide

/-! ## Claims on the assertions -/

/-- C18. `limitKeypoints` fails on the fatal assertion of line 112 if and only if
descriptors are supplied (their row count is not zero) and their row count differs from
the keypoint count; this does not depend on `maxKeypoints`, and in every other case the
call returns. -/
theorem limitKeypoints_assertion (keypoints : List KeyPoint) (descriptors : Mat)
    (maxKeypoints : Int) :
    (limitKeypoints keypoints descriptors maxKeypoints = none ↔
      (descriptors.rows ≠ 0 ∧ descriptors.rows ≠ keypoints.length)) ∧
    ((∃ result, limitKeypoints keypoints descriptors maxKeypoints = some result) ↔
      ¬ (descriptors.rows ≠ 0 ∧ descriptors.rows ≠ keypoints.length)) := by
  by_cases hrows : descriptors.rows = 0 ∨ descriptors.rows = keypoints.length
  · have hsome : ∃ result, limitKeypoints keypoints descriptors maxKeypoints = some result := by
      by_cases hprune : 0 < maxKeypoints ∧ maxKeypoints < (keypoints.length : Int)
      · obtain ⟨_, hrun, _, _⟩ :=
          limitKeypoints_prune keypoints descriptors maxKeypoints hprune.1 hprune.2 hrows
        exact ⟨_, hrun⟩
      · exact ⟨_, limitKeypoints_keep keypoints descriptors maxKeypoints (by omega) hrows⟩
    have hnot : ¬ (descriptors.rows ≠ 0 ∧ descriptors.rows ≠ keypoints.length) := by
      intro h
      rcases hrows with h0 | h0
      · exact h.1 h0
      · exact h.2 h0
    obtain ⟨result, hresult⟩ := hsome
    refine ⟨⟨fun h => ?_, fun h => absurd h hnot⟩, ⟨fun _ => hnot, fun _ => ⟨result, hresult⟩⟩⟩
    rw [hresult] at h
    exact absurd h (by simp)
  · have hbad : descriptors.rows ≠ 0 ∧ descriptors.rows ≠ keypoints.length :=
      ⟨fun h => hrows (Or.inl h), fun h => hrows (Or.inr h)⟩
    have hassert : (keypoints.length == descriptors.rows || descriptors.rows == 0) = false := by
      simp only [Bool.or_eq_false_iff, beq_eq_false_iff_ne]
      exact ⟨fun h => hbad.2 h.symm, hbad.1⟩
    have hnone : limitKeypoints keypoints descriptors maxKeypoints = none := by
      unfold limitKeypoints UASSERT
      rw [hassert]
      rfl
    refine ⟨⟨fun _ => hbad, fun _ => hnone⟩, ⟨fun h => ?_, fun h => absurd hbad h⟩⟩
    obtain ⟨result, hresult⟩ := h
    rw [hnone] at hresult
    exact absurd hresult (by simp)

/-- C19 as stated fails: with two descriptor rows for four keypoints
`filterKeypointsByDepth` returns a result, the keypoints and the descriptors it was
given. -/
theorem filterKeypointsByDepth_mismatch_counterexample :
    mismatchedDescriptors.empty = false ∧
    mismatchedDescriptors.rows ≠ sampleKeypoints.length ∧
    filterKeypointsByDepth sampleGetDepth sampleKeypoints mismatchedDescriptors sampleDepth
        (F32.fin 1) (F32.fin 1) F32.zero F32.zero (F32.fin 5)
      = (sampleKeypoints, mismatchedDescriptors) := by
  decide

/-- C19, amended. `filterKeypointsByDepth` called with non-empty descriptors whose row
count differs from the keypoint count does not fail: it returns the keypoints and the
descriptors unchanged. -/
theorem filterKeypointsByDepth_mismatch_pass_through (getDepth : GetDepth)
    (keypoints : List KeyPoint) (descriptors : Mat) (depth : Mat)
    (fx fy cx cy maxDepth : F32)
    (hsupplied : descriptors.empty = false)
    (hrows : descriptors.rows ≠ keypoints.length) :
    filterKeypointsByDepth getDepth keypoints descriptors depth fx fy cx cy maxDepth
      = (keypoints, descriptors) := by
  apply filterKeypointsByDepth_inactive
  simp [hsupplied, hrows]

/-- C19, amended, on two descriptor rows for four keypoints. -/
theorem filterKeypointsByDepth_mismatch_pass_through_witness :
    filterKeypointsByDepth sampleGetDepth sampleKeypoints mismatchedDescriptors sampleDepth
        (F32.fin 1) (F32.fin 1) F32.zero F32.zero (F32.fin 5)
      = (sampleKeypoints, mismatchedDescriptors) :=
  filterKeypointsByDepth_mismatch_pass_through sampleGetDepth sampleKeypoints
    mismatchedDescriptors sampleDepth (F32.fin 1) (F32.fin 1) F32.zero F32.zero (F32.fin 5)
    (by decide) (by decide)

/-! ## Backend configuration: lemmas and claims -/

theorem parse_reparsed {α : Type} (conv : String → α) (parameters : ParametersMap)
    (key : String) (value : α) :
    Reparsed conv parameters key value (Parameters.parse conv parameters key value) := by
  unfold Reparsed Parameters.parse
  constructor
  · intro mapped h
    rw [h]
  · intro h
    rw [h]

theorem reparsed_twice {α : Type} {conv : String → α} {parameters : ParametersMap}
    {key : String} {a b c : α} (hab : Reparsed conv parameters key a b)
    (hbc : Reparsed conv parameters key b c) : Reparsed conv parameters key a c :=
  ⟨hbc.1, fun h => (hbc.2 h).trans (hab.2 h)⟩

theorem parseParameters_reconfigured_SURF (P : Parameters) (cudaEnabledDeviceCount : Int)
    (self : SURF) (parameters : ParametersMap) :
    SURF.Reconfigured P parameters self
      (SURF.parseParameters P cudaEnabledDeviceCount self parameters) := by
  unfold SURF.Reconfigured SURF.parseParameters
  simp only
  split <;>
  exact ⟨parse_reparsed _ _ _ _, parse_reparsed _ _ _ _, parse_reparsed _ _ _ _,
    parse_reparsed _ _ _ _, parse_reparsed _ _ _ _, parse_reparsed _ _ _ _,
    parse_reparsed _ _ _ _⟩

theorem parseParameters_reconfigured_SIFT (P : Parameters) (self : SIFT)
    (parameters : ParametersMap) :
    SIFT.Reconfigured P parameters self (SIFT.parseParameters P self parameters) := by
  unfold SIFT.Reconfigured SIFT.parseParameters
  exact ⟨parse_reparsed _ _ _ _, parse_reparsed _ _ _ _, parse_reparsed _ _ _ _,
    parse_reparsed _ _ _ _, parse_reparsed _ _ _ _⟩

theorem parseParameters_reconfigured_ORB (P : Parameters) (cudaEnabledDeviceCount : Int)
    (self : ORB) (parameters : ParametersMap) :
    ORB.Reconfigured P parameters self
      (ORB.parseParameters P cudaEnabledDeviceCount self parameters) := by
  unfold ORB.Reconfigured ORB.parseParameters
  simp only
  split <;>
  exact ⟨parse_reparsed _ _ _ _, parse_reparsed _ _ _ _, parse_reparsed _ _ _ _,
    parse_reparsed _ _ _ _, parse_reparsed _ _ _ _, parse_reparsed _ _ _ _,
    parse_reparsed _ _ _ _, parse_reparsed _ _ _ _, parse_reparsed _ _ _ _,
    parse_reparsed _ _ _ _, parse_reparsed _ _ _ _⟩

theorem parseParameters_reconfigured_FAST (P : Parameters) (cudaEnabledDeviceCount : Int)
    (self : FAST) (parameters : ParametersMap) :
    FAST.Reconfigured P parameters self
      (FAST.parseParameters P cudaEnabledDeviceCount self parameters) := by
  unfold FAST.Reconfigured FAST.parseParameters
  simp only
  split <;>
  exact ⟨parse_reparsed _ _ _ _, parse_reparsed _ _ _ _, parse_reparsed _ _ _ _,
    parse_reparsed _ _ _ _⟩

theorem reconfigured_twice_FAST {P : Parameters} {parameters : ParametersMap}
    {a b c : FAST} (hab : FAST.Reconfigured P parameters a b)
    (hbc : FAST.Reconfigured P parameters b c) : FAST.Reconfigured P parameters a c :=
  ⟨reparsed_twice hab.1 hbc.1, reparsed_twice hab.2.1 hbc.2.1,
    reparsed_twice hab.2.2.1 hbc.2.2.1, reparsed_twice hab.2.2.2 hbc.2.2.2⟩

theorem parseParameters_reconfigured_FAST_BRIEF (P : Parameters)
    (cudaEnabledDeviceCount : Int) (self : FAST_BRIEF) (parameters : ParametersMap) :
    FAST_BRIEF.Reconfigured P parameters self
      (FAST_BRIEF.parseParameters P cudaEnabledDeviceCount self parameters) := by
  unfold FAST_BRIEF.Reconfigured FAST_BRIEF.parseParameters
  exact ⟨parseParameters_reconfigured_FAST _ _ _ _, parse_reparsed _ _ _ _⟩

theorem parseParameters_reconfigured_FAST_FREAK (P : Parameters)
    (cudaEnabledDeviceCount : Int) (self : FAST_FREAK) (parameters : ParametersMap) :
    FAST_FREAK.Reconfigured P parameters self
      (FAST_FREAK.parseParameters P cudaEnabledDeviceCount self parameters) := by
  unfold FAST_FREAK.Reconfigured FAST_FREAK.parseParameters
  exact ⟨parseParameters_reconfigured_FAST _ _ _ _, parse_reparsed _ _ _ _,
    parse_reparsed _ _ _ _, parse_reparsed _ _ _ _, parse_reparsed _ _ _ _⟩

/-- C20 as stated fails on a reconfiguration: a `FAST` backend constructed with the key
`FAST/Threshold` mapped to 99 and then reconfigured with a mapping without that key
keeps the threshold 99; it does not take the compiled-in default 30. -/
theorem parseParameters_absent_key_counterexample :
    List.lookup sampleParameters.kFASTThreshold ([] : ParametersMap) = none ∧
    (FAST.constructor sampleParameters 0 [("FAST/Threshold", "99")]).threshold_ = 99 ∧
    (FAST.parseParameters sampleParameters 0
      (FAST.constructor sampleParameters 0 [("FAST/Threshold", "99")]) []).threshold_ = 99 ∧
    (FAST.parseParameters sampleParameters 0
      (FAST.constructor sampleParameters 0 [("FAST/Threshold", "99")]) []).threshold_
        ≠ sampleParameters.defaultFASTThreshold := by
  decide

/-- C20, amended. Whenever `parseParameters` is applied to a backend (`SURF`, `SIFT`,
`ORB`, `FAST`, `FAST_BRIEF`, `FAST_FREAK`), every tunable whose key is present in the
supplied mapping takes the mapped value and every tunable whose key is absent keeps the
value it held before the call; on construction that value is the compiled-in default,
so a constructed backend has each tunable at the mapped value or at its default. -/
theorem parseParameters_reconfigures (P : Parameters) (cudaEnabledDeviceCount : Int)
    (parameters : ParametersMap) :
    (∀ self : SURF, SURF.Reconfigured P parameters self
      (SURF.parseParameters P cudaEnabledDeviceCount self parameters)) ∧
    (∀ self : SIFT, SIFT.Reconfigured P parameters self
      (SIFT.parseParameters P self parameters)) ∧
    (∀ self : ORB, ORB.Reconfigured P parameters self
      (ORB.parseParameters P cudaEnabledDeviceCount self parameters)) ∧
    (∀ self : FAST, FAST.Reconfigured P parameters self
      (FAST.parseParameters P cudaEnabledDeviceCount self parameters)) ∧
    (∀ self : FAST_BRIEF, FAST_BRIEF.Reconfigured P parameters self
      (FAST_BRIEF.parseParameters P cudaEnabledDeviceCount self parameters)) ∧
    (∀ self : FAST_FREAK, FAST_FREAK.Reconfigured P parameters self
      (FAST_FREAK.parseParameters P cudaEnabledDeviceCount self parameters)) ∧
    SURF.Reconfigured P parameters (SURF.initial P)
      (SURF.constructor P cudaEnabledDeviceCount parameters) ∧
    SIFT.Reconfigured P parameters (SIFT.initial P) (SIFT.constructor P parameters) ∧
    ORB.Reconfigured P parameters (ORB.initial P)
      (ORB.constructor P cudaEnabledDeviceCount parameters) ∧
    FAST.Reconfigured P parameters (FAST.initial P)
      (FAST.constructor P cudaEnabledDeviceCount parameters) ∧
    FAST_BRIEF.Reconfigured P parameters (FAST_BRIEF.initial P)
      (FAST_BRIEF.constructor P cudaEnabledDeviceCount parameters) ∧
    FAST_FREAK.Reconfigured P parameters (FAST_FREAK.initial P)
      (FAST_FREAK.constructor P cudaEnabledDeviceCount parameters) := by
  refine ⟨fun self => parseParameters_reconfigured_SURF P _ self parameters,
    fun self => parseParameters_reconfigured_SIFT P self parameters,
    fun self => parseParameters_reconfigured_ORB P _ self parameters,
    fun self => parseParameters_reconfigured_FAST P _ self parameters,
    fun self => parseParameters_reconfigured_FAST_BRIEF P _ self parameters,
    fun self => parseParameters_reconfigured_FAST_FREAK P _ self parameters,
    parseParameters_reconfigured_SURF P _ _ parameters,
    parseParameters_reconfigured_SIFT P _ parameters,
    parseParameters_reconfigured_ORB P _ _ parameters,
    parseParameters_reconfigured_FAST P _ _ parameters, ?_, ?_⟩
  · have hbase : FAST.Reconfigured P parameters (FAST.initial P)
        (FAST.constructor P cudaEnabledDeviceCount parameters) :=
      parseParameters_reconfigured_FAST P _ _ parameters
    have hown := parseParameters_reconfigured_FAST_BRIEF P cudaEnabledDeviceCount
      { toFAST := FAST.constructor P cudaEnabledDeviceCount parameters,
        bytes_ := P.defaultBRIEFBytes, _brief := none } parameters
    exact ⟨reconfigured_twice_FAST hbase hown.1, hown.2⟩
  · have hbase : FAST.Reconfigured P parameters (FAST.initial P)
        (FAST.constructor P cudaEnabledDeviceCount parameters) :=
      parseParameters_reconfigured_FAST P _ _ parameters
    have hown := parseParameters_reconfigured_FAST_FREAK P cudaEnabledDeviceCount
      { toFAST := FAST.constructor P cudaEnabledDeviceCount parameters,
        orientationNormalized_ := P.defaultFREAKOrientationNormalized,
        scaleNormalized_ := P.defaultFREAKScaleNormalized,
        patternScale_ := P.defaultFREAKPatternScale,
        nOctaves_ := P.defaultFREAKNOctaves, _freak := none } parameters
    exact ⟨reconfigured_twice_FAST hbase hown.1, hown.2⟩

/-! ## Engines after a configuration pass -/

theorem parseParameters_oneEngine_SURF (P : Parameters) (cudaEnabledDeviceCount : Int)
    (self : SURF) (parameters : ParametersMap) :
    SURF.OneEngine cudaEnabledDeviceCount
      (SURF.parseParameters P cudaEnabledDeviceCount self parameters) := by
  unfold SURF.OneEngine SURF.parseParameters
  simp only
  split
  · rename_i h
    simp only [Bool.and_eq_true, bne_iff_ne, ne_eq] at h
    simp [h]
  · rename_i h
    simp only [Bool.and_eq_true, bne_iff_ne, ne_eq] at h
    simp [h]

theorem parseParameters_oneEngine_ORB (P : Parameters) (cudaEnabledDeviceCount : Int)
    (self : ORB) (parameters : ParametersMap) :
    ORB.OneEngine cudaEnabledDeviceCount
      (ORB.parseParameters P cudaEnabledDeviceCount self parameters) := by
  unfold ORB.OneEngine ORB.parseParameters
  simp only
  split
  · rename_i h
    simp only [Bool.and_eq_true, bne_iff_ne, ne_eq] at h
    simp [h]
  · rename_i h
    simp only [Bool.and_eq_true, bne_iff_ne, ne_eq] at h
    simp [h]

theorem parseParameters_oneEngine_FAST (P : Parameters) (cudaEnabledDeviceCount : Int)
    (self : FAST) (parameters : ParametersMap) :
    FAST.OneEngine cudaEnabledDeviceCount
      (FAST.parseParameters P cudaEnabledDeviceCount self parameters) := by
  unfold FAST.OneEngine FAST.parseParameters
  simp only
  split
  · rename_i h
    simp only [Bool.and_eq_true, bne_iff_ne, ne_eq] at h
    simp [h]
  · rename_i h
    simp only [Bool.and_eq_true, bne_iff_ne, ne_eq] at h
    simp [h]

theorem assertion_of_mono8 (image : Mat) (himage : image.empty = false)
    (hchannels : image.channels = 1) (hdepth : image.depth = CV_8U) :
    UASSERT (!image.empty && image.channels == 1 && image.depth == CV_8U) = some () := by
  simp [UASSERT, himage, hchannels, hdepth]

/-- With one engine present the detection step of `SURF` returns whenever the OpenCV
operations it calls return. -/
theorem generateKeypointsImpl_returns_SURF (cv : OpenCV) (count : Int) (self : SURF)
    (image : Mat) (roi : Rect) (hone : SURF.OneEngine count self)
    (himage : image.empty = false) (hchannels : image.channels = 1)
    (hdepth : image.depth = CV_8U) (hroi : (cv.roi image roi).isSome = true)
    (hcpu : ∀ engine m, (cv.detectSURF engine m).isSome = true)
    (hgpu : ∀ engine m, (cv.detectSURF_GPU engine m).isSome = true) :
    (SURF.generateKeypointsImpl cv self image roi).isSome = true := by
  obtain ⟨imgRoi, himgRoi⟩ := Option.isSome_iff_exists.1 hroi
  unfold SURF.generateKeypointsImpl
  rw [assertion_of_mono8 image himage hchannels hdepth, Option.some_bind, himgRoi,
    Option.some_bind]
  cases hg : self._gpuSurf with
  | some engine => exact hgpu engine imgRoi
  | none =>
    cases hs : self._surf with
    | some engine => exact hcpu engine imgRoi
    | none =>
      exfalso
      have hne := hone.2.2
      rw [hg, hs] at hne
      exact hne rfl

/-- With one engine present the detection step of `ORB` returns whenever the OpenCV
operations it calls return. -/
theorem generateKeypointsImpl_returns_ORB (cv : OpenCV) (count : Int) (self : ORB)
    (image : Mat) (roi : Rect) (hone : ORB.OneEngine count self)
    (himage : image.empty = false) (hchannels : image.channels = 1)
    (hdepth : image.depth = CV_8U) (hroi : (cv.roi image roi).isSome = true)
    (hcpu : ∀ engine m, (cv.detectORB engine m).isSome = true)
    (hgpu : ∀ engine m, (cv.detectORB_GPU engine m).isSome = true) :
    (ORB.generateKeypointsImpl cv self image roi).isSome = true := by
  obtain ⟨imgRoi, himgRoi⟩ := Option.isSome_iff_exists.1 hroi
  unfold ORB.generateKeypointsImpl
  rw [assertion_of_mono8 image himage hchannels hdepth, Option.some_bind, himgRoi,
    Option.some_bind]
  cases hg : self._gpuOrb with
  | some engine => exact hgpu engine imgRoi
  | none =>
    cases hs : self._orb with
    | some engine => exact hcpu engine imgRoi
    | none =>
      exfalso
      have hne := hone.2.2
      rw [hg, hs] at hne
      exact hne rfl

/-- With one engine present the detection step of `FAST` returns whenever the OpenCV
operations it calls return. -/
theorem generateKeypointsImpl_returns_FAST (cv : OpenCV) (count : Int) (self : FAST)
    (image : Mat) (roi : Rect) (hone : FAST.OneEngine count self)
    (himage : image.empty = false) (hchannels : image.channels = 1)
    (hdepth : image.depth = CV_8U) (hroi : (cv.roi image roi).isSome = true)
    (hcpu : ∀ engine m, (cv.detectFast engine m).isSome = true)
    (hgpu : ∀ engine m, (cv.detectFAST_GPU engine m).isSome = true) :
    (FAST.generateKeypointsImpl cv self image roi).isSome = true := by
  obtain ⟨imgRoi, himgRoi⟩ := Option.isSome_iff_exists.1 hroi
  unfold FAST.generateKeypointsImpl
  rw [assertion_of_mono8 image himage hchannels hdepth, Option.some_bind, himgRoi,
    Option.some_bind]
  cases hg : self._gpuFast with
  | some engine => exact hgpu engine imgRoi
  | none =>
    cases hs : self._fast with
    | some engine => exact hcpu engine imgRoi
    | none =>
      exfalso
      have hne := hone.2.2
      rw [hg, hs] at hne
      exact hne rfl

/-- C21. After construction and after every `parseParameters` call on `SURF`, `ORB` or
`FAST`, exactly one engine exists: the accelerated engine if and only if the resulting
GPU flag is true and the device count probed during the call is not zero, the standard
engine otherwise. Hence the detection step of the configured object, on a non-empty
one-channel 8-bit image and with OpenCV operations that return, returns keypoints: it
never calls through a null engine. -/
theorem parseParameters_one_engine (P : Parameters) (cudaEnabledDeviceCount : Int)
    (parameters : ParametersMap) (cv : OpenCV) :
    (∀ self : SURF, SURF.OneEngine cudaEnabledDeviceCount
      (SURF.parseParameters P cudaEnabledDeviceCount self parameters)) ∧
    (∀ self : ORB, ORB.OneEngine cudaEnabledDeviceCount
      (ORB.parseParameters P cudaEnabledDeviceCount self parameters)) ∧
    (∀ self : FAST, FAST.OneEngine cudaEnabledDeviceCount
      (FAST.parseParameters P cudaEnabledDeviceCount self parameters)) ∧
    SURF.OneEngine cudaEnabledDeviceCount
      (SURF.constructor P cudaEnabledDeviceCount parameters) ∧
    ORB.OneEngine cudaEnabledDeviceCount
      (ORB.constructor P cudaEnabledDeviceCount parameters) ∧
    FAST.OneEngine cudaEnabledDeviceCount
      (FAST.constructor P cudaEnabledDeviceCount parameters) ∧
    (∀ (image : Mat) (roi : Rect), image.empty = false → image.channels = 1 →
      image.depth = CV_8U → (cv.roi image roi).isSome = true →
      (∀ self : SURF, (∀ engine m, (cv.detectSURF engine m).isSome = true) →
        (∀ engine m, (cv.detectSURF_GPU engine m).isSome = true) →
        (SURF.generateKeypointsImpl cv
          (SURF.parseParameters P cudaEnabledDeviceCount self parameters)
          image roi).isSome = true) ∧
      (∀ self : ORB, (∀ engine m, (cv.detectORB engine m).isSome = true) →
        (∀ engine m, (cv.detectORB_GPU engine m).isSome = true) →
        (ORB.generateKeypointsImpl cv
          (ORB.parseParameters P cudaEnabledDeviceCount self parameters)
          image roi).isSome = true) ∧
      (∀ self : FAST, (∀ engine m, (cv.detectFast engine m).isSome = true) →
        (∀ engine m, (cv.detectFAST_GPU engine m).isSome = true) →
        (FAST.generateKeypointsImpl cv
          (FAST.parseParameters P cudaEnabledDeviceCount self parameters)
          image roi).isSome = true)) := by
  refine ⟨fun self => parseParameters_oneEngine_SURF P _ self parameters,
    fun self => parseParameters_oneEngine_ORB P _ self parameters,
    fun self => parseParameters_oneEngine_FAST P _ self parameters,
    parseParameters_oneEngine_SURF P _ _ parameters,
    parseParameters_oneEngine_ORB P _ _ parameters,
    parseParameters_oneEngine_FAST P _ _ parameters, ?_⟩
  intro image roi himage hchannels hdepth hroi
  exact ⟨fun self hcpu hgpu => generateKeypointsImpl_returns_SURF cv _ _ image roi
      (parseParameters_oneEngine_SURF P cudaEnabledDeviceCount self parameters)
      himage hchannels hdepth hroi hcpu hgpu,
    fun self hcpu hgpu => generateKeypointsImpl_returns_ORB cv _ _ image roi
      (parseParameters_oneEngine_ORB P cudaEnabledDeviceCount self parameters)
      himage hchannels hdepth hroi hcpu hgpu,
    fun self hcpu hgpu => generateKeypointsImpl_returns_FAST cv _ _ image roi
      (parseParameters_oneEngine_FAST P cudaEnabledDeviceCount self parameters)
      himage hchannels hdepth hroi hcpu hgpu⟩

/-- C21 on examples: a `SURF` constructed with no key and no device has the standard
engine only, and the detection step of a reconfigured `FAST` returns on a 4 x 4
image. -/
theorem parseParameters_one_engine_witness :
    (SURF.constructor sampleParameters 0 [])._surf.isSome = true ∧
    (SURF.constructor sampleParameters 0 [])._gpuSurf.isSome = false ∧
    (FAST.generateKeypointsImpl sampleOpenCV
      (FAST.parseParameters sampleParameters 1 (FAST.initial sampleParameters) [])
      (blankImage 4 4) ⟨0, 0, 4, 4⟩).isSome = true :=
  have h := parseParameters_one_engine sampleParameters 0 [] sampleOpenCV
  have h1 := parseParameters_one_engine sampleParameters 1 [] sampleOpenCV
  ⟨h.2.2.2.1.2.1.2 (fun hc => hc.2 rfl),
    by
      cases hg : (SURF.constructor sampleParameters 0 [])._gpuSurf.isSome with
      | false => rfl
      | true => exact absurd rfl (h.2.2.2.1.1.1 hg).2,
    (h1.2.2.2.2.2.2 (blankImage 4 4) ⟨0, 0, 4, 4⟩ (by decide) (by decide) (by decide)
      rfl).2.2 (FAST.initial sampleParameters) (fun _ _ => rfl) (fun _ _ => rfl)⟩

/-! ## Claim on `Link` -/

/-- C22. For every `Link`, `isValid()` is true if and only if `from > 0`, `to > 0`, the
transform is not null and the type is not `kUndef`; in particular a default-constructed
`Link` (`from` 0, `to` 0, type `kUndef`) is not valid, whatever its transform. -/
theorem Link_isValid_iff {Transform : Type} (isNull : Transform → Bool)
    (link : Link Transform) (transform : Transform) :
    (Link.isValid isNull link = true ↔
      (0 < link.from_ ∧ 0 < link.to_ ∧ isNull link.transform_ = false ∧
        link.type_ ≠ LinkType.kUndef)) ∧
    (Link.defaultConstructor transform).from_ = 0 ∧
    (Link.defaultConstructor transform).to_ = 0 ∧
    (Link.defaultConstructor transform).type_ = LinkType.kUndef ∧
    Link.isValid isNull (Link.defaultConstructor transform) = false := by
  refine ⟨?_, rfl, rfl, rfl, ?_⟩
  · simp [Link.isValid, and_assoc]
  · simp [Link.isValid, Link.defaultConstructor]

/-! ## Ties in the ranking of `limitKeypoints` -/

theorem F32.not_le_of_lt {a b : F32} (h : F32.lt a b = true) : F32.le b a = false := by
  cases a <;> cases b <;> simp_all [F32.lt, F32.le]

theorem F32.le_self {a : F32} (h : a ≠ F32.nan) : F32.le a a = true := by
  cases a <;> simp_all [F32.le]

/-- Insertion at the upper bound keeps the entries ordered by key and, among equal
keys, by index, when the new index is above all the indices present. -/
theorem upperBoundInsert_stable (m : List (F32 × Nat)) (e : F32 × Nat)
    (hm : ∀ x ∈ m, x.1 ≠ F32.nan) (he : e.1 ≠ F32.nan)
    (hidx : ∀ x ∈ m, x.2 < e.2)
    (hs : m.Pairwise (fun x y =>
      F32.le x.1 y.1 = true ∧ (F32.le y.1 x.1 = true → x.2 < y.2))) :
    (upperBoundInsert m e).Pairwise (fun x y =>
      F32.le x.1 y.1 = true ∧ (F32.le y.1 x.1 = true → x.2 < y.2)) := by
  induction m with
  | nil => simp [upperBoundInsert]
  | cons x xs ih =>
    rw [List.pairwise_cons] at hs
    unfold upperBoundInsert
    split
    · rename_i hlt
      have hex := F32.lt_imp_le hlt
      have hxe := F32.not_le_of_lt hlt
      refine List.Pairwise.cons ?_ (List.Pairwise.cons hs.1 hs.2)
      intro y hy
      rcases List.mem_cons.1 hy with rfl | hy
      · exact ⟨hex, fun h => by rw [hxe] at h; exact absurd h (by simp)⟩
      · refine ⟨F32.le_chain hex (hs.1 y hy).1, fun h => ?_⟩
        have := F32.le_chain (hs.1 y hy).1 h
        rw [hxe] at this
        exact absurd this (by simp)
    · rename_i hlt
      have hxe : F32.le x.1 e.1 = true :=
        F32.le_of_not_lt he (hm x (List.mem_cons_self _ _)) (by simpa using hlt)
      refine List.Pairwise.cons ?_
        (ih (fun y hy => hm y (List.mem_cons_of_mem _ hy))
          (fun y hy => hidx y (List.mem_cons_of_mem _ hy)) hs.2)
      intro y hy
      rcases List.mem_cons.1 ((upperBoundInsert_perm xs e).mem_iff.1 hy) with rfl | hy
      · exact ⟨hxe, fun _ => hidx x (List.mem_cons_self _ _)⟩
      · exact hs.1 y hy

theorem hessianFold_stable (keypoints : List KeyPoint)
    (h : ∀ kp ∈ keypoints, kp.response ≠ F32.nan) (k : Nat) :
    ((List.range k).foldl
      (fun m i => upperBoundInsert m (F32.fabs (keypoints.getD i default).response, i)) []).Pairwise
        (fun x y => F32.le x.1 y.1 = true ∧ (F32.le y.1 x.1 = true → x.2 < y.2)) := by
  induction k with
  | zero => simp
  | succ k ih =>
    rw [List.range_succ, List.foldl_append]
    simp only [List.foldl_cons, List.foldl_nil]
    refine upperBoundInsert_stable _ _ ?_ ?_ ?_ ih
    · intro x hx
      rw [hessianFold_key keypoints k x hx]
      exact F32.fabs_ne_nan (getD_response_ne_nan keypoints h _)
    · exact F32.fabs_ne_nan (getD_response_ne_nan keypoints h _)
    · intro x hx
      have hmem : x.2 ∈ ((List.range k).foldl
          (fun m i => upperBoundInsert m (F32.fabs (keypoints.getD i default).response, i))
          []).map Prod.snd := List.mem_map_of_mem _ hx
      exact List.mem_range.1 ((hessianFold_perm keypoints k).mem_iff.1 hmem)

/-- The ranking visits tied keypoints from the largest original index down. -/
theorem ranking_ties (keypoints : List KeyPoint)
    (hnan : ∀ kp ∈ keypoints, kp.response ≠ F32.nan) :
    ((buildHessianMap keypoints).reverse.map Prod.snd).Pairwise
      (fun i j => F32.fabs (keypoints.getD i default).response
          = F32.fabs (keypoints.getD j default).response → j < i) := by
  rw [buildHessianMap_eq keypoints hnan, List.pairwise_map, List.pairwise_reverse]
  have hs := hessianFold_stable keypoints hnan keypoints.length
  have hk := hessianFold_key keypoints keypoints.length
  refine List.Pairwise.imp_of_mem ?_ hs
  intro a b ha hb hab heq
  apply hab.2
  rw [hk a ha, hk b hb, heq]
  exact F32.le_self (F32.fabs_ne_nan (getD_response_ne_nan keypoints hnan _))

/-- C23 as stated fails: of the two keypoints tied at response 0.5, the one with the
larger original index (1) comes first in the output when both are kept, and is the one
kept when `maxKeypoints = 1` cuts inside the tie; the keypoint of index 0 is dropped. -/
theorem limitKeypoints_tie_counterexample :
    F32.fabs (tiedKeypoints.getD 0 default).response
      = F32.fabs (tiedKeypoints.getD 1 default).response ∧
    limitKeypoints tiedKeypoints Mat.nil 2
      = some ([tiedKeypoints.getD 1 default, tiedKeypoints.getD 0 default], Mat.nil) ∧
    limitKeypoints tiedKeypoints Mat.nil 1
      = some ([tiedKeypoints.getD 1 default], Mat.nil) ∧
    tiedKeypoints.getD 0 default ≠ tiedKeypoints.getD 1 default := by
  decide

/-- C23, amended. When `limitKeypoints` prunes (`maxKeypoints > 0` and more than
`maxKeypoints` keypoints, none with a NaN response), keypoints with equal absolute
response are ranked in descending original index: among tied keypoints the one with
the larger original index appears earlier in the output and is the one kept when the
cut falls inside the tie. -/
theorem limitKeypoints_tie_order (keypoints : List KeyPoint) (descriptors : Mat)
    (maxKeypoints : Int) (hmax : 0 < maxKeypoints)
    (hmore : maxKeypoints < (keypoints.length : Int))
    (hrows : descriptors.rows = 0 ∨ descriptors.rows = keypoints.length)
    (hnan : ∀ kp ∈ keypoints, kp.response ≠ F32.nan) :
    ∃ (kept : List Nat) (descriptors' : Mat),
      limitKeypoints keypoints descriptors maxKeypoints
        = some (kept.map (fun i => keypoints.getD i default), descriptors') ∧
      kept.Nodup ∧
      (∀ i ∈ kept, i < keypoints.length) ∧
      kept.Pairwise (fun i j =>
        F32.fabs (keypoints.getD i default).response
          = F32.fabs (keypoints.getD j default).response → j < i) ∧
      ∀ i j, i < j → j < keypoints.length →
        F32.fabs (keypoints.getD i default).response
          = F32.fabs (keypoints.getD j default).response →
        i ∈ kept → j ∈ kept := by
  have hM : maxKeypoints.toNat ≤ keypoints.length := by omega
  obtain ⟨_, hnodup, hrange, _, _⟩ := ranking_take keypoints hnan maxKeypoints.toNat hM
  have hties := ranking_ties keypoints hnan
  have hperm := ranking_perm keypoints
  rw [← List.take_append_drop maxKeypoints.toNat
    ((buildHessianMap keypoints).reverse.map Prod.snd), List.pairwise_append] at hties
  obtain ⟨descriptors', hrun, _, _⟩ :=
    limitKeypoints_prune keypoints descriptors maxKeypoints hmax hmore hrows
  refine ⟨_, descriptors', hrun, hnodup, hrange, ?_, ?_⟩
  · rw [List.map_take]
    exact hties.1
  · intro i j hij hj heq hi
    rw [List.map_take] at hi ⊢
    by_contra hjn
    have hjall : j ∈ (buildHessianMap keypoints).reverse.map Prod.snd :=
      hperm.mem_iff.2 (List.mem_range.2 hj)
    rw [← List.take_append_drop maxKeypoints.toNat
      ((buildHessianMap keypoints).reverse.map Prod.snd), List.mem_append] at hjall
    rcases hjall with h | h
    · exact hjn h
    · have := hties.2.2 i hi j h heq
      omega

/-- C23, amended, on the three keypoints with responses 0.5, 0.5, 0.1 and
`maxKeypoints = 1`. -/
theorem limitKeypoints_tie_order_witness :
    ∃ (kept : List Nat) (descriptors' : Mat),
      limitKeypoints tiedKeypoints Mat.nil 1
        = some (kept.map (fun i => tiedKeypoints.getD i default), descriptors') ∧
      kept.Nodup ∧
      (∀ i ∈ kept, i < tiedKeypoints.length) ∧
      kept.Pairwise (fun i j =>
        F32.fabs (tiedKeypoints.getD i default).response
          = F32.fabs (tiedKeypoints.getD j default).response → j < i) ∧
      ∀ i j, i < j → j < tiedKeypoints.length →
        F32.fabs (tiedKeypoints.getD i default).response
          = F32.fabs (tiedKeypoints.getD j default).response →
        i ∈ kept → j ∈ kept :=
  limitKeypoints_tie_order tiedKeypoints Mat.nil 1 (by decide) (by decide) (by decide)
    (by decide)

/-! ## `computeRoi` when opposite ratios sum to one or more -/

/-- Along one axis, when the two ratios sum to at least one neither is applied: the
origin is 0 and the extent is the whole size. -/
theorem axis_not_applied (size : Int) (l r : ℚ) (hl : F32.Rep l) (hr : F32.Rep r)
    (hl1 : l ≤ 1) (hr1 : r ≤ 1) (h : 1 ≤ l + r) :
    specOrigin size (F32.fin l) (F32.fin r) = 0 ∧
    specExtent size (F32.fin l) (F32.fin r) = size := by
  have hgl : F32.lt (F32.fin l) (F32.sub (F32.ofInt 1) (F32.fin r)) = false := by
    rw [Bool.eq_false_iff]
    intro hg
    have := F32.guard_sum_lt l r hl hr1 hg
    linarith
  have hgr : F32.lt (F32.fin r) (F32.sub (F32.ofInt 1) (F32.fin l)) = false := by
    rw [Bool.eq_false_iff]
    intro hg
    have := F32.guard_sum_lt r l hr hl1 hg
    linarith
  have hx : specOrigin size (F32.fin l) (F32.fin r) = 0 := by
    simp [specOrigin, hgl]
  refine ⟨hx, ?_⟩
  rw [specExtent, hx]
  simp [hgr]

/-- C24 as stated fails: on an image of 16777219 columns and one row, with the ratios
0.5, 0.5, 0, 0 (left + right = 1), neither horizontal ratio is applied but the width
returned is the float 16777220 the width of the image became, not `W`. -/
theorem computeRoi_opposite_ratios_counterexample :
    (blankImage 16777219 1).empty = false ∧
    computeRoi (blankImage 16777219 1) halfRatios = some ⟨0, 0, 16777220, 1⟩ ∧
    (16777220 : Int) ≠ (blankImage 16777219 1).cols := by
  decide

/-- C24, amended. For every non-empty `W x H` image with `W, H <= 16777216` and ratios,
binary32 values in `[0, 1)`: if `left + right >= 1` (exactly 1 included) then neither
horizontal ratio is applied and `computeRoi` returns `x = 0` and `width = W`; likewise
if `top + bottom >= 1` then `y = 0` and `height = H`. -/
theorem computeRoi_opposite_ratios (image : Mat) (left right top bottom : ℚ)
    (himage : image.empty = false) (hcols : image.cols ≤ 16777216)
    (hrows : image.rows ≤ 16777216)
    (hfloat : ∀ q ∈ [left, right, top, bottom], F32.isBinary32 (F32.fin q) = true)
    (hratios : ∀ q ∈ [left, right, top, bottom], 0 ≤ q ∧ q < 1) :
    ∃ roi : Rect,
      computeRoi image [F32.fin left, F32.fin right, F32.fin top, F32.fin bottom]
        = some roi ∧
      (1 ≤ left + right → roi.x = 0 ∧ roi.width = image.cols) ∧
      (1 ≤ top + bottom → roi.y = 0 ∧ roi.height = image.rows) := by
  have hl := hratios left (by simp)
  have hr := hratios right (by simp)
  have ht := hratios top (by simp)
  have hb := hratios bottom (by simp)
  refine ⟨_, computeRoi_eq_specRoi image left right top bottom himage hcols hrows
    hl.1 hl.2 hr.1 hr.2 ht.1 ht.2 hb.1 hb.2, ?_, ?_⟩
  · intro hsum
    exact axis_not_applied image.cols left right
      (F32.rep_of_isBinary32 _ (hfloat left (by simp)))
      (F32.rep_of_isBinary32 _ (hfloat right (by simp)))
      (le_of_lt hl.2) (le_of_lt hr.2) hsum
  · intro hsum
    exact axis_not_applied image.rows top bottom
      (F32.rep_of_isBinary32 _ (hfloat top (by simp)))
      (F32.rep_of_isBinary32 _ (hfloat bottom (by simp)))
      (le_of_lt ht.2) (le_of_lt hb.2) hsum

/-- C24, amended, on a 100 x 100 image with the ratios 0.5, 0.5 (sum exactly one) and
0.75, 0.5: the whole image is returned. -/
theorem computeRoi_opposite_ratios_witness :
    computeRoi (blankImage 100 100) excessiveRatios = some ⟨0, 0, 100, 100⟩ ∧
    (1 : ℚ) ≤ mkRat 1 2 + mkRat 1 2 ∧ (1 : ℚ) ≤ mkRat 3 4 + mkRat 1 2 ∧
    ∃ roi : Rect,
      computeRoi (blankImage 100 100)
          [F32.fin (mkRat 1 2), F32.fin (mkRat 1 2), F32.fin (mkRat 3 4),
            F32.fin (mkRat 1 2)] = some roi ∧
      ((1 : ℚ) ≤ mkRat 1 2 + mkRat 1 2 →
        roi.x = 0 ∧ roi.width = (blankImage 100 100).cols) ∧
      ((1 : ℚ) ≤ mkRat 3 4 + mkRat 1 2 →
        roi.y = 0 ∧ roi.height = (blankImage 100 100).rows) :=
  ⟨by decide, by norm_num, by norm_num,
   computeRoi_opposite_ratios (blankImage 100 100) (mkRat 1 2) (mkRat 1 2) (mkRat 3 4)
    (mkRat 1 2) (by decide) (by decide) (by decide) (by decide) (by decide)⟩
end rtabmap
